import Mathlib

/-!
# BMP load, draw and save: a shallow embedding of `work-with-bmp-file-consoleapp.cpp`

The program keeps a `BmpImage` (three `int` fields and a `vector<vector<Pixel>>`),
fills it from a file with `load`, draws a cross with `drawX` and writes it back with `save`.
This file embeds the codec, `BmpImage::load`, `BmpImage::save`, `BmpImage::drawLine` and
`BmpImage::drawX`, statement by statement.

Modelling conventions.

* A file is a `List Byte`; a file that cannot be opened is `none`.
* `int` is 32 bits wide.  It is modelled by `Int`, and every arithmetic operation whose
  result may leave `[INT_MIN, INT_MAX]` goes through `chkInt`: signed overflow is undefined
  behaviour in C++ and is reported as `Fault.undefined`.
* `std::vector::operator[]` outside the vector and the evaluation of a header field whose
  bytes were never read are undefined behaviour as well (`Fault.undefined`).
* A `std::vector` constructed with more than `max_size()` elements throws
  `std::length_error`, which nothing catches (`Fault.lengthError`).  Allocations below that
  limit are taken to succeed.
* `std::ifstream::read` stores the bytes it could get at the front of the buffer, leaves the
  rest of the buffer as it was and sets `failbit` when it got fewer than asked; once
  `failbit` is set every later `read` and `seekg` does nothing.  The program never looks at
  the stream state after opening the file.
* What is written to `std::cerr` is kept as a value of `Msg`.
* The loop `while (true)` of `drawLine` is run for a given number of iterations (`fuel`);
  the result `none` says that the loop has not reached its `break` within them.  That the
  loop does reach it, and after how many iterations, is proved, not assumed.
-/

namespace Bmp

/-! ## Data model -/

/-- The type `uint8_t`. -/
abbrev Byte := Fin 256

/-- Ways in which a call can end without returning. -/
inductive Fault where
  | undefined
  | lengthError
deriving DecidableEq, Repr

/-- The struct `Pixel`: `uint8_t r, g, b, a = 255`. -/
structure Pixel where
  r : Byte
  g : Byte
  b : Byte
  a : Byte := 255
deriving DecidableEq, Repr

/-- The value-initialised `Pixel()` that `std::vector<Pixel>(width)` is filled with:
`r`, `g`, `b` zero-initialised, `a` set by its default member initialiser. -/
def Pixel.init : Pixel := { r := 0, g := 0, b := 0, a := 255 }

/-- The pixel `{ 0, 0, 0, 255 }` written by `drawLine`. -/
def Pixel.black : Pixel := { r := 0, g := 0, b := 0, a := 255 }

/-- The member function `isBlack` of `BmpImage`. -/
def isBlack (p : Pixel) : Bool := p.r == 0 && p.g == 0 && p.b == 0

/-- The member function `isWhite` of `BmpImage`. -/
def isWhite (p : Pixel) : Bool := p.r == 255 && p.g == 255 && p.b == 255

/-- The pixel grid `std::vector<std::vector<Pixel>>`. -/
abbrev Grid := List (List Pixel)

/-- The data members of the class `BmpImage`; the defaults are those of a freshly
constructed object. -/
structure BmpImage where
  width : Int := 0
  height : Int := 0
  bitCount : Int := 0
  pixels : Grid := []
deriving DecidableEq, Repr

/-- A freshly constructed `BmpImage`. -/
def BmpImage.fresh : BmpImage := {}

/-! ## Machine integers -/

/-- Largest value of `int`. -/
def INT_MAX : Int := 2147483647

/-- Smallest value of `int`. -/
def INT_MIN : Int := -2147483648

/-- The result of an `int` operation: the mathematical value when it is representable,
undefined behaviour otherwise. -/
def chkInt (v : Int) : Except Fault Int :=
  if INT_MIN ≤ v ∧ v ≤ INT_MAX then pure v else throw Fault.undefined

/-- The function `std::abs` on `int`; `std::abs(INT_MIN)` is not representable. -/
def absInt (v : Int) : Except Fault Int := chkInt (if v < 0 then -v else v)

/-- Conversion of an `int` to the 64-bit unsigned `size_t`. -/
def toSizeT (v : Int) : Nat := (v % 2 ^ 64).toNat

/-- The value `max_size()` of a `std::vector` whose elements take `elemSize` bytes. -/
def vecMaxSize (elemSize : Nat) : Nat := (2 ^ 63 - 1) / elemSize

/-- The constructor `std::vector<T>(n)` with every element equal to `x`. -/
def allocVec {α : Type} (elemSize n : Nat) (x : α) : Except Fault (List α) :=
  if n ≤ vecMaxSize elemSize then pure (List.replicate n x) else throw Fault.lengthError

/-- The expression `((width * bitCount + 31) / 32) * 4` of `load` and `save`, evaluated in
`int` (the division truncates towards zero). -/
def rowSizeInt (width bitCount : Int) : Except Fault Int := do
  let m ← chkInt (width * bitCount)
  let s ← chkInt (m + 31)
  chkInt (s.tdiv 32 * 4)

/-- The variable `size_t rowSize` of `load` and `save`. -/
def rowSize (width bitCount : Int) : Except Fault Nat := do
  let r ← rowSizeInt width bitCount
  pure (toSizeT r)

/-- Element access `v[i]` with an `int` index on a `std::vector`. -/
def idx {α : Type} (v : List α) (i : Int) : Except Fault α :=
  if 0 ≤ i then
    match v[i.toNat]? with
    | some x => pure x
    | none => throw Fault.undefined
  else throw Fault.undefined

/-- Assignment `v[i] = x` with an `int` index on a `std::vector`. -/
def setIdx {α : Type} (v : List α) (i : Int) (x : α) : Except Fault (List α) :=
  if 0 ≤ i ∧ i.toNat < v.length then pure (v.set i.toNat x) else throw Fault.undefined

/-! ## Header layout -/

/-- Little-endian value of a byte string. -/
def leNat : List Byte → Nat
  | [] => 0
  | b :: bs => b.val + 256 * leNat bs

/-- The `len` bytes of the little-endian encoding of `n` (reduced modulo `256 ^ len`). -/
def leBytes : Nat → Nat → List Byte
  | 0, _ => []
  | len + 1, n => Fin.ofNat (n % 256) :: leBytes len (n / 256)

/-- The field of `len` bytes at offset `off` of a header struct whose first `buf.length`
bytes were filled by `read`; the remaining bytes of the struct are indeterminate and a field
that touches them cannot be evaluated. -/
def field (buf : List Byte) (off len : Nat) : Except Fault Nat :=
  if off + len ≤ buf.length then pure (leNat ((buf.drop off).take len))
  else throw Fault.undefined

/-- Reinterpretation of a 32-bit pattern as the signed type `LONG`. -/
def toInt32 (n : Nat) : Int := if n < 2 ^ 31 then (n : Int) else (n : Int) - 2 ^ 32

/-- Modelled from the spec: the size of the struct `BITMAPFILEHEADER`, declared in
`windows.h` (fixed layout, packed: signature, file size, two reserved words, offset). -/
def sizeofFileHeader : Nat := 14

/-- Modelled from the spec: the size of the struct `BITMAPINFOHEADER`, declared in
`windows.h`. -/
def sizeofInfoHeader : Nat := 40

/-- Modelled from the spec: the field `bfType` of `BITMAPFILEHEADER` (offset 0, 2 bytes). -/
def bfType (fh : List Byte) : Except Fault Nat := field fh 0 2

/-- Modelled from the spec: the field `bfOffBits` of `BITMAPFILEHEADER` (offset 10,
4 bytes). -/
def bfOffBits (fh : List Byte) : Except Fault Nat := field fh 10 4

/-- Modelled from the spec: the field `biWidth` of `BITMAPINFOHEADER` (offset 4, int32). -/
def biWidth (ih : List Byte) : Except Fault Int := do
  let v ← field ih 4 4
  pure (toInt32 v)

/-- Modelled from the spec: the field `biHeight` of `BITMAPINFOHEADER` (offset 8, int32). -/
def biHeight (ih : List Byte) : Except Fault Int := do
  let v ← field ih 8 4
  pure (toInt32 v)

/-- Modelled from the spec: the field `biBitCount` of `BITMAPINFOHEADER` (offset 14,
uint16). -/
def biBitCount (ih : List Byte) : Except Fault Nat := field ih 14 2

/-- Modelled from the spec: the field `biCompression` of `BITMAPINFOHEADER` (offset 16,
uint32). -/
def biCompression (ih : List Byte) : Except Fault Nat := field ih 16 4

/-! ## Input stream -/

/-- The state of the `std::ifstream` after it was opened: the bytes of the file, the read
position and `failbit`. -/
structure IStream where
  data : List Byte
  pos : Nat
  failed : Bool
deriving DecidableEq, Repr

/-- The bytes that `in.read(_, n)` obtains, with the stream state afterwards. -/
def IStream.readRaw (s : IStream) (n : Nat) : IStream × List Byte :=
  if s.failed then (s, [])
  else
    let got := (s.data.drop s.pos).take n
    ({ s with pos := s.pos + got.length, failed := decide (got.length < n) }, got)

/-- The call `in.read(buf.data(), n)` on a buffer with previous contents `buf`. -/
def IStream.read (s : IStream) (buf : List Byte) (n : Nat) : IStream × List Byte :=
  let r := s.readRaw n
  (r.1, r.2 ++ buf.drop r.2.length)

/-- The call `in.seekg(off, std::ios::beg)`. -/
def IStream.seekg (s : IStream) (off : Nat) : IStream :=
  if s.failed then s else { s with pos := off }

/-! ## `BmpImage::load` -/

/-- The lines that the program sends to `std::cerr` from `load`. -/
inductive Msg where
  | openFailed
  | notValidBmp
  | unsupportedBitCount (bitCount : Int)
  | badColor (x y : Nat)
deriving DecidableEq, Repr

/-- What a call of `load` leaves behind when it returns: the returned `bool`, the
diagnostic written to `std::cerr` (if any) and the data members afterwards. -/
structure LoadOut where
  ret : Bool
  cerr : Option Msg
  img : BmpImage
deriving DecidableEq, Repr

/-- Element access `pixels[y][x]`. -/
def getPx (g : Grid) (y x : Nat) : Except Fault Pixel :=
  match g[y]? with
  | none => throw Fault.undefined
  | some row =>
    match row[x]? with
    | none => throw Fault.undefined
    | some p => pure p

/-- Assignment through the reference `pixels[y][x]`. -/
def setPx (g : Grid) (y x : Nat) (p : Pixel) : Grid :=
  match g[y]? with
  | none => g
  | some row => g.set y (row.set x p)

/-- The body of the inner loop of `load` up to the colour test: the pixel `p` after its
channels were assigned from the row buffer. -/
def decodePixel (bitCount : Int) (row : List Byte) (x : Nat) (p : Pixel) :
    Except Fault Pixel := do
  let b ← idx row ((x : Int) * bitCount.tdiv 8 + 0)
  let g ← idx row ((x : Int) * bitCount.tdiv 8 + 1)
  let r ← idx row ((x : Int) * bitCount.tdiv 8 + 2)
  let p := { p with b := b, g := g, r := r }
  if bitCount = 32 then
    let a ← idx row ((x : Int) * 4 + 3)
    pure { p with a := a }
  else
    pure p

/-- The inner loop `for (int x = ...; x < width; ++x)` of `load` on grid row `y`, with
`n` iterations left, the next one at column `x`.  The second component is the column at
which the loop left through `return false`, if it did. -/
def loadCols (bitCount : Int) (row : List Byte) (y : Nat) :
    Nat → Nat → Grid → Except Fault (Grid × Option Nat)
  | 0, _, g => pure (g, none)
  | n + 1, x, g => do
    let p ← getPx g y x
    let p ← decodePixel bitCount row x p
    let g := setPx g y x p
    if !isBlack p && !isWhite p then pure (g, some x)
    else loadCols bitCount row y n (x + 1) g

/-- The outer loop `for (int y = height - 1; y >= 0; --y)` of `load` with `n` iterations
left, the next one at `y = n - 1`.  The second component is the pair `(x, y)` at which
the loop left through `return false`, if it did. -/
def loadRows (bitCount : Int) (width rowSize : Nat) :
    Nat → IStream → List Byte → Grid → Except Fault (Grid × Option (Nat × Nat))
  | 0, _, _, g => pure (g, none)
  | n + 1, s, row, g => do
    let r := s.read row rowSize
    let c ← loadCols bitCount r.2 n width 0 g
    match c.2 with
    | some x => pure (c.1, some (x, n))
    | none => loadRows bitCount width rowSize n r.1 r.2 c.1

/-- The call `pixels.resize(n, proto)`. -/
def resizeRows (pixels : Grid) (n : Nat) (proto : List Pixel) : Grid :=
  pixels.take n ++ List.replicate (n - pixels.length) proto

/-- The member function `BmpImage::load`, on the contents `file` of the named file
(`none` when it cannot be opened). -/
def BmpImage.load (img : BmpImage) (file : Option (List Byte)) : Except Fault LoadOut :=
  match file with
  | none => pure { ret := false, cerr := some Msg.openFailed, img := img }
  | some data => do
    let s : IStream := { data := data, pos := 0, failed := false }
    let r := s.readRaw sizeofFileHeader
    let fh := r.2
    let r := r.1.readRaw sizeofInfoHeader
    let ih := r.2
    let s := r.1
    let ty ← bfType fh
    if ty ≠ 0x4D42 then
      pure { ret := false, cerr := some Msg.notValidBmp, img := img }
    else
    let comp ← biCompression ih
    if comp ≠ 0 then
      pure { ret := false, cerr := some Msg.notValidBmp, img := img }
    else
    let width ← biWidth ih
    let h ← biHeight ih
    let height ← absInt h
    let bc ← biBitCount ih
    let bitCount : Int := bc
    let img := { img with width := width, height := height, bitCount := bitCount }
    if bitCount ≠ 24 ∧ bitCount ≠ 32 then
      pure { ret := false, cerr := some (Msg.unsupportedBitCount bitCount), img := img }
    else
    let off ← bfOffBits fh
    let s := s.seekg off
    let rowSize ← rowSize width bitCount
    let row ← allocVec 1 rowSize (0 : Byte)
    let proto ← allocVec 4 (toSizeT width) Pixel.init
    let pixels := resizeRows img.pixels (toSizeT height) proto
    let res ← loadRows bitCount width.toNat rowSize height.toNat s row pixels
    match res.2 with
    | some (x, y) =>
      pure { ret := false, cerr := some (Msg.badColor x y), img := { img with pixels := res.1 } }
    | none =>
      pure { ret := true, cerr := none, img := { img with pixels := res.1 } }

/-! ## `BmpImage::save` -/

/-- Conversion of an integer to an unsigned type of `bits` bits. -/
def toUnsigned (bits : Nat) (v : Int) : Nat := (v % 2 ^ bits).toNat

/-- Modelled from the spec: the bytes of a `BITMAPFILEHEADER` (declared in `windows.h`)
with the given `bfType`, `bfSize` and `bfOffBits` and both reserved words zero. -/
def fileHeaderBytes (type size offBits : Nat) : List Byte :=
  leBytes 2 type ++ leBytes 4 size ++ leBytes 2 0 ++ leBytes 2 0 ++ leBytes 4 offBits

/-- Modelled from the spec: the bytes of a `BITMAPINFOHEADER` (declared in `windows.h`)
with the given `biSize`, `biWidth`, `biHeight`, `biPlanes`, `biBitCount`, `biCompression`
and `biSizeImage`; the four trailing fields (resolutions, colour counts) are zero. -/
def infoHeaderBytes (size width height planes bitCount compression sizeImage : Nat) :
    List Byte :=
  leBytes 4 size ++ leBytes 4 width ++ leBytes 4 height ++ leBytes 2 planes ++
    leBytes 2 bitCount ++ leBytes 4 compression ++ leBytes 4 sizeImage ++
    leBytes 4 0 ++ leBytes 4 0 ++ leBytes 4 0 ++ leBytes 4 0

/-- The body of the inner loop of `save`: the row buffer after the channels of `p` were
stored for column `x`. -/
def encodePixel (bitCount : Int) (row : List Byte) (x : Nat) (p : Pixel) :
    Except Fault (List Byte) := do
  let row ← setIdx row ((x : Int) * bitCount.tdiv 8 + 0) p.b
  let row ← setIdx row ((x : Int) * bitCount.tdiv 8 + 1) p.g
  let row ← setIdx row ((x : Int) * bitCount.tdiv 8 + 2) p.r
  if bitCount = 32 then
    setIdx row ((x : Int) * 4 + 3) p.a
  else
    pure row

/-- The inner loop `for (int x = ...; x < width; ++x)` of `save` on grid row `y`, with `n`
iterations left, the next one at column `x`. -/
def saveCols (bitCount : Int) (pixels : Grid) (y : Nat) :
    Nat → Nat → List Byte → Except Fault (List Byte)
  | 0, _, row => pure row
  | n + 1, x, row => do
    let p ← getPx pixels y x
    let row ← encodePixel bitCount row x p
    saveCols bitCount pixels y n (x + 1) row

/-- The outer loop `for (int y = height - 1; y >= 0; --y)` of `save` with `n` iterations
left, the next one at `y = n - 1`; `out` is what was written so far.  The row buffer always
has `rowSize` bytes, all of which `out.write` appends. -/
def saveRows (bitCount : Int) (width : Nat) (pixels : Grid) :
    Nat → List Byte → List Byte → Except Fault (List Byte)
  | 0, _, out => pure out
  | n + 1, row, out => do
    let row ← saveCols bitCount pixels n width 0 row
    saveRows bitCount width pixels n row (out ++ row)

/-- The member function `BmpImage::save`: the returned `bool` and the bytes written to the
output file; `canOpen` tells whether the output file could be opened.  The initialiser
`height - 1` of the row loop is the one `int` operation besides the row size that can
overflow; the indices `x * (bitCount / 8) + k` are bounded by `width * bitCount`. -/
def BmpImage.save (img : BmpImage) (canOpen : Bool) : Except Fault (Bool × List Byte) :=
  if !canOpen then pure (false, [])
  else do
    let rowSize ← rowSize img.width img.bitCount
    let imageSize : Nat := (rowSize * toSizeT img.height) % 2 ^ 64
    let offBits : Nat := sizeofFileHeader + sizeofInfoHeader
    let fh := fileHeaderBytes 0x4D42 ((offBits + imageSize) % 2 ^ 64 % 2 ^ 32) offBits
    let ih := infoHeaderBytes sizeofInfoHeader (toUnsigned 32 img.width)
      (toUnsigned 32 img.height) 1 (toUnsigned 16 img.bitCount) 0 (imageSize % 2 ^ 32)
    let row ← allocVec 1 rowSize (0 : Byte)
    let _ ← chkInt (img.height - 1)
    let out ← saveRows img.bitCount img.width.toNat img.pixels img.height.toNat row (fh ++ ih)
    pure (true, out)


/-! ## The loops of `load` as functions on rows of bytes -/

/-- Whether the colour test of `load` rejects the pixel. -/
def badColor (p : Pixel) : Bool := !isBlack p && !isWhite p

/-- The pixel that the inner loop of `load` stores at column `x` when the row buffer is
`row` and the pixel was `p` before. -/
def decodePx (bitCount : Int) (row : List Byte) (x : Nat) (p : Pixel) : Pixel :=
  { r := row.getD (x * (bitCount.tdiv 8).toNat + 2) 0
    g := row.getD (x * (bitCount.tdiv 8).toNat + 1) 0
    b := row.getD (x * (bitCount.tdiv 8).toNat + 0) 0
    a := if bitCount = 32 then row.getD (x * 4 + 3) 0 else p.a }

/-- The inner loop of `load` on one grid row: the row afterwards and the column of the
rejected pixel, if any. -/
def decodeCols (bitCount : Int) (row : List Byte) :
    Nat → Nat → List Pixel → List Pixel × Option Nat
  | 0, _, r => (r, none)
  | n + 1, x, r =>
    let p := decodePx bitCount row x (r.getD x Pixel.init)
    if badColor p then (r.set x p, some x)
    else decodeCols bitCount row n (x + 1) (r.set x p)

/-- The outer loop of `load` on the bytes `rest` that follow the read position, when none
of the reads comes up short. -/
def decodeRows (bitCount : Int) (width rowSize : Nat) :
    Nat → List Byte → Grid → Grid × Option (Nat × Nat)
  | 0, _, g => (g, none)
  | n + 1, rest, g =>
    let c := decodeCols bitCount (rest.take rowSize) width 0 (g.getD n [])
    match c.2 with
    | some x => (g.set n c.1, some (x, n))
    | none => decodeRows bitCount width rowSize n (rest.drop rowSize) (g.set n c.1)

/-- The `k`-th row of `rowSize` bytes of the byte string `rest`. -/
def rowAt (rest : List Byte) (rowSize k : Nat) : List Byte :=
  (rest.drop (k * rowSize)).take rowSize

/-! ## Notions used to state the claims -/

/-- The row stride `((width * bitCount + 31) / 32) * 4` as a natural number. -/
def rowStride (width bitCount : Nat) : Nat := (width * bitCount + 31) / 32 * 4

/-- The signature stored in the first two bytes of a file. -/
def hdrType (data : List Byte) : Nat := leNat (data.take 2)

/-- The offset to the pixel data stored at bytes 10..13 of a file. -/
def hdrOffBits (data : List Byte) : Nat := leNat ((data.drop 10).take 4)

/-- The width stored at bytes 18..21 of a file. -/
def hdrWidth (data : List Byte) : Int := toInt32 (leNat ((data.drop 18).take 4))

/-- The height stored at bytes 22..25 of a file. -/
def hdrHeight (data : List Byte) : Int := toInt32 (leNat ((data.drop 22).take 4))

/-- The bit depth stored at bytes 28..29 of a file. -/
def hdrBitCount (data : List Byte) : Nat := leNat ((data.drop 28).take 2)

/-- The compression mode stored at bytes 30..33 of a file. -/
def hdrCompression (data : List Byte) : Nat := leNat ((data.drop 30).take 4)

/-- What `load` returns on a well-formed file whose reads all succeed, expressed with
`decodeRows`. -/
def loadResult (img : BmpImage) (data : List Byte) : LoadOut :=
  let d := decodeRows (hdrBitCount data) (hdrWidth data).toNat
    (rowStride (hdrWidth data).toNat (hdrBitCount data)) (hdrHeight data).natAbs
    (data.drop (hdrOffBits data))
    (resizeRows img.pixels (hdrHeight data).natAbs
      (List.replicate (hdrWidth data).toNat Pixel.init))
  let img' : BmpImage :=
    { width := hdrWidth data, height := (hdrHeight data).natAbs,
      bitCount := hdrBitCount data, pixels := d.1 }
  match d.2 with
  | some (x, y) => { ret := false, cerr := some (Msg.badColor x y), img := img' }
  | none => { ret := true, cerr := none, img := img' }

/-- The row stride in the words of the specification: `ceil(width * bitDepth / 32) * 4`. -/
def rowStrideBytes (width bitDepth : Nat) : Nat :=
  Nat.ceil (((width * bitDepth : Nat) : ℚ) / 32) * 4

/-- The number of pixels per row that the header of a file states. -/
def fileWidth (data : List Byte) : Nat := (hdrWidth data).toNat

/-- The number of rows that the header of a file states (the absolute value of the height
field). -/
def fileHeight (data : List Byte) : Nat := (hdrHeight data).natAbs

/-- The row stride of a file: `rowStride` of its width and bit depth. -/
def fileStride (data : List Byte) : Nat := rowStride (fileWidth data) (hdrBitCount data)

/-- The position in the file of the first byte of the pixel in column `x` of the `k`-th
stored row (`k = 0` is the row stored first). -/
def diskBase (data : List Byte) (k x : Nat) : Nat :=
  hdrOffBits data + k * fileStride data + x * (hdrBitCount data / 8)

/-- The stored pixel in column `x` of the `k`-th stored row has all three colour bytes in the
file and they are (0, 0, 0) or (255, 255, 255). -/
def diskBW (data : List Byte) (k x : Nat) : Prop :=
  (data[diskBase data k x]? = some 0 ∧ data[diskBase data k x + 1]? = some 0 ∧
    data[diskBase data k x + 2]? = some 0) ∨
  (data[diskBase data k x]? = some 255 ∧ data[diskBase data k x + 1]? = some 255 ∧
    data[diskBase data k x + 2]? = some 255)

/-- A valid header: both headers complete, signature "BM", compression 0, bit depth 24 or 32,
width > 0 and height > 0. -/
structure ValidHeader (data : List Byte) : Prop where
  complete : 54 ≤ data.length
  signature : hdrType data = 0x4D42
  compression : hdrCompression data = 0
  bitCount : hdrBitCount data = 24 ∨ hdrBitCount data = 32
  width : 0 < hdrWidth data
  height : 0 < hdrHeight data

/-- The file holds all `height` rows of `rowStride` bytes from the stated offset on. -/
def CompletePixelData (data : List Byte) : Prop :=
  hdrOffBits data + fileHeight data * fileStride data ≤ data.length

/-- Every stored pixel is black or white. -/
def AllBW (data : List Byte) : Prop :=
  ∀ k, k < fileHeight data → ∀ x, x < fileWidth data → diskBW data k x

/-- The row size of the file can be computed in `int`. -/
def StrideFits (data : List Byte) : Prop :=
  hdrWidth data * hdrBitCount data + 31 ≤ INT_MAX

instance (data : List Byte) (k x : Nat) : Decidable (diskBW data k x) := by
  unfold diskBW; infer_instance

instance (data : List Byte) : Decidable (CompletePixelData data) := by
  unfold CompletePixelData; infer_instance

instance (data : List Byte) : Decidable (AllBW data) := by
  unfold AllBW; infer_instance

instance (data : List Byte) : Decidable (StrideFits data) := by
  unfold StrideFits; infer_instance

/-- The grid that a file describes when it is read bottom-up: row `y`, column `x` holds the
pixel decoded from the stored row `height - 1 - y`, with alpha 255 for a 24-bit file. -/
def decodeGrid (data : List Byte) : Grid :=
  (List.range (fileHeight data)).map fun y =>
    (List.range (fileWidth data)).map fun x =>
      decodePx (hdrBitCount data)
        (rowAt (data.drop (hdrOffBits data)) (fileStride data) (fileHeight data - 1 - y)) x
        Pixel.init

/-- The call returned `true`. -/
def Succeeds (r : Except Fault LoadOut) : Prop := ∃ out, r = Except.ok out ∧ out.ret = true

/-- The call returned `false`. -/
def Fails (r : Except Fault LoadOut) : Prop := ∃ out, r = Except.ok out ∧ out.ret = false

/-! ## Sample files -/

/-- The 54 header bytes of an uncompressed bitmap with pixel data at offset 54. -/
def sampleHeader (width height bitCount imageSize : Nat) : List Byte :=
  fileHeaderBytes 0x4D42 (54 + imageSize) 54 ++
    infoHeaderBytes 40 width height 1 bitCount 0 imageSize

/-- A 2 x 2 file of 24 bits: stored rows (black, white) and (white, black). -/
def sample24 : List Byte :=
  sampleHeader 2 2 24 16 ++
    [0, 0, 0, 255, 255, 255, 0, 0, 255, 255, 255, 0, 0, 0, 0, 0]

/-- A 2 x 2 file of 24 bits whose second stored row starts with the colour (10, 10, 10) and
whose last pixel is (20, 20, 20). -/
def sampleGray : List Byte :=
  sampleHeader 2 2 24 16 ++
    [0, 0, 0, 255, 255, 255, 0, 0, 10, 10, 10, 20, 20, 20, 0, 0]

/-- A file of 24 bits, one row of 89478485 white pixels (268435456 bytes of pixel data). -/
def wideWhite : List Byte :=
  sampleHeader 89478485 1 24 268435456 ++ List.replicate 268435456 255

/-- The file `wideWhite` with its first pixel replaced by the colour (10, 10, 10). -/
def wideGray : List Byte :=
  sampleHeader 89478485 1 24 268435456 ++ ([10, 10, 10] ++ List.replicate 268435453 255)

/-- A file of 24 bits, width 1, whose height field is 0x80000000 (the `int` -2147483648),
with all 2147483648 rows of 4 bytes present and white. -/
def tallWhite : List Byte :=
  sampleHeader 1 2147483648 24 8589934592 ++ List.replicate 8589934592 255

/-- A file of 24 bits, width 1, height 2 (bottom-up), that ends after its first stored
row, a white pixel. -/
def truncatedRows : List Byte :=
  sampleHeader 1 2 24 8 ++ [255, 255, 255, 0]

/-- The first 40 bytes of a header for a 1 x 1 file of 24 bits whose offset to the pixel
data is 0. -/
def truncatedHeader : List Byte :=
  (fileHeaderBytes 0x4D42 58 0 ++ infoHeaderBytes 40 1 1 1 24 0 4).take 40

/-! ## The loops of `save` as functions on rows of pixels -/

/-- The bytes that the inner loop of `save` stores for one pixel. -/
def pxBytes (bitCount : Int) (p : Pixel) : List Byte :=
  if bitCount = 32 then [p.b, p.g, p.r, p.a] else [p.b, p.g, p.r]

/-- One encoded row: the bytes of the first `width` pixels of `r` followed by zero bytes up
to `rowSize`. -/
def encodeRow (bitCount : Int) (width rowSize : Nat) (r : List Pixel) : List Byte :=
  (r.take width).flatMap (pxBytes bitCount) ++
    List.replicate (rowSize - width * (bitCount.tdiv 8).toNat) 0

/-- The pixel section for the first `n` rows of the grid, last row first. -/
def bodyBytes (bitCount : Int) (width rowSize : Nat) (g : Grid) : Nat → List Byte
  | 0 => []
  | n + 1 => encodeRow bitCount width rowSize (g.getD n []) ++
      bodyBytes bitCount width rowSize g n

/-- A row of exactly `width` pixels, each black or white and, for a bit depth other than 32,
with alpha 255. -/
def GoodRow (bitCount : Int) (width : Nat) (r : List Pixel) : Prop :=
  r.length = width ∧ ∀ p, p ∈ r → badColor p = false ∧ (bitCount ≠ 32 → p.a = 255)

/-- An image state of width 1, height 1 and 24 bits whose grid has no rows. -/
def emptyGridImage : BmpImage := { width := 1, height := 1, bitCount := 24, pixels := [] }

/-- An image state of width 89478485, height 0 and 24 bits. -/
def wideImage : BmpImage := { width := 89478485, height := 0, bitCount := 24, pixels := [] }

/-- An image state of 17 rows of 89478484 white pixels at 24 bits; its rows take 268435452
bytes each, 4563402684 bytes together. -/
def bigImage : BmpImage :=
  { width := 89478484, height := 17, bitCount := 24,
    pixels := List.replicate 17 (List.replicate 89478484 { r := 255, g := 255, b := 255 }) }

/-- The image state that `load` produces for `sample24`. -/
def sampleImage : BmpImage :=
  { width := 2, height := 2, bitCount := 24,
    pixels := [[{ r := 255, g := 255, b := 255 }, { r := 0, g := 0, b := 0 }],
               [{ r := 0, g := 0, b := 0 }, { r := 255, g := 255, b := 255 }]] }

/-- A 1 x 1 file with bit depth 16. -/
def depth16 : List Byte := sampleHeader 1 1 16 4 ++ [0, 0, 0, 0]

/-- A top-down file (height field -2) of 24 bits and width 1: the first stored row, the
topmost displayed one, is black, the second stored row is white. -/
def topDown24 : List Byte :=
  sampleHeader 1 4294967294 24 8 ++ [0, 0, 0, 0, 255, 255, 255, 0]

/-- A 2 x 1 file of 32 bits: a black and a white pixel, both with alpha 128. -/
def alpha32 : List Byte :=
  sampleHeader 2 1 32 8 ++ [0, 0, 0, 128, 255, 255, 255, 128]

/-- A 1 x 1 file of 24 bits: one white pixel. -/
def white24 : List Byte := sampleHeader 1 1 24 4 ++ [255, 255, 255, 0]

/-- The image state after a successful `load` of `alpha32` into a fresh image. -/
def alpha32Image : BmpImage :=
  { width := 2, height := 1, bitCount := 32,
    pixels := [[{ r := 0, g := 0, b := 0, a := 128 },
                { r := 255, g := 255, b := 255, a := 128 }]] }

/-- The image state after a successful `load` of `white24` into a fresh image. -/
def white24Image : BmpImage :=
  { width := 1, height := 1, bitCount := 24,
    pixels := [[{ r := 255, g := 255, b := 255, a := 255 }]] }

/-- The rows that the grid of `img` already has among the first `height` rows of the file
are at least as wide as the file.  A fresh image has no rows, so it satisfies this. -/
def RowsFit (img : BmpImage) (data : List Byte) : Prop :=
  ∀ y r, y < fileHeight data → img.pixels[y]? = some r → fileWidth data ≤ r.length

/-- The image state after a successful `load` of a 1 x 2 all-white file of 24 bits. -/
def narrowImage : BmpImage :=
  { width := 1, height := 2, bitCount := 24,
    pixels := [[{ r := 255, g := 255, b := 255 }], [{ r := 255, g := 255, b := 255 }]] }

/-- An image state of one row of 89478485 white pixels at 24 bits. -/
def wideRowImage : BmpImage :=
  { width := 89478485, height := 1, bitCount := 24,
    pixels := [List.replicate 89478485 { r := 255, g := 255, b := 255 }] }

/-! ## `BmpImage::drawLine` and `BmpImage::drawX` -/

/-- The locals that `drawLine` computes once, before its loop. -/
structure LineParams where
  dx : Int
  dy : Int
  sx : Int
  sy : Int
deriving DecidableEq, Repr

/-- The variables that the loop of `drawLine` changes: the current point `(x1, y1)` (the
first two parameters of `drawLine`) and `err`. -/
structure LineState where
  x1 : Int
  y1 : Int
  err : Int
deriving DecidableEq, Repr

/-- The initialisers of `drawLine`: `dx = std::abs(x2 - x1)`, `dy = -std::abs(y2 - y1)`,
`sx = x1 < x2 ? 1 : -1`, `sy = y1 < y2 ? 1 : -1`, `err = dx + dy`, all in `int`. -/
def lineInit (x1 y1 x2 y2 : Int) : Except Fault (LineParams × LineState) := do
  let d ← chkInt (x2 - x1)
  let dx ← absInt d
  let e ← chkInt (y2 - y1)
  let a ← absInt e
  let dy ← chkInt (-a)
  let sx : Int := if x1 < x2 then 1 else -1
  let sy : Int := if y1 < y2 then 1 else -1
  let err ← chkInt (dx + dy)
  pure ({ dx := dx, dy := dy, sx := sx, sy := sy }, { x1 := x1, y1 := y1, err := err })

/-- The first statement of the loop body:
`if (x1 >= 0 && x1 < width && y1 >= 0 && y1 < height) pixels[y1][x1] = { 0, 0, 0, 255 };`. -/
def plot (img : BmpImage) (x1 y1 : Int) : Except Fault BmpImage :=
  if x1 ≥ 0 ∧ x1 < img.width ∧ y1 ≥ 0 ∧ y1 < img.height then do
    let row ← idx img.pixels y1
    let row ← setIdx row x1 Pixel.black
    let g ← setIdx img.pixels y1 row
    pure { img with pixels := g }
  else pure img

/-- The rest of the loop body: `none` for the `break` at `(x2, y2)`, otherwise the loop
variables after `e2 = 2 * err`, `if (e2 >= dy) { err += dy; x1 += sx; }` and
`if (e2 <= dx) { err += dx; y1 += sy; }`. -/
def lineStep (x2 y2 : Int) (p : LineParams) (s : LineState) :
    Except Fault (Option LineState) :=
  if s.x1 = x2 ∧ s.y1 = y2 then pure none
  else do
    let e2 ← chkInt (2 * s.err)
    let s ← if e2 ≥ p.dy then do
        let err ← chkInt (s.err + p.dy)
        let x1 ← chkInt (s.x1 + p.sx)
        pure { s with err := err, x1 := x1 }
      else pure s
    let s ← if e2 ≤ p.dx then do
        let err ← chkInt (s.err + p.dx)
        let y1 ← chkInt (s.y1 + p.sy)
        pure { s with err := err, y1 := y1 }
      else pure s
    pure (some s)

/-- The loop `while (true)` of `drawLine`, run for at most `fuel` iterations; the result is
`none` when the loop has not reached its `break` within `fuel` iterations. -/
def drawLoop (x2 y2 : Int) (p : LineParams) :
    Nat → LineState → BmpImage → Except Fault (Option BmpImage)
  | 0, _, _ => pure none
  | fuel + 1, s, img => do
    let img ← plot img s.x1 s.y1
    match ← lineStep x2 y2 p s with
    | none => pure (some img)
    | some s => drawLoop x2 y2 p fuel s img

/-- The method `BmpImage::drawLine`, its loop run for at most `fuel` iterations. -/
def BmpImage.drawLine (img : BmpImage) (fuel : Nat) (x1 y1 x2 y2 : Int) :
    Except Fault (Option BmpImage) := do
  let (p, s) ← lineInit x1 y1 x2 y2
  drawLoop x2 y2 p fuel s img

/-- The method `BmpImage::drawX`: `drawLine(0, 0, width - 1, height - 1)` and then
`drawLine(width - 1, 0, 0, height - 1)`, each loop run for at most `fuel` iterations. -/
def BmpImage.drawX (img : BmpImage) (fuel : Nat) : Except Fault (Option BmpImage) := do
  let w1 ← chkInt (img.width - 1)
  let h1 ← chkInt (img.height - 1)
  match ← img.drawLine fuel 0 0 w1 h1 with
  | none => pure none
  | some img => do
    let w1 ← chkInt (img.width - 1)
    let h1 ← chkInt (img.height - 1)
    img.drawLine fuel w1 0 0 h1

/-! ## The run of the loop of `drawLine` without the grid -/

/-- The points `(x1, y1)` at the start of the first `n` iterations of the loop, as far as
the loop gets. -/
def visited (x2 y2 : Int) (p : LineParams) : Nat → LineState → List (Int × Int)
  | 0, _ => []
  | n + 1, s =>
    (s.x1, s.y1) ::
      match lineStep x2 y2 p s with
      | Except.ok (some s') => visited x2 y2 p n s'
      | _ => []

/-- The points visited by `drawLine(x1, y1, x2, y2)` in the first `n` iterations. -/
def lineVisited (n : Nat) (x1 y1 x2 y2 : Int) : List (Int × Int) :=
  match lineInit x1 y1 x2 y2 with
  | Except.ok (p, s) => visited x2 y2 p n s
  | Except.error _ => []

/-- The arithmetic of the loop alone: whether the loop reaches its `break` within `n`
iterations. -/
def lineRun (x2 y2 : Int) (p : LineParams) : Nat → LineState → Except Fault Bool
  | 0, _ => pure false
  | n + 1, s => do
    match ← lineStep x2 y2 p s with
    | none => pure true
    | some s => lineRun x2 y2 p n s

/-- The arithmetic of `drawLine(x1, y1, x2, y2)` alone. -/
def lineArith (n : Nat) (x1 y1 x2 y2 : Int) : Except Fault Bool := do
  let (p, s) ← lineInit x1 y1 x2 y2
  lineRun x2 y2 p n s

/-- No `int` operation of `drawLine(x1, y1, x2, y2)` overflows, however long the loop is
run. -/
def NoOverflow (x1 y1 x2 y2 : Int) : Prop :=
  ∀ n e, lineArith n x1 y1 x2 y2 ≠ Except.error e

/-- The loop body without the `int` range: `none` at `(x2, y2)`, otherwise the next loop
variables. -/
def idealStep (x2 y2 : Int) (p : LineParams) (s : LineState) : Option LineState :=
  if s.x1 = x2 ∧ s.y1 = y2 then none
  else
    let s1 : LineState :=
      if 2 * s.err ≥ p.dy then { s with err := s.err + p.dy, x1 := s.x1 + p.sx } else s
    let s2 : LineState :=
      if 2 * s.err ≤ p.dx then { s1 with err := s1.err + p.dx, y1 := s1.y1 + p.sy } else s1
    some s2

/-! ## The loop invariant and notions used to state the drawing claims -/

/-- What the initialisers of `drawLine(x1, y1, x2, y2)` establish about `dx`, `dy`, `sx`
and `sy`. -/
structure LineSetup (x1 y1 x2 y2 : Int) (p : LineParams) : Prop where
  dx_nonneg : 0 ≤ p.dx
  dy_nonpos : p.dy ≤ 0
  sx_unit : p.sx = 1 ∨ p.sx = -1
  sy_unit : p.sy = 1 ∨ p.sy = -1
  x_end : x2 = x1 + p.sx * p.dx
  y_end : y2 = y1 + p.sy * (-p.dy)

/-- The loop invariant of `drawLine` after `k` iterations: the point is `a` steps in x and
`b` steps in y away from the start, `err` is `dx + dy` minus the deviation
`a * |dy| - b * dx`, twice the deviation is at most `max dx |dy|` in absolute value, and
the number of steps along the longer axis is `k`. -/
def LineInv (x1 y1 : Int) (p : LineParams) (k : Nat) (s : LineState) : Prop :=
  ∃ a b : Int, 0 ≤ a ∧ a ≤ p.dx ∧ 0 ≤ b ∧ b ≤ -p.dy ∧
    s.x1 = x1 + p.sx * a ∧ s.y1 = y1 + p.sy * b ∧
    s.err = p.dx + p.dy - (a * (-p.dy) - b * p.dx) ∧
    -(max p.dx (-p.dy)) ≤ 2 * (a * (-p.dy) - b * p.dx) ∧
    2 * (a * (-p.dy) - b * p.dx) ≤ max p.dx (-p.dy) ∧
    (-p.dy ≤ p.dx → a = k) ∧ (p.dx < -p.dy → b = k)

/-- One step of the loop of `drawLine` from the point `q` to the point `r`: x changes by 0
or `sx`, y changes by 0 or `sy`, and the point changes. -/
def StepShape (sx sy : Int) (q r : Int × Int) : Prop :=
  (r.1 = q.1 ∨ r.1 = q.1 + sx) ∧ (r.2 = q.2 ∨ r.2 = q.2 + sy) ∧ r ≠ q

/-- The grid of the image has `height` rows of `width` pixels. -/
def GridShape (img : BmpImage) : Prop :=
  (img.pixels.length : Int) = img.height ∧ ∀ r, r ∈ img.pixels → (r.length : Int) = img.width

/-- The image after the first statement of the loop body at the point `q = (x1, y1)`, for a
grid of `height` rows of `width` pixels. -/
def plotPx (img : BmpImage) (q : Int × Int) : BmpImage :=
  if q.1 ≥ 0 ∧ q.1 < img.width ∧ q.2 ≥ 0 ∧ q.2 < img.height then
    { img with pixels := setPx img.pixels q.2.toNat q.1.toNat Pixel.black }
  else img

/-- A 10 x 10 all-white image state of 24 bits. -/
def white10 : BmpImage :=
  { width := 10, height := 10, bitCount := 24,
    pixels := List.replicate 10 (List.replicate 10 { r := 255, g := 255, b := 255 }) }

/-- The value `v` is representable as an `int`. -/
def InInt (v : Int) : Prop := INT_MIN ≤ v ∧ v ≤ INT_MAX

/-- Every `int` operation of one iteration of the loop (past the `break` test) gives a
representable value: `2 * err`, then `err + dy` and `x1 + sx` if the x step is taken, then
`err + dx` and `y1 + sy` if the y step is taken. -/
def StepFits (p : LineParams) (s : LineState) : Prop :=
  InInt (2 * s.err) ∧
    (2 * s.err ≥ p.dy → InInt (s.err + p.dy) ∧ InInt (s.x1 + p.sx)) ∧
    (2 * s.err ≤ p.dx →
      InInt ((if 2 * s.err ≥ p.dy then s.err + p.dy else s.err) + p.dx) ∧
        InInt (s.y1 + p.sy))

/-- The loop variables mirrored in x within an image of width `W`. -/
def mirrorState (W : Int) (s : LineState) : LineState := { s with x1 := W - 1 - s.x1 }

/-- The point `q` mirrored in x within an image of width `W`. -/
def mirrorPt (W : Int) (q : Int × Int) : Int × Int := (W - 1 - q.1, q.2)

/-! ## The row buffer under reads that fail -/

/-- The contents of the row buffer after each of `n` successive reads of `rowSize` bytes
that start at position `pos` of the file, one after the other: each time the bytes of the
file at the row's position, as many as there are (at most `rowSize`), followed by the bytes
that the buffer held before at the remaining positions. -/
def fillRows (data : List Byte) (rowSize : Nat) : Nat → Nat → List Byte → List Byte
  | 0, _, _ => []
  | n + 1, pos, prev =>
    let got := (data.drop pos).take rowSize
    let row := got ++ prev.drop got.length
    row ++ fillRows data rowSize n (pos + rowSize) row

/-- The invariant of the image: the grid is `height x width` and every pixel is black
`(0, 0, 0)` or white `(255, 255, 255)`. -/
def BWGrid (img : BmpImage) : Prop :=
  GridShape img ∧ ∀ r, r ∈ img.pixels → ∀ p, p ∈ r → isBlack p = true ∨ isWhite p = true

/-- A complete all-white file of 24 bits, width 1, height 2147483647 (bottom-up): 54 header
bytes and 2147483647 rows of 4 bytes. -/
def tallFile : List Byte :=
  sampleHeader 1 2147483647 24 8589934588 ++ List.replicate 8589934588 255

/-- What `load` returns on a file with complete, well-formed headers when the row buffer
holds the bytes `rest`, row after row, after the reads of the pixel loop. -/
def loadResultOn (img : BmpImage) (data rest : List Byte) : LoadOut :=
  let d := decodeRows (hdrBitCount data) (hdrWidth data).toNat
    (rowStride (hdrWidth data).toNat (hdrBitCount data)) (hdrHeight data).natAbs rest
    (resizeRows img.pixels (hdrHeight data).natAbs
      (List.replicate (hdrWidth data).toNat Pixel.init))
  let img' : BmpImage :=
    { width := hdrWidth data, height := (hdrHeight data).natAbs,
      bitCount := hdrBitCount data, pixels := d.1 }
  match d.2 with
  | some (x, y) => { ret := false, cerr := some (Msg.badColor x y), img := img' }
  | none => { ret := true, cerr := none, img := img' }

/-- The bytes that the row buffer of `load` holds after each read of the pixel loop, row
after row, for a file with complete headers. -/
def bufferRows (data : List Byte) : List Byte :=
  fillRows data (fileStride data) (fileHeight data) (hdrOffBits data)
    (List.replicate (fileStride data) 0)

/-- A file that ends right after the 54 header bytes of a 1 x 1 bitmap of 24 bits. -/
def headerOnly : List Byte := sampleHeader 1 1 24 4

/-- A 4 x 3 all-white image state of 24 bits. -/
def white4x3 : BmpImage :=
  { width := 4, height := 3, bitCount := 24,
    pixels := List.replicate 3 (List.replicate 4 { r := 255, g := 255, b := 255 }) }

/-- An all-white image state of 24 bits, 2 pixels wide and 1073741827 rows high. -/
def narrowWhite : BmpImage :=
  { width := 2, height := 1073741827, bitCount := 24,
    pixels := List.replicate 1073741827 (List.replicate 2 { r := 255, g := 255, b := 255 }) }

/-! # Lemmas and theorems -/

/-! ## `load` and its loops -/

theorem ok_bind {ε α β : Type} (a : α) (f : α → Except ε β) :
    (Except.ok a >>= f) = f a := by
  simp only [bind, Except.bind]

theorem error_bind {ε α β : Type} (e : ε) (f : α → Except ε β) :
    (Except.error e >>= f) = Except.error e := by
  simp only [bind, Except.bind]

theorem pure_eq_ok {ε α : Type} (a : α) : (pure a : Except ε α) = Except.ok a := rfl

theorem throw_eq_error {ε α : Type} (e : ε) :
    (throw e : Except ε α) = Except.error e := rfl

theorem idx_natCast {α : Type} (v : List α) (k : Nat) (h : k < v.length) :
    idx v (k : Int) = Except.ok v[k] := by
  simp [ok_bind, error_bind, pure_eq_ok, throw_eq_error, idx, List.getElem?_eq_getElem h]

theorem setIdx_natCast {α : Type} (v : List α) (k : Nat) (x : α) (h : k < v.length) :
    setIdx v (k : Int) x = Except.ok (v.set k x) := by
  simp [ok_bind, error_bind, pure_eq_ok, throw_eq_error, setIdx, h]

theorem tdiv_24 : (24 : Int).tdiv 8 = 3 := by decide
theorem tdiv_32 : (32 : Int).tdiv 8 = 4 := by decide

theorem idx_of_eq {α : Type} (v : List α) (i : Int) (k : Nat) (hi : i = (k : Int))
    (h : k < v.length) : idx v i = Except.ok v[k] := by
  subst hi; exact idx_natCast v k h

theorem decodePixel_eq (bitCount : Int) (hbc : bitCount = 24 ∨ bitCount = 32)
    (row : List Byte) (x : Nat) (p : Pixel)
    (hrow : (x + 1) * (bitCount.tdiv 8).toNat ≤ row.length) :
    decodePixel bitCount row x p = Except.ok (decodePx bitCount row x p) := by
  rcases hbc with rfl | rfl
  · have hl : x * 3 + 2 < row.length := by
      have : ((24 : Int).tdiv 8).toNat = 3 := rfl
      rw [this] at hrow; omega
    unfold decodePixel decodePx
    simp only [tdiv_24]
    rw [idx_of_eq row _ (x * 3) (by push_cast; ring) (by omega),
      idx_of_eq row _ (x * 3 + 1) (by push_cast; ring) (by omega),
      idx_of_eq row _ (x * 3 + 2) (by push_cast; ring) (by omega)]
    simp [ok_bind, error_bind, pure_eq_ok, throw_eq_error, List.getD_eq_getElem, hl, show x * 3 < row.length by omega,
      show x * 3 + 1 < row.length by omega]
  · have hl : x * 4 + 3 < row.length := by
      have : ((32 : Int).tdiv 8).toNat = 4 := rfl
      rw [this] at hrow; omega
    unfold decodePixel decodePx
    simp only [tdiv_32]
    rw [idx_of_eq row _ (x * 4) (by push_cast; ring) (by omega),
      idx_of_eq row _ (x * 4 + 1) (by push_cast; ring) (by omega),
      idx_of_eq row _ (x * 4 + 2) (by push_cast; ring) (by omega),
      idx_of_eq row _ (x * 4 + 3) (by push_cast; ring) (by omega)]
    simp [ok_bind, error_bind, pure_eq_ok, throw_eq_error, List.getD_eq_getElem, hl, show x * 4 < row.length by omega,
      show x * 4 + 1 < row.length by omega, show x * 4 + 2 < row.length by omega]

theorem decodeCols_length (bitCount : Int) (row : List Byte) (n x : Nat) (r : List Pixel) :
    (decodeCols bitCount row n x r).1.length = r.length := by
  induction n generalizing x r with
  | zero => rfl
  | succ n ih =>
    unfold decodeCols
    simp only
    split
    · simp
    · rw [ih]; simp

theorem loadCols_eq (bitCount : Int) (hbc : bitCount = 24 ∨ bitCount = 32)
    (row : List Byte) (y n x : Nat) (g : Grid) (r : List Pixel)
    (hg : g[y]? = some r) (hr : x + n ≤ r.length)
    (hrow : (x + n) * (bitCount.tdiv 8).toNat ≤ row.length) :
    loadCols bitCount row y n x g =
      Except.ok (g.set y (decodeCols bitCount row n x r).1,
        (decodeCols bitCount row n x r).2) := by
  induction n generalizing x g r with
  | zero =>
    have hy : y < g.length := by
      rcases List.getElem?_eq_some.1 hg with ⟨h, -⟩; exact h
    have : g.set y r = g := by
      apply List.ext_getElem?
      intro k
      rw [List.getElem?_set]
      by_cases hk : y = k
      · subst hk; simp [ok_bind, error_bind, pure_eq_ok, throw_eq_error, hy, hg]
      · simp [ok_bind, error_bind, pure_eq_ok, throw_eq_error, hk]
    simp [ok_bind, error_bind, pure_eq_ok, throw_eq_error, loadCols, decodeCols, this]
  | succ n ih =>
    have hy : y < g.length := by
      rcases List.getElem?_eq_some.1 hg with ⟨h, -⟩; exact h
    have hx : x < r.length := by omega
    have hget : getPx g y x = Except.ok r[x] := by
      simp [ok_bind, error_bind, pure_eq_ok, throw_eq_error, getPx, hg, List.getElem?_eq_getElem hx]
    have hdec := decodePixel_eq bitCount hbc row x r[x]
      (le_trans (Nat.mul_le_mul_right _ (by omega)) hrow)
    have hset : ∀ p, setPx g y x p = g.set y (r.set x p) := by
      intro p; simp [ok_bind, error_bind, pure_eq_ok, throw_eq_error, setPx, hg]
    have hD : r.getD x Pixel.init = r[x] := List.getD_eq_getElem _ _ hx
    unfold loadCols decodeCols
    simp only [hget, ok_bind, hdec, hset, hD]
    by_cases hb : badColor (decodePx bitCount row x r[x]) = true
    · have hb' : (!isBlack (decodePx bitCount row x r[x]) &&
          !isWhite (decodePx bitCount row x r[x])) = true := hb
      simp [ok_bind, error_bind, pure_eq_ok, throw_eq_error, hb, hb']
    · have hb' : ¬ ((!isBlack (decodePx bitCount row x r[x]) &&
          !isWhite (decodePx bitCount row x r[x])) = true) := hb
      rw [if_neg hb', if_neg hb]
      have hg' : (g.set y (r.set x (decodePx bitCount row x r[x])))[y]? =
          some (r.set x (decodePx bitCount row x r[x])) := by
        simp [ok_bind, error_bind, pure_eq_ok, throw_eq_error, List.getElem?_set, hy]
      rw [ih (x + 1) _ _ hg' (by simp; omega) (by rw [← Nat.add_assoc] at *; convert hrow using 2; omega)]
      simp [ok_bind, error_bind, pure_eq_ok, throw_eq_error, List.set_set]

theorem read_full (s : IStream) (buf : List Byte) (n : Nat) (hf : s.failed = false)
    (hn : n ≤ (s.data.drop s.pos).length) (hb : buf.length ≤ n) :
    s.read buf n =
      ({ data := s.data, pos := s.pos + n, failed := false }, (s.data.drop s.pos).take n) := by
  have hlen : ((s.data.drop s.pos).take n).length = n := by
    rw [List.length_take]; omega
  unfold IStream.read IStream.readRaw
  simp only [hf, Bool.false_eq_true, ↓reduceIte, hlen, lt_self_iff_false, decide_False]
  rw [List.drop_eq_nil_of_le hb]
  simp

theorem loadRows_eq (bitCount : Int) (hbc : bitCount = 24 ∨ bitCount = 32)
    (width rowSize : Nat) (hrs : width * (bitCount.tdiv 8).toNat ≤ rowSize)
    (n : Nat) (s : IStream) (buf : List Byte) (g : Grid)
    (hf : s.failed = false) (hn : n * rowSize ≤ (s.data.drop s.pos).length)
    (hb : buf.length = rowSize)
    (hg : ∀ y, y < n → ∃ r, g[y]? = some r ∧ width ≤ r.length) :
    loadRows bitCount width rowSize n s buf g =
      Except.ok (decodeRows bitCount width rowSize n (s.data.drop s.pos) g) := by
  induction n generalizing s buf g with
  | zero => simp [ok_bind, error_bind, pure_eq_ok, throw_eq_error, loadRows, decodeRows]
  | succ n ih =>
    have hn1 : rowSize ≤ (s.data.drop s.pos).length := by
      have : (n + 1) * rowSize = n * rowSize + rowSize := by ring
      omega
    rcases hg n (by omega) with ⟨r, hr, hrw⟩
    have hrd := read_full s buf rowSize hf hn1 (by omega)
    have htl : ((s.data.drop s.pos).take rowSize).length = rowSize := by
      rw [List.length_take]; omega
    have hcols := loadCols_eq bitCount hbc ((s.data.drop s.pos).take rowSize) n width 0 g r hr
      (by omega) (by rw [htl]; simpa using hrs)
    have hD : g.getD n [] = r := by
      rw [List.getD_eq_getElem?_getD, hr]; rfl
    unfold loadRows decodeRows
    simp only [hrd, hcols, ok_bind, hD]
    cases hc : (decodeCols bitCount ((s.data.drop s.pos).take rowSize) width 0 r).2 with
    | some x => rfl
    | none =>
      simp only
      rw [ih { data := s.data, pos := s.pos + rowSize, failed := false } _ _ rfl]
      · simp [ok_bind, error_bind, pure_eq_ok, throw_eq_error, List.drop_drop, Nat.add_comm]
      · simp only [← List.drop_drop, List.length_drop] at hn ⊢
        have : (n + 1) * rowSize = n * rowSize + rowSize := by ring
        simp only [List.length_drop] at hn1
        omega
      · exact htl
      · intro y hy
        rcases hg y (by omega) with ⟨r', hr', hrw'⟩
        refine ⟨r', ?_, hrw'⟩
        rw [List.getElem?_set]
        simp [ok_bind, error_bind, pure_eq_ok, throw_eq_error, show n ≠ y by omega, hr']

theorem badColor_decodePx (bitCount : Int) (row : List Byte) (x : Nat) (p q : Pixel) :
    badColor (decodePx bitCount row x p) = badColor (decodePx bitCount row x q) := rfl

theorem decodeCols_none (bitCount : Int) (row : List Byte) (n x : Nat) (r : List Pixel)
    (h : ∀ i, x ≤ i → i < x + n → badColor (decodePx bitCount row i Pixel.init) = false) :
    (decodeCols bitCount row n x r).2 = none ∧
      ∀ i, (decodeCols bitCount row n x r).1[i]? =
        if x ≤ i ∧ i < x + n then (r[i]?).map (decodePx bitCount row i) else r[i]? := by
  induction n generalizing x r with
  | zero =>
    refine ⟨rfl, fun i => ?_⟩
    have hi : ¬ (x ≤ i ∧ i < x + 0) := by omega
    simp only [decodeCols, hi, ↓reduceIte]
  | succ n ih =>
    have hx : badColor (decodePx bitCount row x (r.getD x Pixel.init)) = false := by
      rw [badColor_decodePx _ _ _ _ Pixel.init]; exact h x (le_refl _) (by omega)
    have ih' := ih (x + 1) (r.set x (decodePx bitCount row x (r.getD x Pixel.init)))
      (fun i h1 h2 => h i (by omega) (by omega))
    unfold decodeCols
    simp only [hx, Bool.false_eq_true, ↓reduceIte]
    refine ⟨ih'.1, fun i => ?_⟩
    rw [ih'.2 i, List.getElem?_set]
    by_cases hi : x = i
    · subst hi
      by_cases hl : x < r.length
      · simp [ok_bind, error_bind, pure_eq_ok, throw_eq_error, hl, List.getD_eq_getElem, List.getElem?_eq_getElem]
      · simp [ok_bind, error_bind, pure_eq_ok, throw_eq_error, hl, List.getElem?_eq_none (Nat.le_of_not_lt hl)]
    · by_cases h1 : x + 1 ≤ i ∧ i < x + 1 + n
      · simp [ok_bind, error_bind, pure_eq_ok, throw_eq_error, h1, hi, show x ≤ i ∧ i < x + (n + 1) by omega]
      · have h2 : ¬ (x ≤ i ∧ i < x + (n + 1)) := by omega
        simp [ok_bind, error_bind, pure_eq_ok, throw_eq_error, h1, hi, h2]

theorem decodeCols_some (bitCount : Int) (row : List Byte) (n x : Nat) (r : List Pixel)
    (i0 : Nat) (h0 : x ≤ i0) (h1 : i0 < x + n)
    (hbad : badColor (decodePx bitCount row i0 Pixel.init) = true)
    (hgood : ∀ i, x ≤ i → i < i0 → badColor (decodePx bitCount row i Pixel.init) = false) :
    (decodeCols bitCount row n x r).2 = some i0 := by
  induction n generalizing x r with
  | zero => omega
  | succ n ih =>
    unfold decodeCols
    by_cases hx : x = i0
    · subst hx
      have hb : badColor (decodePx bitCount row x (r.getD x Pixel.init)) = true := by
        rw [badColor_decodePx _ _ _ _ Pixel.init]; exact hbad
      simp only [hb, ↓reduceIte]
    · have hx' : badColor (decodePx bitCount row x (r.getD x Pixel.init)) = false := by
        rw [badColor_decodePx _ _ _ _ Pixel.init]; exact hgood x (le_refl _) (by omega)
      simp only [hx', Bool.false_eq_true, ↓reduceIte]
      exact ih (x + 1) _ (by omega) (by omega) (fun i a b => hgood i (by omega) b)

theorem rowAt_drop (rest : List Byte) (rowSize k : Nat) :
    rowAt (rest.drop rowSize) rowSize k = rowAt rest rowSize (k + 1) := by
  unfold rowAt
  rw [List.drop_drop]
  congr 2
  ring

theorem decodeRows_none (bitCount : Int) (width rowSize n : Nat) (rest : List Byte) (g : Grid)
    (h : ∀ k, k < n → ∀ x, x < width →
      badColor (decodePx bitCount (rowAt rest rowSize k) x Pixel.init) = false) :
    (decodeRows bitCount width rowSize n rest g).2 = none ∧
      ∀ y, (decodeRows bitCount width rowSize n rest g).1[y]? =
        if y < n then
          (g[y]?).map (fun r =>
            (decodeCols bitCount (rowAt rest rowSize (n - 1 - y)) width 0 r).1)
        else g[y]? := by
  induction n generalizing rest g with
  | zero => exact ⟨rfl, fun y => by simp [ok_bind, error_bind, pure_eq_ok, throw_eq_error, decodeRows]⟩
  | succ n ih =>
    have h0 : rest.take rowSize = rowAt rest rowSize 0 := by simp [ok_bind, error_bind, pure_eq_ok, throw_eq_error, rowAt]
    have hc := decodeCols_none bitCount (rest.take rowSize) width 0 (g.getD n [])
      (fun i _ hi => by rw [h0]; exact h 0 (by omega) i (by omega))
    have ih' := ih (rest.drop rowSize)
      (g.set n (decodeCols bitCount (rest.take rowSize) width 0 (g.getD n [])).1)
      (fun k hk x hx => by rw [rowAt_drop]; exact h (k + 1) (by omega) x hx)
    unfold decodeRows
    simp only [hc.1]
    refine ⟨ih'.1, fun y => ?_⟩
    rw [ih'.2 y, List.getElem?_set]
    by_cases hy : y < n
    · have e : n - 1 - y + 1 = n + 1 - 1 - y := by omega
      simp only [hy, show y < n + 1 by omega, show n ≠ y by omega, rowAt_drop, e,
        ↓reduceIte]
    · by_cases hyn : n = y
      · subst hyn
        by_cases hl : n < g.length
        · simp [ok_bind, error_bind, pure_eq_ok, throw_eq_error, hl, h0, List.getD_eq_getElem, List.getElem?_eq_getElem]
        · simp [ok_bind, error_bind, pure_eq_ok, throw_eq_error, hl, List.getElem?_eq_none (Nat.le_of_not_lt hl)]
      · simp [ok_bind, error_bind, pure_eq_ok, throw_eq_error, hy, hyn, show ¬ y < n + 1 by omega]

theorem decodeRows_some (bitCount : Int) (width rowSize n : Nat) (rest : List Byte) (g : Grid)
    (k0 x0 : Nat) (hk : k0 < n) (hx : x0 < width)
    (hbad : badColor (decodePx bitCount (rowAt rest rowSize k0) x0 Pixel.init) = true)
    (hrows : ∀ k, k < k0 → ∀ x, x < width →
      badColor (decodePx bitCount (rowAt rest rowSize k) x Pixel.init) = false)
    (hcols : ∀ x, x < x0 →
      badColor (decodePx bitCount (rowAt rest rowSize k0) x Pixel.init) = false) :
    (decodeRows bitCount width rowSize n rest g).2 = some (x0, n - 1 - k0) := by
  induction n generalizing rest g k0 with
  | zero => omega
  | succ n ih =>
    have h0 : rest.take rowSize = rowAt rest rowSize 0 := by simp [ok_bind, error_bind, pure_eq_ok, throw_eq_error, rowAt]
    unfold decodeRows
    by_cases hk0 : k0 = 0
    · subst hk0
      have hc := decodeCols_some bitCount (rest.take rowSize) width 0 (g.getD n []) x0
        (Nat.zero_le _) (by omega) (by rw [h0]; exact hbad)
        (fun i _ hi => by rw [h0]; exact hcols i hi)
      simp only [hc]
      rfl
    · have hc := decodeCols_none bitCount (rest.take rowSize) width 0 (g.getD n [])
        (fun i _ hi => by rw [h0]; exact hrows 0 (by omega) i (by omega))
      simp only [hc.1]
      have := ih (rest.drop rowSize)
        (g.set n (decodeCols bitCount (rest.take rowSize) width 0 (g.getD n [])).1)
        (k0 - 1) (by omega)
        (by rw [rowAt_drop, show k0 - 1 + 1 = k0 by omega]; exact hbad)
        (fun k hk x hx => by rw [rowAt_drop]; exact hrows (k + 1) (by omega) x hx)
        (fun x hx => by rw [rowAt_drop, show k0 - 1 + 1 = k0 by omega]; exact hcols x hx)
      rw [this]
      congr 2
      omega

/-! ## Header fields and the row size -/

theorem leNat_lt (l : List Byte) : leNat l < 256 ^ l.length := by
  induction l with
  | nil => simp [leNat]
  | cons b bs ih =>
    have hb := b.isLt
    simp only [leNat, List.length_cons, pow_succ]
    omega

theorem toInt32_range (n : Nat) (h : n < 2 ^ 32) :
    INT_MIN ≤ toInt32 n ∧ toInt32 n ≤ INT_MAX := by
  unfold toInt32 INT_MIN INT_MAX
  split <;> constructor <;> omega

theorem hdrWidth_range (data : List Byte) :
    INT_MIN ≤ hdrWidth data ∧ hdrWidth data ≤ INT_MAX := by
  apply toInt32_range
  have h := leNat_lt ((data.drop 18).take 4)
  have : ((data.drop 18).take 4).length ≤ 4 := by simp [List.length_take]
  calc _ < 256 ^ ((data.drop 18).take 4).length := h
    _ ≤ 256 ^ 4 := Nat.pow_le_pow_right (by norm_num) this
    _ = 2 ^ 32 := by norm_num

theorem hdrHeight_range (data : List Byte) :
    INT_MIN ≤ hdrHeight data ∧ hdrHeight data ≤ INT_MAX := by
  apply toInt32_range
  have h := leNat_lt ((data.drop 22).take 4)
  have : ((data.drop 22).take 4).length ≤ 4 := by simp [List.length_take]
  calc _ < 256 ^ ((data.drop 22).take 4).length := h
    _ ≤ 256 ^ 4 := Nat.pow_le_pow_right (by norm_num) this
    _ = 2 ^ 32 := by norm_num

theorem chkInt_ok (v : Int) (h1 : INT_MIN ≤ v) (h2 : v ≤ INT_MAX) : chkInt v = Except.ok v := by
  simp [chkInt, h1, h2, pure_eq_ok]

theorem toSizeT_natCast (n : Nat) (h : n < 2 ^ 64) : toSizeT (n : Int) = n := by
  unfold toSizeT
  have h' : (n : Int) < 2 ^ 64 := by exact_mod_cast h
  rw [Int.emod_eq_of_lt (Int.natCast_nonneg n) h']
  exact Int.toNat_natCast n

theorem rowStride_cast_le (W bc : Nat) (hov : (W : Int) * bc + 31 ≤ INT_MAX) :
    ((rowStride W bc : Nat) : Int) ≤ INT_MAX := by
  have hle : rowStride W bc ≤ W * bc + 31 := by
    unfold rowStride; omega
  have : ((rowStride W bc : Nat) : Int) ≤ ((W * bc + 31 : Nat) : Int) := by exact_mod_cast hle
  push_cast at this; omega

theorem rowStride_lt (W bc : Nat) (hov : (W : Int) * bc + 31 ≤ INT_MAX) :
    rowStride W bc < 2 ^ 31 := by
  have h := rowStride_cast_le W bc hov
  unfold INT_MAX at h
  have h2 : ((rowStride W bc : Nat) : Int) < ((2 ^ 31 : Nat) : Int) := by
    push_cast; omega
  exact_mod_cast h2

theorem tdiv_rowStride (W bc : Nat) :
    ((W : Int) * bc + 31).tdiv 32 * 4 = ((rowStride W bc : Nat) : Int) := by
  have hpos : (0 : Int) ≤ (W : Int) * bc := by positivity
  rw [Int.tdiv_eq_ediv (by omega) (by norm_num)]
  unfold rowStride
  push_cast; rfl

theorem rowSizeInt_eq (W bc : Nat) (hov : (W : Int) * bc + 31 ≤ INT_MAX) :
    rowSizeInt W bc = Except.ok ((rowStride W bc : Nat) : Int) := by
  have hpos : (0 : Int) ≤ (W : Int) * bc := by positivity
  have hmin : INT_MIN ≤ 0 := by unfold INT_MIN; omega
  unfold rowSizeInt
  rw [chkInt_ok _ (by omega) (by omega)]
  simp only [ok_bind]
  rw [chkInt_ok _ (by omega) hov, ok_bind, tdiv_rowStride]
  exact chkInt_ok _ (by omega) (rowStride_cast_le W bc hov)

theorem rowSize_eq (w : Int) (bc : Nat) (hw : 0 ≤ w) (hov : w * bc + 31 ≤ INT_MAX) :
    rowSize w bc = Except.ok (rowStride w.toNat bc) := by
  obtain ⟨W, rfl⟩ := Int.eq_ofNat_of_zero_le hw
  unfold rowSize
  rw [rowSizeInt_eq W bc hov, ok_bind, pure_eq_ok, Int.toNat_natCast, toSizeT_natCast]
  exact lt_trans (rowStride_lt W bc hov) (by norm_num)

/-! ## `load` on a file whose reads all succeed -/

theorem field_sub (data : List Byte) (a m off len : Nat) (h1 : off + len ≤ m)
    (h2 : a + m ≤ data.length) :
    field ((data.drop a).take m) off len =
      Except.ok (leNat ((data.drop (a + off)).take len)) := by
  have hl : ((data.drop a).take m).length = m := by
    rw [List.length_take, List.length_drop]; omega
  unfold field
  rw [if_pos (by rw [hl]; exact h1), pure_eq_ok, List.drop_take, List.take_take,
    List.drop_drop, Nat.min_eq_left (by omega)]

theorem readRaw_headers (data : List Byte) (h54 : 54 ≤ data.length) :
    (IStream.readRaw { data := data, pos := 0, failed := false } sizeofFileHeader =
      ({ data := data, pos := 14, failed := false }, data.take 14)) ∧
    (IStream.readRaw { data := data, pos := 14, failed := false } sizeofInfoHeader =
      ({ data := data, pos := 54, failed := false }, (data.drop 14).take 40)) := by
  have h1 : (data.take 14).length = 14 := by rw [List.length_take]; omega
  have h2 : ((data.drop 14).take 40).length = 40 := by
    rw [List.length_take, List.length_drop]; omega
  constructor
  · simp [IStream.readRaw, sizeofFileHeader, h1]
  · simp [IStream.readRaw, sizeofInfoHeader, h2]

theorem header_fields (data : List Byte) (h54 : 54 ≤ data.length) :
    bfType (data.take 14) = Except.ok (hdrType data) ∧
    bfOffBits (data.take 14) = Except.ok (hdrOffBits data) ∧
    biWidth ((data.drop 14).take 40) = Except.ok (hdrWidth data) ∧
    biHeight ((data.drop 14).take 40) = Except.ok (hdrHeight data) ∧
    biBitCount ((data.drop 14).take 40) = Except.ok (hdrBitCount data) ∧
    biCompression ((data.drop 14).take 40) = Except.ok (hdrCompression data) := by
  have e : data.take 14 = (data.drop 0).take 14 := by simp
  refine ⟨?_, ?_, ?_, ?_, ?_, ?_⟩
  · unfold bfType hdrType
    rw [e, field_sub data 0 14 0 2 (by omega) (by omega)]
    rfl
  · unfold bfOffBits hdrOffBits
    rw [e, field_sub data 0 14 10 4 (by omega) (by omega)]
  · unfold biWidth hdrWidth
    rw [field_sub data 14 40 4 4 (by omega) (by omega), ok_bind, pure_eq_ok]
  · unfold biHeight hdrHeight
    rw [field_sub data 14 40 8 4 (by omega) (by omega), ok_bind, pure_eq_ok]
  · unfold biBitCount hdrBitCount
    rw [field_sub data 14 40 14 2 (by omega) (by omega)]
  · unfold biCompression hdrCompression
    rw [field_sub data 14 40 16 4 (by omega) (by omega)]

theorem absInt_eq (h : Int) (h1 : INT_MIN < h) (h2 : h ≤ INT_MAX) :
    absInt h = Except.ok ((h.natAbs : Nat) : Int) := by
  unfold absInt
  have e : (if h < 0 then -h else h) = ((h.natAbs : Nat) : Int) := by
    split <;> omega
  rw [e]
  apply chkInt_ok
  · have : INT_MIN ≤ 0 := by unfold INT_MIN; omega
    omega
  · unfold INT_MIN INT_MAX at *; omega

theorem allocVec_ok {α : Type} (elemSize n : Nat) (x : α) (h : n ≤ vecMaxSize elemSize) :
    allocVec elemSize n x = Except.ok (List.replicate n x) := by
  simp [allocVec, h, pure_eq_ok]

theorem resizeRows_shape (px : Grid) (H W : Nat)
    (hshape : ∀ y r, y < H → px[y]? = some r → W ≤ r.length) :
    ∀ y, y < H → ∃ r, (resizeRows px H (List.replicate W Pixel.init))[y]? = some r ∧
      W ≤ r.length := by
  intro y hy
  unfold resizeRows
  by_cases hl : y < px.length
  · have h1 : y < (px.take H).length := by rw [List.length_take]; omega
    refine ⟨px[y], ?_, hshape y _ hy (List.getElem?_eq_getElem hl)⟩
    rw [List.getElem?_append_left h1, List.getElem?_take]
    simp [hy, List.getElem?_eq_getElem hl]
  · have h1 : (px.take H).length ≤ y := by rw [List.length_take]; omega
    refine ⟨List.replicate W Pixel.init, ?_, by simp⟩
    rw [List.getElem?_append_right h1, List.getElem?_replicate]
    have : (px.take H).length = px.length := by rw [List.length_take]; omega
    rw [if_pos (by omega)]

theorem load_eq (img : BmpImage) (data : List Byte) (h54 : 54 ≤ data.length)
    (hty : hdrType data = 0x4D42) (hcomp : hdrCompression data = 0)
    (hbc : hdrBitCount data = 24 ∨ hdrBitCount data = 32)
    (hw : 0 ≤ hdrWidth data) (hh : hdrHeight data ≠ INT_MIN)
    (hov : hdrWidth data * hdrBitCount data + 31 ≤ INT_MAX)
    (hcomplete : hdrOffBits data +
      (hdrHeight data).natAbs * rowStride (hdrWidth data).toNat (hdrBitCount data) ≤
        data.length)
    (hshape : ∀ y r, y < (hdrHeight data).natAbs → img.pixels[y]? = some r →
      (hdrWidth data).toNat ≤ r.length) :
    img.load (some data) = Except.ok (loadResult img data) := by
  obtain ⟨hf1, hf2, hf3, hf4, hf5, hf6⟩ := header_fields data h54
  obtain ⟨hr1, hr2⟩ := readRaw_headers data h54
  have hwr := hdrWidth_range data
  have hhr := hdrHeight_range data
  have habs := absInt_eq (hdrHeight data) (lt_of_le_of_ne hhr.1 (Ne.symm hh)) hhr.2
  have hrs := rowSize_eq (hdrWidth data) (hdrBitCount data) hw hov
  have hbc' : ¬ (((hdrBitCount data : Nat) : Int) ≠ 24 ∧ ((hdrBitCount data : Nat) : Int) ≠ 32) := by
    omega
  have hbcI : ((hdrBitCount data : Nat) : Int) = 24 ∨ ((hdrBitCount data : Nat) : Int) = 32 := by
    omega
  have hlt := rowStride_lt (hdrWidth data).toNat (hdrBitCount data)
    (by rw [Int.toNat_of_nonneg hw]; exact hov)
  have ha1 := allocVec_ok 1 (rowStride (hdrWidth data).toNat (hdrBitCount data)) (0 : Byte)
    (by unfold vecMaxSize; omega)
  have hWlt : (hdrWidth data).toNat < 2 ^ 31 := by
    unfold INT_MAX at hwr; omega
  have hsw : toSizeT (hdrWidth data) = (hdrWidth data).toNat := by
    conv_lhs => rw [← Int.toNat_of_nonneg hw]
    exact toSizeT_natCast _ (lt_trans hWlt (by norm_num))
  have hHlt : (hdrHeight data).natAbs < 2 ^ 31 := by
    unfold INT_MAX INT_MIN at hhr; unfold INT_MIN at hh; omega
  have hsh : toSizeT ((hdrHeight data).natAbs : Int) = (hdrHeight data).natAbs :=
    toSizeT_natCast _ (lt_trans hHlt (by norm_num))
  have ha2 := allocVec_ok 4 (hdrWidth data).toNat Pixel.init
    (by unfold vecMaxSize; omega)
  have hstride : (hdrWidth data).toNat * (((hdrBitCount data : Nat) : Int).tdiv 8).toNat ≤
      rowStride (hdrWidth data).toNat (hdrBitCount data) := by
    unfold rowStride
    rcases hbc with h | h <;> rw [h]
    · rw [show (((24 : Nat) : Int).tdiv 8).toNat = 3 from rfl]; omega
    · rw [show (((32 : Nat) : Int).tdiv 8).toNat = 4 from rfl]; omega
  have hrows := loadRows_eq (hdrBitCount data) hbcI (hdrWidth data).toNat
    (rowStride (hdrWidth data).toNat (hdrBitCount data)) hstride (hdrHeight data).natAbs
    { data := data, pos := hdrOffBits data, failed := false }
    (List.replicate (rowStride (hdrWidth data).toNat (hdrBitCount data)) (0 : Byte))
    (resizeRows img.pixels (hdrHeight data).natAbs
      (List.replicate (hdrWidth data).toNat Pixel.init))
    rfl (by simp only [List.length_drop]; omega) (by simp)
    (resizeRows_shape _ _ _ hshape)
  unfold BmpImage.load
  simp only [hr1, hr2, hf1, hf2, hf3, hf4, hf5, hf6, ok_bind, hty, hcomp, habs, hrs, ha1,
    hsw, hsh, ha2, Int.toNat_natCast, IStream.seekg, ne_eq, not_true_eq_false, ↓reduceIte,
    hbc', Bool.false_eq_true, hrows, pure_eq_ok]
  unfold loadResult
  simp only
  split <;> rename_i h <;> simp only [h]


/-! ## Row stride -/

theorem rowStrideBytes_eq (width bitDepth : Nat) :
    rowStrideBytes width bitDepth = rowStride width bitDepth := by
  unfold rowStrideBytes rowStride
  congr 1
  apply le_antisymm
  · rw [Nat.ceil_le, div_le_iff₀ (by norm_num)]
    have : width * bitDepth ≤ (width * bitDepth + 31) / 32 * 32 := by omega
    exact_mod_cast this
  · rcases Nat.eq_zero_or_pos ((width * bitDepth + 31) / 32) with h | h
    · rw [h]; exact Nat.zero_le _
    · apply Nat.le_of_pred_lt
      rw [Nat.lt_ceil, lt_div_iff₀ (by norm_num)]
      have : ((width * bitDepth + 31) / 32).pred * 32 < width * bitDepth := by
        have : ((width * bitDepth + 31) / 32).pred = (width * bitDepth + 31) / 32 - 1 := rfl
        omega
      exact_mod_cast this

theorem rowStride_least (width bitCount : Nat) (hbc : bitCount = 24 ∨ bitCount = 32) :
    4 ∣ rowStride width bitCount ∧ width * bitCount / 8 ≤ rowStride width bitCount ∧
      ∀ m, 4 ∣ m → width * bitCount / 8 ≤ m → rowStride width bitCount ≤ m := by
  unfold rowStride
  refine ⟨Dvd.intro_left _ rfl, ?_, ?_⟩
  · rcases hbc with rfl | rfl <;> omega
  · rintro m ⟨c, rfl⟩ hm
    rcases hbc with rfl | rfl <;> omega


/-! ## Signature test -/

theorem bfType_of_two (data : List Byte) (h2 : 2 ≤ data.length) :
    bfType ((IStream.readRaw { data := data, pos := 0, failed := false } sizeofFileHeader).2) =
      Except.ok (hdrType data) := by
  have hl : 2 ≤ (data.take 14).length := by rw [List.length_take]; omega
  simp only [IStream.readRaw, sizeofFileHeader, Bool.false_eq_true, ↓reduceIte, List.drop_zero]
  unfold bfType field hdrType
  rw [if_pos (by omega), pure_eq_ok, List.drop_zero, List.take_take]
  rfl

theorem load_badType (img : BmpImage) (data : List Byte) (h2 : 2 ≤ data.length)
    (hty : hdrType data ≠ 0x4D42) :
    img.load (some data) =
      Except.ok { ret := false, cerr := some Msg.notValidBmp, img := img } := by
  unfold BmpImage.load
  simp only [bfType_of_two data h2, ok_bind, hty, ne_eq, not_false_eq_true, ↓reduceIte,
    pure_eq_ok]

theorem hdrType_eq_iff (data : List Byte) (h2 : 2 ≤ data.length) :
    hdrType data = 0x4D42 ↔ data.take 2 = [0x42, 0x4D] := by
  match data, h2 with
  | b0 :: b1 :: rest, _ =>
    have h0 := b0.isLt
    have h1 := b1.isLt
    simp only [hdrType, List.take_succ_cons, List.take_zero, leNat, List.cons.injEq, and_true]
    constructor
    · intro h
      constructor <;> apply Fin.ext <;> show _ = _ <;> omega
    · rintro ⟨rfl, rfl⟩
      rfl

/-! ## Stored pixels -/

theorem rowAt_getElem? (rest : List Byte) (rowSize k i : Nat) (hi : i < rowSize) :
    (rowAt rest rowSize k)[i]? = rest[k * rowSize + i]? := by
  unfold rowAt
  rw [List.getElem?_take, if_pos hi, List.getElem?_drop]

theorem rowAt_getD (data : List Byte) (off rowSize k i : Nat) (hi : i < rowSize) :
    (rowAt (data.drop off) rowSize k).getD i 0 = (data[off + k * rowSize + i]?).getD 0 := by
  rw [List.getD_eq_getElem?_getD, rowAt_getElem? _ _ _ _ hi, List.getElem?_drop, Nat.add_assoc]

theorem stride_ge (W bc : Nat) (hbc : bc = 24 ∨ bc = 32) : W * (bc / 8) ≤ rowStride W bc := by
  unfold rowStride
  rcases hbc with rfl | rfl <;> omega

theorem bpp_cast (bc : Nat) (hbc : bc = 24 ∨ bc = 32) :
    (((bc : Nat) : Int).tdiv 8).toNat = bc / 8 := by
  rcases hbc with rfl | rfl <;> rfl

/-- The pixel decoded from the `k`-th stored row of a complete file consists of the bytes at
`diskBase`. -/
theorem decodePx_disk (data : List Byte) (hbc : hdrBitCount data = 24 ∨ hdrBitCount data = 32)
    (hc : CompletePixelData data) (k x : Nat) (hk : k < fileHeight data)
    (hx : x < fileWidth data) (p : Pixel) :
    data[diskBase data k x]? = some (decodePx (hdrBitCount data)
      (rowAt (data.drop (hdrOffBits data)) (fileStride data) k) x p).b ∧
    data[diskBase data k x + 1]? = some (decodePx (hdrBitCount data)
      (rowAt (data.drop (hdrOffBits data)) (fileStride data) k) x p).g ∧
    data[diskBase data k x + 2]? = some (decodePx (hdrBitCount data)
      (rowAt (data.drop (hdrOffBits data)) (fileStride data) k) x p).r ∧
    (hdrBitCount data = 32 → data[diskBase data k x + 3]? = some (decodePx (hdrBitCount data)
      (rowAt (data.drop (hdrOffBits data)) (fileStride data) k) x p).a) ∧
    (hdrBitCount data = 24 → (decodePx (hdrBitCount data)
      (rowAt (data.drop (hdrOffBits data)) (fileStride data) k) x p).a = p.a) := by
  have hs : fileWidth data * (hdrBitCount data / 8) ≤ fileStride data :=
    stride_ge (fileWidth data) (hdrBitCount data) hbc
  have hb := bpp_cast (hdrBitCount data) hbc
  unfold CompletePixelData at hc
  have hrow : k * fileStride data + fileStride data ≤ fileHeight data * fileStride data := by
    calc k * fileStride data + fileStride data = (k + 1) * fileStride data := by ring
      _ ≤ fileHeight data * fileStride data := Nat.mul_le_mul_right _ hk
  have hxx : (x + 1) * (hdrBitCount data / 8) ≤ fileWidth data * (hdrBitCount data / 8) :=
    Nat.mul_le_mul_right _ hx
  have hxe : (x + 1) * (hdrBitCount data / 8) = x * (hdrBitCount data / 8) +
      hdrBitCount data / 8 := by ring
  have key : ∀ j, j < hdrBitCount data / 8 →
      data[diskBase data k x + j]? = some ((rowAt (data.drop (hdrOffBits data))
        (fileStride data) k).getD (x * (hdrBitCount data / 8) + j) 0) := by
    intro j hj
    rw [rowAt_getD _ _ _ _ _ (by omega)]
    have e : hdrOffBits data + k * fileStride data + (x * (hdrBitCount data / 8) + j) =
        diskBase data k x + j := by unfold diskBase; omega
    rw [e, List.getElem?_eq_getElem (by unfold diskBase; omega)]
    rfl
  unfold decodePx
  simp only [hb]
  refine ⟨?_, ?_, ?_, ?_, ?_⟩
  · have := key 0 (by rcases hbc with h | h <;> rw [h] <;> decide)
    simpa using this
  · exact key 1 (by rcases hbc with h | h <;> rw [h] <;> decide)
  · exact key 2 (by rcases hbc with h | h <;> rw [h] <;> decide)
  · intro h32
    have := key 3 (by rw [h32]; decide)
    rw [this]
    simp [h32]
  · intro h24
    simp [h24]

/-! ## The failure branches of `load` -/

theorem load_badComp (img : BmpImage) (data : List Byte) (h54 : 54 ≤ data.length)
    (hty : hdrType data = 0x4D42) (hcomp : hdrCompression data ≠ 0) :
    img.load (some data) =
      Except.ok { ret := false, cerr := some Msg.notValidBmp, img := img } := by
  obtain ⟨hf1, hf2, hf3, hf4, hf5, hf6⟩ := header_fields data h54
  obtain ⟨hr1, hr2⟩ := readRaw_headers data h54
  unfold BmpImage.load
  simp only [hr1, hr2, hf1, hf6, ok_bind, hty, hcomp, ne_eq, not_true_eq_false,
    not_false_eq_true, ↓reduceIte, pure_eq_ok]

theorem absInt_min : absInt INT_MIN = Except.error Fault.undefined := rfl

theorem load_minHeight (img : BmpImage) (data : List Byte) (h54 : 54 ≤ data.length)
    (hty : hdrType data = 0x4D42) (hcomp : hdrCompression data = 0)
    (hh : hdrHeight data = INT_MIN) :
    img.load (some data) = Except.error Fault.undefined := by
  obtain ⟨hf1, hf2, hf3, hf4, hf5, hf6⟩ := header_fields data h54
  obtain ⟨hr1, hr2⟩ := readRaw_headers data h54
  unfold BmpImage.load
  simp only [hr1, hr2, hf1, hf3, hf4, hf6, ok_bind, hty, hcomp, ne_eq, not_true_eq_false,
    ↓reduceIte, hh, absInt_min, error_bind]

theorem load_badBitCount (img : BmpImage) (data : List Byte) (h54 : 54 ≤ data.length)
    (hty : hdrType data = 0x4D42) (hcomp : hdrCompression data = 0)
    (hh : hdrHeight data ≠ INT_MIN)
    (hbc : ¬ (hdrBitCount data = 24 ∨ hdrBitCount data = 32)) :
    img.load (some data) =
      Except.ok { ret := false, cerr := some (Msg.unsupportedBitCount (hdrBitCount data)),
                  img := { img with width := hdrWidth data, height := (hdrHeight data).natAbs,
                                    bitCount := hdrBitCount data } } := by
  obtain ⟨hf1, hf2, hf3, hf4, hf5, hf6⟩ := header_fields data h54
  obtain ⟨hr1, hr2⟩ := readRaw_headers data h54
  have hhr := hdrHeight_range data
  have habs := absInt_eq (hdrHeight data) (lt_of_le_of_ne hhr.1 (Ne.symm hh)) hhr.2
  have hbc' : ((hdrBitCount data : Nat) : Int) ≠ 24 ∧ ((hdrBitCount data : Nat) : Int) ≠ 32 := by
    omega
  unfold BmpImage.load
  simp only [hr1, hr2, hf1, hf3, hf4, hf5, hf6, ok_bind, hty, hcomp, ne_eq, not_true_eq_false,
    ↓reduceIte, habs, hbc', not_false_eq_true, and_self, pure_eq_ok]

theorem rowSize_overflow (w : Int) (bc : Nat) (hw : 0 ≤ w) (hov : ¬ (w * bc + 31 ≤ INT_MAX)) :
    rowSize w bc = Except.error Fault.undefined := by
  have hpos : (0 : Int) ≤ w * bc := by positivity
  have hmin : INT_MIN ≤ 0 := by unfold INT_MIN; omega
  unfold rowSize rowSizeInt
  by_cases h1 : w * bc ≤ INT_MAX
  · rw [chkInt_ok _ (by omega) h1, ok_bind]
    have : chkInt (w * bc + 31) = Except.error Fault.undefined := by
      simp [chkInt, hov, throw_eq_error]
    rw [this, error_bind, error_bind]
  · have : chkInt (w * bc) = Except.error Fault.undefined := by
      simp [chkInt, h1, throw_eq_error]
    rw [this, error_bind, error_bind]

theorem load_overflow (img : BmpImage) (data : List Byte) (h54 : 54 ≤ data.length)
    (hty : hdrType data = 0x4D42) (hcomp : hdrCompression data = 0)
    (hbc : hdrBitCount data = 24 ∨ hdrBitCount data = 32)
    (hw : 0 ≤ hdrWidth data) (hh : hdrHeight data ≠ INT_MIN)
    (hov : ¬ StrideFits data) :
    img.load (some data) = Except.error Fault.undefined := by
  obtain ⟨hf1, hf2, hf3, hf4, hf5, hf6⟩ := header_fields data h54
  obtain ⟨hr1, hr2⟩ := readRaw_headers data h54
  have hhr := hdrHeight_range data
  have habs := absInt_eq (hdrHeight data) (lt_of_le_of_ne hhr.1 (Ne.symm hh)) hhr.2
  have hbc' : ¬ (((hdrBitCount data : Nat) : Int) ≠ 24 ∧ ((hdrBitCount data : Nat) : Int) ≠ 32) := by
    omega
  have hrs := rowSize_overflow (hdrWidth data) (hdrBitCount data) hw hov
  unfold BmpImage.load
  simp only [hr1, hr2, hf1, hf2, hf3, hf4, hf5, hf6, ok_bind, hty, hcomp, ne_eq,
    not_true_eq_false, ↓reduceIte, habs, hbc', hrs, error_bind]

theorem allocVec_neg {α : Type} (w : Int) (x : α) (h1 : INT_MIN ≤ w) (h2 : w < 0) :
    allocVec 4 (toSizeT w) x = Except.error Fault.lengthError := by
  have e : w % 2 ^ 64 = w + 2 ^ 64 := by
    rw [← Int.add_mul_emod_self (a := w) (b := 1) (c := 2 ^ 64), one_mul]
    apply Int.emod_eq_of_lt
    · unfold INT_MIN at h1; omega
    · omega
  have : ¬ (toSizeT w ≤ vecMaxSize 4) := by
    unfold toSizeT vecMaxSize
    rw [e]
    unfold INT_MIN at h1
    omega
  simp [allocVec, this, throw_eq_error]

theorem load_negWidth (img : BmpImage) (data : List Byte) (h54 : 54 ≤ data.length)
    (hty : hdrType data = 0x4D42) (hcomp : hdrCompression data = 0)
    (hbc : hdrBitCount data = 24 ∨ hdrBitCount data = 32)
    (hw : hdrWidth data < 0) :
    ∃ e, img.load (some data) = Except.error e := by
  obtain ⟨hf1, hf2, hf3, hf4, hf5, hf6⟩ := header_fields data h54
  obtain ⟨hr1, hr2⟩ := readRaw_headers data h54
  have hbc' : ¬ (((hdrBitCount data : Nat) : Int) ≠ 24 ∧ ((hdrBitCount data : Nat) : Int) ≠ 32) := by
    omega
  have ha := allocVec_neg (hdrWidth data) Pixel.init (hdrWidth_range data).1 hw
  unfold BmpImage.load
  simp only [hr1, hr2, hf1, hf2, hf3, hf4, hf5, hf6, ok_bind, hty, hcomp, ne_eq,
    not_true_eq_false, ↓reduceIte, hbc', ha, error_bind]
  cases absInt (hdrHeight data) with
  | error e => exact ⟨e, by rw [error_bind]⟩
  | ok h =>
    rw [ok_bind]
    cases rowSize (hdrWidth data) (hdrBitCount data) with
    | error e => exact ⟨e, by rw [error_bind]⟩
    | ok rs =>
      rw [ok_bind]
      cases allocVec 1 rs (0 : Byte) with
      | error e => exact ⟨e, by rw [error_bind]⟩
      | ok row => exact ⟨_, by rw [ok_bind]⟩

/-! ## `load` into a fresh image -/

theorem badColor_false_iff (p : Pixel) :
    badColor p = false ↔
      (p.b = 0 ∧ p.g = 0 ∧ p.r = 0) ∨ (p.b = 255 ∧ p.g = 255 ∧ p.r = 255) := by
  simp only [badColor, isBlack, isWhite, Bool.and_eq_false_imp, Bool.not_eq_eq_eq_not,
    Bool.not_true, Bool.and_eq_true, beq_iff_eq, Bool.not_false, Bool.and_eq_false_iff,
    beq_eq_false_iff_ne, ne_eq]
  tauto

theorem badColor_iff_diskBW (data : List Byte)
    (hbc : hdrBitCount data = 24 ∨ hdrBitCount data = 32)
    (hc : CompletePixelData data) (k x : Nat) (hk : k < fileHeight data)
    (hx : x < fileWidth data) (p : Pixel) :
    badColor (decodePx (hdrBitCount data)
      (rowAt (data.drop (hdrOffBits data)) (fileStride data) k) x p) = false ↔
      diskBW data k x := by
  obtain ⟨h0, h1, h2, -, -⟩ := decodePx_disk data hbc hc k x hk hx p
  rw [badColor_false_iff]
  unfold diskBW
  rw [h0, h1, h2]
  simp only [Option.some.injEq]

theorem resizeRows_nil (n : Nat) (proto : List Pixel) :
    resizeRows [] n proto = List.replicate n proto := by
  simp [resizeRows]

theorem decodeRows_length (bitCount : Int) (width rowSize n : Nat) (rest : List Byte)
    (g : Grid) : (decodeRows bitCount width rowSize n rest g).1.length = g.length := by
  induction n generalizing rest g with
  | zero => rfl
  | succ n ih =>
    unfold decodeRows
    simp only
    split
    · simp
    · rw [ih]; simp

theorem decodeRows_fresh (data : List Byte)
    (h : ∀ k, k < fileHeight data → ∀ x, x < fileWidth data →
      badColor (decodePx (hdrBitCount data)
        (rowAt (data.drop (hdrOffBits data)) (fileStride data) k) x Pixel.init) = false) :
    decodeRows (hdrBitCount data) (fileWidth data) (fileStride data) (fileHeight data)
        (data.drop (hdrOffBits data))
        (List.replicate (fileHeight data) (List.replicate (fileWidth data) Pixel.init)) =
      (decodeGrid data, none) := by
  obtain ⟨h1, h2⟩ := decodeRows_none (hdrBitCount data) (fileWidth data) (fileStride data)
    (fileHeight data) (data.drop (hdrOffBits data))
    (List.replicate (fileHeight data) (List.replicate (fileWidth data) Pixel.init)) h
  apply Prod.ext
  · apply List.ext_getElem?
    intro y
    rw [h2 y]
    unfold decodeGrid
    rw [List.getElem?_map, List.getElem?_replicate]
    by_cases hy : y < fileHeight data
    · rw [if_pos hy, if_pos hy, List.getElem?_range hy]
      simp only [Option.map_some']
      congr 1
      apply List.ext_getElem?
      intro x
      obtain ⟨-, c2⟩ := decodeCols_none (hdrBitCount data)
        (rowAt (data.drop (hdrOffBits data)) (fileStride data) (fileHeight data - 1 - y))
        (fileWidth data) 0 (List.replicate (fileWidth data) Pixel.init)
        (fun i _ hi => h _ (by omega) i (by omega))
      rw [c2 x, List.getElem?_map, List.getElem?_replicate]
      by_cases hx : x < fileWidth data
      · simp [hx, List.getElem?_range hx]
      · simp [hx, List.getElem?_eq_none (l := List.range (fileWidth data)) (by simpa using hx)]
    · rw [if_neg hy, if_neg hy]
      simp [List.getElem?_eq_none (l := List.range (fileHeight data)) (by simpa using hy)]
  · exact h1

theorem fresh_shape (n W : Nat) :
    ∀ y r, y < n → BmpImage.fresh.pixels[y]? = some r → W ≤ r.length := by
  intro y r _ h
  simp [BmpImage.fresh] at h

theorem load_fresh_ok (data : List Byte) (h54 : 54 ≤ data.length)
    (hty : hdrType data = 0x4D42) (hcomp : hdrCompression data = 0)
    (hbc : hdrBitCount data = 24 ∨ hdrBitCount data = 32)
    (hw : 0 ≤ hdrWidth data) (hh : hdrHeight data ≠ INT_MIN)
    (hfit : StrideFits data) (hc : CompletePixelData data) (hbw : AllBW data) :
    BmpImage.fresh.load (some data) =
      Except.ok { ret := true, cerr := none,
                  img := { width := hdrWidth data, height := fileHeight data,
                           bitCount := hdrBitCount data, pixels := decodeGrid data } } := by
  rw [load_eq BmpImage.fresh data h54 hty hcomp hbc hw hh hfit hc (fresh_shape _ _)]
  have hd := decodeRows_fresh data
    (fun k hk x hx => (badColor_iff_diskBW data hbc hc k x hk hx Pixel.init).2 (hbw k hk x hx))
  unfold fileWidth fileHeight fileStride at hd
  unfold loadResult
  simp only [BmpImage.fresh, resizeRows_nil]
  unfold fileWidth at hd
  rw [hd]
  rfl

theorem first_bad (P : Nat → Nat → Prop) (H W : Nat)
    (h : ∃ k x, k < H ∧ x < W ∧ P k x) :
    ∃ k0 x0, k0 < H ∧ x0 < W ∧ P k0 x0 ∧ (∀ k, k < k0 → ∀ x, x < W → ¬ P k x) ∧
      (∀ x, x < x0 → ¬ P k0 x) := by
  classical
  have hk : ∃ k, ∃ x, k < H ∧ x < W ∧ P k x := h
  have hk0 := Nat.find_spec hk
  have hx0 := Nat.find_spec hk0
  refine ⟨Nat.find hk, Nat.find hk0, hx0.1, hx0.2.1, hx0.2.2, ?_, ?_⟩
  · intro k hlt x hx hp
    exact Nat.find_min hk hlt ⟨x, by omega, hx, hp⟩
  · intro x hlt hp
    exact Nat.find_min hk0 hlt ⟨hx0.1, by omega, hp⟩

/-! ## Facts about the sample files -/

theorem hdr_append (h t : List Byte) (hl : h.length = 54) :
    hdrType (h ++ t) = hdrType h ∧ hdrOffBits (h ++ t) = hdrOffBits h ∧
    hdrWidth (h ++ t) = hdrWidth h ∧ hdrHeight (h ++ t) = hdrHeight h ∧
    hdrBitCount (h ++ t) = hdrBitCount h ∧ hdrCompression (h ++ t) = hdrCompression h := by
  have key : ∀ a n, a + n ≤ 54 → ((h ++ t).drop a).take n = (h.drop a).take n := by
    intro a n han
    rw [List.drop_append_of_le_length (by omega),
      List.take_append_of_le_length (by rw [List.length_drop]; omega)]
  have k0 : (h ++ t).take 2 = h.take 2 := List.take_append_of_le_length (by omega)
  unfold hdrType hdrOffBits hdrWidth hdrHeight hdrBitCount hdrCompression
  rw [k0, key 10 4 (by omega), key 18 4 (by omega), key 22 4 (by omega), key 28 2 (by omega),
    key 30 4 (by omega)]
  exact ⟨rfl, rfl, rfl, rfl, rfl, rfl⟩

theorem sampleHeader_length (w h bc sz : Nat) : (sampleHeader w h bc sz).length = 54 := rfl

theorem wide_fields (t : List Byte) :
    hdrType (sampleHeader 89478485 1 24 268435456 ++ t) = 0x4D42 ∧
    hdrOffBits (sampleHeader 89478485 1 24 268435456 ++ t) = 54 ∧
    hdrWidth (sampleHeader 89478485 1 24 268435456 ++ t) = 89478485 ∧
    hdrHeight (sampleHeader 89478485 1 24 268435456 ++ t) = 1 ∧
    hdrBitCount (sampleHeader 89478485 1 24 268435456 ++ t) = 24 ∧
    hdrCompression (sampleHeader 89478485 1 24 268435456 ++ t) = 0 := by
  obtain ⟨h1, h2, h3, h4, h5, h6⟩ := hdr_append (sampleHeader 89478485 1 24 268435456) t rfl
  rw [h1, h2, h3, h4, h5, h6]
  exact ⟨rfl, rfl, rfl, rfl, rfl, rfl⟩

theorem wide_valid (t : List Byte) : ValidHeader (sampleHeader 89478485 1 24 268435456 ++ t) := by
  obtain ⟨h1, h2, h3, h4, h5, h6⟩ := wide_fields t
  exact ⟨by rw [List.length_append, sampleHeader_length]; omega, h1, h6, Or.inl h5,
    by rw [h3]; decide, by rw [h4]; decide⟩

theorem wide_complete (t : List Byte) (ht : t.length = 268435456) :
    CompletePixelData (sampleHeader 89478485 1 24 268435456 ++ t) := by
  obtain ⟨h1, h2, h3, h4, h5, h6⟩ := wide_fields t
  unfold CompletePixelData fileHeight fileStride fileWidth
  rw [h2, h3, h4, h5, List.length_append, sampleHeader_length, ht]
  decide

theorem wide_not_fits (t : List Byte) :
    ¬ StrideFits (sampleHeader 89478485 1 24 268435456 ++ t) := by
  obtain ⟨h1, h2, h3, h4, h5, h6⟩ := wide_fields t
  unfold StrideFits
  rw [h3, h5]
  decide

theorem wide_load (t : List Byte) :
    BmpImage.fresh.load (some (sampleHeader 89478485 1 24 268435456 ++ t)) =
      Except.error Fault.undefined := by
  obtain ⟨h1, h2, h3, h4, h5, h6⟩ := wide_fields t
  have hv := wide_valid t
  exact load_overflow _ _ hv.complete h1 h6 (Or.inl h5) (le_of_lt hv.width)
    (by rw [h4]; decide) (wide_not_fits t)


theorem sampleGray_valid : ValidHeader sampleGray :=
  ⟨by decide, by decide, by decide, by decide, by decide, by decide⟩

theorem white_allBW (h : List Byte) (n : Nat) (hl : h.length = 54)
    (hoff : hdrOffBits (h ++ List.replicate n 255) = 54)
    (hbc : hdrBitCount (h ++ List.replicate n 255) = 24 ∨
      hdrBitCount (h ++ List.replicate n 255) = 32)
    (hc : CompletePixelData (h ++ List.replicate n 255)) :
    AllBW (h ++ List.replicate n 255) := by
  intro k hk x hx
  have hs := stride_ge (fileWidth (h ++ List.replicate n 255))
    (hdrBitCount (h ++ List.replicate n 255)) hbc
  have hS : fileStride (h ++ List.replicate n 255) =
    rowStride (fileWidth (h ++ List.replicate n 255))
      (hdrBitCount (h ++ List.replicate n 255)) := rfl
  unfold CompletePixelData at hc
  rw [hoff, List.length_append, hl, List.length_replicate] at hc
  have hrow : k * fileStride (h ++ List.replicate n 255) +
      fileStride (h ++ List.replicate n 255) ≤
      fileHeight (h ++ List.replicate n 255) * fileStride (h ++ List.replicate n 255) := by
    calc _ = (k + 1) * fileStride (h ++ List.replicate n 255) := by ring
      _ ≤ _ := Nat.mul_le_mul_right _ hk
  have hxx : (x + 1) * (hdrBitCount (h ++ List.replicate n 255) / 8) ≤
      fileWidth (h ++ List.replicate n 255) * (hdrBitCount (h ++ List.replicate n 255) / 8) :=
    Nat.mul_le_mul_right _ hx
  have hxe : (x + 1) * (hdrBitCount (h ++ List.replicate n 255) / 8) =
      x * (hdrBitCount (h ++ List.replicate n 255) / 8) +
        hdrBitCount (h ++ List.replicate n 255) / 8 := by ring
  have h3 : 3 ≤ hdrBitCount (h ++ List.replicate n 255) / 8 := by
    rcases hbc with e | e <;> omega
  have hb : 54 ≤ diskBase (h ++ List.replicate n 255) k x ∧
      diskBase (h ++ List.replicate n 255) k x + 2 < 54 + n := by
    unfold diskBase
    rw [hoff]
    omega
  have key : ∀ j, j ≤ 2 →
      (h ++ List.replicate n 255)[diskBase (h ++ List.replicate n 255) k x + j]? =
        some (255 : Byte) := by
    intro j hj
    rw [List.getElem?_append_right (by omega), List.getElem?_replicate, if_pos (by omega)]
  right
  exact ⟨key 0 (by omega), key 1 (by omega), key 2 (by omega)⟩

theorem wideWhite_allBW : AllBW wideWhite := by
  obtain ⟨h1, h2, h3, h4, h5, h6⟩ := wide_fields (List.replicate 268435456 255)
  exact white_allBW _ _ rfl h2 (Or.inl h5) (wide_complete _ (List.length_replicate _ _))

theorem tall_fields (t : List Byte) :
    hdrType (sampleHeader 1 2147483648 24 8589934592 ++ t) = 0x4D42 ∧
    hdrOffBits (sampleHeader 1 2147483648 24 8589934592 ++ t) = 54 ∧
    hdrWidth (sampleHeader 1 2147483648 24 8589934592 ++ t) = 1 ∧
    hdrHeight (sampleHeader 1 2147483648 24 8589934592 ++ t) = INT_MIN ∧
    hdrBitCount (sampleHeader 1 2147483648 24 8589934592 ++ t) = 24 ∧
    hdrCompression (sampleHeader 1 2147483648 24 8589934592 ++ t) = 0 := by
  obtain ⟨h1, h2, h3, h4, h5, h6⟩ :=
    hdr_append (sampleHeader 1 2147483648 24 8589934592) t rfl
  rw [h1, h2, h3, h4, h5, h6]
  exact ⟨rfl, rfl, rfl, rfl, rfl, rfl⟩

theorem tallWhite_complete : CompletePixelData tallWhite := by
  obtain ⟨h1, h2, h3, h4, h5, h6⟩ := tall_fields (List.replicate 8589934592 255)
  unfold CompletePixelData fileHeight fileStride fileWidth tallWhite
  rw [h2, h3, h4, h5, List.length_append, sampleHeader_length, List.length_replicate]
  decide

theorem decodeGrid_length (data : List Byte) : (decodeGrid data).length = fileHeight data := by
  simp [decodeGrid]

theorem decodeGrid_row (data : List Byte) (y : Nat) (hy : y < fileHeight data) :
    (decodeGrid data)[y]? = some ((List.range (fileWidth data)).map fun x =>
      decodePx (hdrBitCount data)
        (rowAt (data.drop (hdrOffBits data)) (fileStride data) (fileHeight data - 1 - y)) x
        Pixel.init) := by
  unfold decodeGrid
  rw [List.getElem?_map, List.getElem?_range hy]
  rfl

theorem decodeGrid_row_length (data : List Byte) :
    ∀ row ∈ decodeGrid data, row.length = fileWidth data := by
  intro row hrow
  unfold decodeGrid at hrow
  rw [List.mem_map] at hrow
  obtain ⟨y, -, rfl⟩ := hrow
  simp

/-! ## `save` and its loops -/

theorem setIdx_of_eq {α : Type} (v : List α) (i : Int) (k : Nat) (x : α) (hi : i = (k : Int))
    (h : k < v.length) : setIdx v i x = Except.ok (v.set k x) := by
  subst hi; exact setIdx_natCast v k x h

theorem set_append_cons {α : Type} (pre : List α) (a b : α) (t : List α) (k : Nat)
    (hk : k = pre.length) : (pre ++ a :: t).set k b = pre ++ b :: t := by
  subst hk
  induction pre with
  | nil => rfl
  | cons c pre ih => simp [List.set, ih]

theorem pxBytes_length (bitCount : Int) (hbc : bitCount = 24 ∨ bitCount = 32) (p : Pixel) :
    (pxBytes bitCount p).length = (bitCount.tdiv 8).toNat := by
  rcases hbc with rfl | rfl <;> rfl

theorem encodePixel_eq (bitCount : Int) (hbc : bitCount = 24 ∨ bitCount = 32)
    (pre rest : List Byte) (x : Nat) (p : Pixel)
    (hpre : pre.length = x * (bitCount.tdiv 8).toNat)
    (hrest : (bitCount.tdiv 8).toNat ≤ rest.length) :
    encodePixel bitCount (pre ++ rest) x p =
      Except.ok (pre ++ pxBytes bitCount p ++ rest.drop (bitCount.tdiv 8).toNat) := by
  rcases hbc with rfl | rfl
  · have e3 : ((24 : Int).tdiv 8).toNat = 3 := rfl
    rw [e3] at hpre hrest ⊢
    match rest, hrest with
    | a :: b :: c :: t, _ =>
      unfold encodePixel
      simp only [tdiv_24]
      rw [setIdx_of_eq _ _ (x * 3) _ (by push_cast; ring) (by simp; omega), ok_bind,
        set_append_cons _ _ _ _ _ (by omega),
        setIdx_of_eq _ _ (x * 3 + 1) _ (by push_cast; ring) (by simp; omega), ok_bind,
        show pre ++ p.b :: b :: c :: t = (pre ++ [p.b]) ++ b :: c :: t by simp,
        set_append_cons _ _ _ _ _ (by simp; omega),
        setIdx_of_eq _ _ (x * 3 + 2) _ (by push_cast; ring) (by simp; omega), ok_bind,
        show (pre ++ [p.b]) ++ p.g :: c :: t = (pre ++ [p.b, p.g]) ++ c :: t by simp,
        set_append_cons _ _ _ _ _ (by simp; omega)]
      simp [pxBytes, pure_eq_ok]
  · have e4 : ((32 : Int).tdiv 8).toNat = 4 := rfl
    rw [e4] at hpre hrest ⊢
    match rest, hrest with
    | a :: b :: c :: d :: t, _ =>
      unfold encodePixel
      simp only [tdiv_32]
      rw [setIdx_of_eq _ _ (x * 4) _ (by push_cast; ring) (by simp; omega), ok_bind,
        set_append_cons _ _ _ _ _ (by omega),
        setIdx_of_eq _ _ (x * 4 + 1) _ (by push_cast; ring) (by simp; omega), ok_bind,
        show pre ++ p.b :: b :: c :: d :: t = (pre ++ [p.b]) ++ b :: c :: d :: t by simp,
        set_append_cons _ _ _ _ _ (by simp; omega),
        setIdx_of_eq _ _ (x * 4 + 2) _ (by push_cast; ring) (by simp; omega), ok_bind,
        show (pre ++ [p.b]) ++ p.g :: c :: d :: t = (pre ++ [p.b, p.g]) ++ c :: d :: t by simp,
        set_append_cons _ _ _ _ _ (by simp; omega)]
      simp only [↓reduceIte]
      rw [setIdx_of_eq _ _ (x * 4 + 3) _ (by push_cast; ring) (by simp; omega),
        show (pre ++ [p.b, p.g]) ++ p.r :: d :: t = (pre ++ [p.b, p.g, p.r]) ++ d :: t by simp,
        set_append_cons _ _ _ _ _ (by simp; omega)]
      simp [pxBytes]

theorem flatMap_pxBytes_length (bitCount : Int) (hbc : bitCount = 24 ∨ bitCount = 32)
    (l : List Pixel) :
    (l.flatMap (pxBytes bitCount)).length = l.length * (bitCount.tdiv 8).toNat := by
  induction l with
  | nil => simp
  | cons p l ih =>
    rw [List.flatMap_cons, List.length_append, ih, pxBytes_length bitCount hbc,
      List.length_cons]
    ring

theorem saveCols_eq (bitCount : Int) (hbc : bitCount = 24 ∨ bitCount = 32) (g : Grid)
    (y : Nat) (r : List Pixel) (hg : g[y]? = some r) (n x : Nat) (pre rest : List Byte)
    (hr : x + n ≤ r.length) (hpre : pre.length = x * (bitCount.tdiv 8).toNat)
    (hrest : n * (bitCount.tdiv 8).toNat ≤ rest.length) :
    saveCols bitCount g y n x (pre ++ rest) =
      Except.ok (pre ++ ((r.drop x).take n).flatMap (pxBytes bitCount) ++
        rest.drop (n * (bitCount.tdiv 8).toNat)) := by
  induction n generalizing x pre rest with
  | zero => simp [saveCols, pure_eq_ok]
  | succ n ih =>
    have hx : x < r.length := by omega
    have hget : getPx g y x = Except.ok r[x] := by
      simp [getPx, hg, List.getElem?_eq_getElem hx, pure_eq_ok]
    have hle : (bitCount.tdiv 8).toNat ≤ rest.length := by
      have : (n + 1) * (bitCount.tdiv 8).toNat =
        n * (bitCount.tdiv 8).toNat + (bitCount.tdiv 8).toNat := by ring
      omega
    unfold saveCols
    rw [hget, ok_bind, encodePixel_eq bitCount hbc pre rest x r[x] hpre hle, ok_bind,
      ih (x + 1) (pre ++ pxBytes bitCount r[x]) (rest.drop (bitCount.tdiv 8).toNat)
        (by omega)
        (by rw [List.length_append, hpre, pxBytes_length bitCount hbc]; ring)
        (by
          rw [List.length_drop]
          have : (n + 1) * (bitCount.tdiv 8).toNat =
            n * (bitCount.tdiv 8).toNat + (bitCount.tdiv 8).toNat := by ring
          omega)]
    rw [List.drop_eq_getElem_cons hx, List.take_succ_cons, List.flatMap_cons, List.drop_drop]
    simp only [List.append_assoc]
    congr 4
    rw [Nat.succ_mul, Nat.add_comm]

theorem encodeRow_length (bitCount : Int) (hbc : bitCount = 24 ∨ bitCount = 32)
    (width rowSize : Nat) (hrs : width * (bitCount.tdiv 8).toNat ≤ rowSize) (r : List Pixel)
    (hr : width ≤ r.length) : (encodeRow bitCount width rowSize r).length = rowSize := by
  unfold encodeRow
  rw [List.length_append, flatMap_pxBytes_length bitCount hbc, List.length_take,
    List.length_replicate, Nat.min_eq_left hr]
  omega

theorem saveRow_eq (bitCount : Int) (hbc : bitCount = 24 ∨ bitCount = 32)
    (width rowSize : Nat) (hrs : width * (bitCount.tdiv 8).toNat ≤ rowSize) (g : Grid)
    (y : Nat) (r : List Pixel) (hg : g[y]? = some r) (hr : width ≤ r.length)
    (buf : List Byte) (hb : buf.length = rowSize)
    (hpad : buf.drop (width * (bitCount.tdiv 8).toNat) =
      List.replicate (rowSize - width * (bitCount.tdiv 8).toNat) 0) :
    saveCols bitCount g y width 0 buf =
      Except.ok (encodeRow bitCount width rowSize r) := by
  have h := saveCols_eq bitCount hbc g y r hg width 0 [] buf (by omega) (by simp) (by omega)
  rw [List.nil_append] at h
  rw [h, List.drop_zero, List.nil_append, hpad]
  rfl

theorem encodeRow_pad (bitCount : Int) (hbc : bitCount = 24 ∨ bitCount = 32)
    (width rowSize : Nat) (r : List Pixel) (hr : width ≤ r.length) :
    (encodeRow bitCount width rowSize r).drop (width * (bitCount.tdiv 8).toNat) =
      List.replicate (rowSize - width * (bitCount.tdiv 8).toNat) 0 := by
  unfold encodeRow
  have hl : ((r.take width).flatMap (pxBytes bitCount)).length =
      width * (bitCount.tdiv 8).toNat := by
    rw [flatMap_pxBytes_length bitCount hbc, List.length_take, Nat.min_eq_left hr]
  rw [← hl, List.drop_left]

theorem saveRows_eq (bitCount : Int) (hbc : bitCount = 24 ∨ bitCount = 32)
    (width rowSize : Nat) (hrs : width * (bitCount.tdiv 8).toNat ≤ rowSize) (g : Grid)
    (n : Nat) (buf out : List Byte)
    (hg : ∀ y, y < n → ∃ r, g[y]? = some r ∧ width ≤ r.length)
    (hb : buf.length = rowSize)
    (hpad : buf.drop (width * (bitCount.tdiv 8).toNat) =
      List.replicate (rowSize - width * (bitCount.tdiv 8).toNat) 0) :
    saveRows bitCount width g n buf out =
      Except.ok (out ++ bodyBytes bitCount width rowSize g n) := by
  induction n generalizing buf out with
  | zero => simp [saveRows, bodyBytes, pure_eq_ok]
  | succ n ih =>
    obtain ⟨r, hr, hrw⟩ := hg n (by omega)
    have hD : g.getD n [] = r := by
      rw [List.getD_eq_getElem?_getD, hr]; rfl
    unfold saveRows bodyBytes
    rw [saveRow_eq bitCount hbc width rowSize hrs g n r hr hrw buf hb hpad, ok_bind,
      ih _ _ (fun y hy => hg y (by omega))
        (encodeRow_length bitCount hbc width rowSize hrs r hrw)
        (encodeRow_pad bitCount hbc width rowSize r hrw), hD, List.append_assoc]

theorem bodyBytes_length (bitCount : Int) (hbc : bitCount = 24 ∨ bitCount = 32)
    (width rowSize : Nat) (hrs : width * (bitCount.tdiv 8).toNat ≤ rowSize) (g : Grid)
    (n : Nat) (hg : ∀ y, y < n → ∃ r, g[y]? = some r ∧ width ≤ r.length) :
    (bodyBytes bitCount width rowSize g n).length = n * rowSize := by
  induction n with
  | zero => simp [bodyBytes]
  | succ n ih =>
    obtain ⟨r, hr, hrw⟩ := hg n (by omega)
    have hD : g.getD n [] = r := by
      rw [List.getD_eq_getElem?_getD, hr]; rfl
    unfold bodyBytes
    rw [List.length_append, hD, encodeRow_length bitCount hbc width rowSize hrs r hrw,
      ih (fun y hy => hg y (by omega))]
    ring

theorem toUnsigned_natCast (bits n : Nat) (h : n < 2 ^ bits) :
    toUnsigned bits (n : Int) = n := by
  unfold toUnsigned
  have h' : (n : Int) < 2 ^ bits := by exact_mod_cast h
  rw [Int.emod_eq_of_lt (Int.natCast_nonneg n) h']
  exact Int.toNat_natCast n

theorem size_mod (a b : Nat) : (a + b % 2 ^ 64) % 2 ^ 64 % 2 ^ 32 = (a + b) % 2 ^ 32 := by
  have h1 : (a + b % 2 ^ 64) % 2 ^ 64 = (a + b) % 2 ^ 64 := by
    rw [Nat.add_mod, Nat.mod_mod, ← Nat.add_mod]
  rw [h1, Nat.mod_mod_of_dvd _ (Nat.pow_dvd_pow 2 (by norm_num))]

theorem size_mod2 (a b : Nat) : (a + b % 2 ^ 64) % 2 ^ 32 = (a + b) % 2 ^ 32 := by
  rw [← size_mod a b, Nat.mod_mod_of_dvd _ (Nat.pow_dvd_pow 2 (by norm_num))]

theorem size_mod' (b : Nat) : b % 2 ^ 64 % 2 ^ 32 = b % 2 ^ 32 :=
  Nat.mod_mod_of_dvd _ (Nat.pow_dvd_pow 2 (by norm_num))

/-- The bytes that `save` writes for an image with enough pixels. -/
theorem save_eq (img : BmpImage) (W H bc : Nat) (hw : img.width = W) (hh : img.height = H)
    (hb : img.bitCount = bc) (hbc : bc = 24 ∨ bc = 32)
    (hfit : (W : Int) * bc + 31 ≤ INT_MAX) (hmax : (H : Int) ≤ INT_MAX)
    (hg : ∀ y, y < H → ∃ r, img.pixels[y]? = some r ∧ W ≤ r.length) :
    img.save true =
      Except.ok (true,
        fileHeaderBytes 0x4D42 ((54 + rowStride W bc * H) % 2 ^ 32) 54 ++
          infoHeaderBytes 40 W H 1 bc 0 ((rowStride W bc * H) % 2 ^ 32) ++
          bodyBytes bc W (rowStride W bc) img.pixels H) := by
  have hbcI : ((bc : Nat) : Int) = 24 ∨ ((bc : Nat) : Int) = 32 := by omega
  have hrs := rowSize_eq (W : Int) bc (Int.natCast_nonneg W) hfit
  rw [Int.toNat_natCast] at hrs
  have hlt := rowStride_lt W bc hfit
  have ha1 := allocVec_ok 1 (rowStride W bc) (0 : Byte) (by unfold vecMaxSize; omega)
  have hWlt : W < 2 ^ 31 := by
    have : (0 : Int) ≤ (W : Int) * bc := by positivity
    have h24 : (W : Int) * 24 ≤ (W : Int) * bc := by
      rcases hbc with rfl | rfl <;> push_cast <;> omega
    unfold INT_MAX at hfit
    omega
  have hHlt : H < 2 ^ 31 := by unfold INT_MAX at hmax; omega
  have hstride : W * (((bc : Nat) : Int).tdiv 8).toNat ≤ rowStride W bc := by
    rw [bpp_cast bc hbc]; exact stride_ge W bc hbc
  have hrows := saveRows_eq (bc : Int) hbcI W (rowStride W bc) hstride img.pixels H
    (List.replicate (rowStride W bc) (0 : Byte))
    (fileHeaderBytes 0x4D42 ((54 + rowStride W bc * H) % 2 ^ 32) 54 ++
      infoHeaderBytes 40 W H 1 bc 0 ((rowStride W bc * H) % 2 ^ 32))
    hg (by simp) (by simp)
  have hy0 := chkInt_ok ((H : Int) - 1)
    (by have : INT_MIN ≤ -1 := by unfold INT_MIN; omega
        omega) (by omega)
  unfold BmpImage.save
  simp only [hw, hh, hb, Bool.not_true, Bool.false_eq_true, ↓reduceIte, hrs, ok_bind, ha1, hy0,
    toSizeT_natCast H (lt_trans hHlt (by norm_num)),
    toUnsigned_natCast 32 W (lt_trans hWlt (by norm_num)),
    toUnsigned_natCast 32 H (lt_trans hHlt (by norm_num)),
    toUnsigned_natCast 16 bc (by rcases hbc with rfl | rfl <;> norm_num),
    sizeofFileHeader, sizeofInfoHeader, Int.toNat_natCast, size_mod, size_mod', size_mod2,
    Nat.reduceAdd, hrows,
    pure_eq_ok]

/-! ## Loading what `save` wrote -/

theorem fin_ofNat_val (n : Nat) : (Fin.ofNat (n % 256) : Byte).val = n % 256 := by
  show (n % 256) % 256 = n % 256
  omega

theorem saved_header_fields (s si W H bc : Nat) (body : List Byte) (hW : W < 2 ^ 31)
    (hH : H < 2 ^ 31) (hbc : bc = 24 ∨ bc = 32) :
    hdrType (fileHeaderBytes 0x4D42 s 54 ++ infoHeaderBytes 40 W H 1 bc 0 si ++ body) = 0x4D42 ∧
    hdrOffBits (fileHeaderBytes 0x4D42 s 54 ++ infoHeaderBytes 40 W H 1 bc 0 si ++ body) = 54 ∧
    hdrWidth (fileHeaderBytes 0x4D42 s 54 ++ infoHeaderBytes 40 W H 1 bc 0 si ++ body) = W ∧
    hdrHeight (fileHeaderBytes 0x4D42 s 54 ++ infoHeaderBytes 40 W H 1 bc 0 si ++ body) = H ∧
    hdrBitCount (fileHeaderBytes 0x4D42 s 54 ++ infoHeaderBytes 40 W H 1 bc 0 si ++ body) = bc ∧
    hdrCompression (fileHeaderBytes 0x4D42 s 54 ++ infoHeaderBytes 40 W H 1 bc 0 si ++ body) = 0 := by
  obtain ⟨h1, h2, h3, h4, h5, h6⟩ :=
    hdr_append (fileHeaderBytes 0x4D42 s 54 ++ infoHeaderBytes 40 W H 1 bc 0 si) body rfl
  rw [h1, h2, h3, h4, h5, h6]
  have e32 : (2 : Nat) ^ 31 = 2147483648 := by norm_num
  rw [e32] at hW hH
  refine ⟨rfl, rfl, ?_, ?_, ?_, rfl⟩
  · have hv : leNat (((fileHeaderBytes 0x4D42 s 54 ++
        infoHeaderBytes 40 W H 1 bc 0 si).drop 18).take 4) = W := by
      show leNat (leBytes 4 W) = W
      simp only [leBytes, leNat, fin_ofNat_val]
      omega
    unfold hdrWidth toInt32
    rw [hv, if_pos (by omega)]
  · have hv : leNat (((fileHeaderBytes 0x4D42 s 54 ++
        infoHeaderBytes 40 W H 1 bc 0 si).drop 22).take 4) = H := by
      show leNat (leBytes 4 H) = H
      simp only [leBytes, leNat, fin_ofNat_val]
      omega
    unfold hdrHeight toInt32
    rw [hv, if_pos (by omega)]
  · show leNat (leBytes 2 bc) = bc
    simp only [leBytes, leNat, fin_ofNat_val]
    omega

theorem flatMap_getElem {α β : Type} (f : α → List β) (c : Nat) (hlen : ∀ a, (f a).length = c)
    (l : List α) (i j : Nat) (hi : i < l.length) (hj : j < c) :
    (l.flatMap f)[i * c + j]? = (f l[i])[j]? := by
  induction l generalizing i with
  | nil => simp at hi
  | cons a l ih =>
    rw [List.flatMap_cons]
    cases i with
    | zero =>
      rw [Nat.zero_mul, Nat.zero_add, List.getElem?_append_left (by rw [hlen]; exact hj)]
      rfl
    | succ i =>
      have hi' : i < l.length := by simpa using hi
      rw [List.getElem?_append_right (by rw [hlen, Nat.succ_mul]; omega), hlen]
      have e : (i + 1) * c + j - c = i * c + j := by rw [Nat.succ_mul]; omega
      rw [e, ih i hi']
      rfl

/-- Decoding an encoded row gives the pixels back; for 24 bits the alpha byte is the one the
pixel had before. -/
theorem decodePx_encodeRow (bitCount : Int) (hbc : bitCount = 24 ∨ bitCount = 32)
    (width rowSize : Nat) (r : List Pixel) (hr : r.length = width) (i : Nat) (hi : i < width)
    (p : Pixel) :
    decodePx bitCount (encodeRow bitCount width rowSize r) i p =
      { (r.getD i Pixel.init) with
        a := if bitCount = 32 then (r.getD i Pixel.init).a else p.a } := by
  have hil : i < r.length := by omega
  have hlen : ∀ q, (pxBytes bitCount q).length = (bitCount.tdiv 8).toNat :=
    pxBytes_length bitCount hbc
  have hfl : (r.flatMap (pxBytes bitCount)).length = r.length * (bitCount.tdiv 8).toNat :=
    flatMap_pxBytes_length bitCount hbc r
  have key : ∀ j, j < (bitCount.tdiv 8).toNat →
      (encodeRow bitCount width rowSize r).getD (i * (bitCount.tdiv 8).toNat + j) 0 =
        ((pxBytes bitCount r[i])[j]?).getD 0 := by
    intro j hj
    unfold encodeRow
    rw [List.getD_eq_getElem?_getD, ← hr, List.take_length,
      List.getElem?_append_left (by
        rw [hfl]
        calc i * (bitCount.tdiv 8).toNat + j < (i + 1) * (bitCount.tdiv 8).toNat := by
              rw [Nat.succ_mul]; omega
          _ ≤ r.length * (bitCount.tdiv 8).toNat := Nat.mul_le_mul_right _ hil),
      flatMap_getElem _ _ hlen r i j hil hj]
  have hD : r.getD i Pixel.init = r[i] := List.getD_eq_getElem _ _ hil
  rw [hD]
  unfold decodePx
  rcases hbc with rfl | rfl
  · have e3 : ((24 : Int).tdiv 8).toNat = 3 := rfl
    rw [e3] at key ⊢
    have k0 := key 0 (by omega)
    have k1 := key 1 (by omega)
    have k2 := key 2 (by omega)
    rw [Nat.add_zero] at k0
    simp only [k0, k1, k2, Nat.add_zero]
    simp [pxBytes]
  · have e4 : ((32 : Int).tdiv 8).toNat = 4 := rfl
    rw [e4] at key ⊢
    have k0 := key 0 (by omega)
    have k1 := key 1 (by omega)
    have k2 := key 2 (by omega)
    have k3 := key 3 (by omega)
    rw [Nat.add_zero] at k0
    simp only [k0, k1, k2, k3, Nat.add_zero]
    simp [pxBytes]

theorem badColor_alpha (p : Pixel) (a : Byte) : badColor { p with a := a } = badColor p := rfl

theorem decodeCols_encodeRow (bitCount : Int) (hbc : bitCount = 24 ∨ bitCount = 32)
    (width rowSize : Nat) (r : List Pixel) (hr : GoodRow bitCount width r) :
    decodeCols bitCount (encodeRow bitCount width rowSize r) width 0
      (List.replicate width Pixel.init) = (r, none) := by
  obtain ⟨hlen, hpx⟩ := hr
  have hgood : ∀ i, i < width → badColor (r.getD i Pixel.init) = false ∧
      (bitCount ≠ 32 → (r.getD i Pixel.init).a = 255) := by
    intro i hi
    rw [List.getD_eq_getElem _ _ (by omega)]
    exact hpx _ (List.getElem_mem _)
  have hdec : ∀ i, i < width →
      decodePx bitCount (encodeRow bitCount width rowSize r) i Pixel.init =
        r.getD i Pixel.init := by
    intro i hi
    rw [decodePx_encodeRow bitCount hbc width rowSize r hlen i hi]
    by_cases h32 : bitCount = 32
    · simp [h32]
    · have := (hgood i hi).2 h32
      generalize r.getD i Pixel.init = q at this ⊢
      cases q
      simp only at this
      simp only [h32, ↓reduceIte, Pixel.init, this]
  obtain ⟨h1, h2⟩ := decodeCols_none bitCount (encodeRow bitCount width rowSize r) width 0
    (List.replicate width Pixel.init)
    (fun i _ hi => by rw [hdec i (by omega)]; exact (hgood i (by omega)).1)
  apply Prod.ext
  · apply List.ext_getElem?
    intro i
    rw [h2 i, List.getElem?_replicate]
    by_cases hi : i < width
    · simp only [Nat.zero_le, Nat.zero_add, hi, and_self, ↓reduceIte, Option.map_some']
      rw [hdec i hi, List.getD_eq_getElem _ _ (by omega), List.getElem?_eq_getElem (by omega)]
    · simp only [Nat.zero_le, Nat.zero_add, hi, and_false, ↓reduceIte]
      rw [List.getElem?_eq_none (by omega)]
  · exact h1

theorem bodyBytes_succ (bitCount : Int) (width rowSize : Nat) (g : Grid) (n : Nat) :
    bodyBytes bitCount width rowSize g (n + 1) =
      encodeRow bitCount width rowSize (g.getD n []) ++ bodyBytes bitCount width rowSize g n :=
  rfl

theorem decodeRows_body (bitCount : Int) (hbc : bitCount = 24 ∨ bitCount = 32)
    (width rowSize : Nat) (hrs : width * (bitCount.tdiv 8).toNat ≤ rowSize) (g : Grid)
    (n : Nat) (tail : List Byte) (g0 : Grid) (hn : n ≤ g.length) (hl : g0.length = g.length)
    (h0 : ∀ y, y < n → g0[y]? = some (List.replicate width Pixel.init))
    (hg : ∀ y r, y < n → g[y]? = some r → GoodRow bitCount width r) :
    decodeRows bitCount width rowSize n (bodyBytes bitCount width rowSize g n ++ tail) g0 =
      (g.take n ++ g0.drop n, none) := by
  induction n generalizing tail g0 with
  | zero => simp [decodeRows, bodyBytes]
  | succ n ih =>
    have hnl : n < g.length := by omega
    have hgn : g[n]? = some g[n] := List.getElem?_eq_getElem hnl
    have hD : g.getD n [] = g[n] := List.getD_eq_getElem _ _ hnl
    have hrow := hg n g[n] (by omega) hgn
    have henc : (encodeRow bitCount width rowSize g[n]).length = rowSize :=
      encodeRow_length bitCount hbc width rowSize hrs g[n] (by rw [hrow.1])
    have hD0 : g0.getD n [] = List.replicate width Pixel.init := by
      rw [List.getD_eq_getElem?_getD, h0 n (by omega)]; rfl
    have htake : (bodyBytes bitCount width rowSize g (n + 1) ++ tail).take rowSize =
        encodeRow bitCount width rowSize g[n] := by
      rw [bodyBytes_succ, hD, List.append_assoc, List.take_append_of_le_length (by omega),
        List.take_of_length_le (by omega)]
    have hdrop : (bodyBytes bitCount width rowSize g (n + 1) ++ tail).drop rowSize =
        bodyBytes bitCount width rowSize g n ++ tail := by
      rw [bodyBytes_succ, hD, List.append_assoc, List.drop_append_of_le_length (by omega),
        List.drop_eq_nil_of_le (by omega), List.nil_append]
    unfold decodeRows
    simp only [htake, hdrop, hD0, decodeCols_encodeRow bitCount hbc width rowSize g[n] hrow]
    rw [ih tail (g0.set n g[n]) (by omega) (by rw [List.length_set]; exact hl)
      (fun y hy => by
        rw [List.getElem?_set, if_neg (by omega)]
        exact h0 y (by omega))
      (fun y r hy => hg y r (by omega))]
    congr 1
    have h1 : g.take (n + 1) = g.take n ++ [g[n]] := by
      rw [List.take_succ, hgn]; rfl
    have h2 : (g0.set n g[n]).drop n = g[n] :: g0.drop (n + 1) := by
      have hlt : n < (g0.set n g[n]).length := by rw [List.length_set]; omega
      rw [List.drop_eq_getElem_cons hlt, List.getElem_set_self, List.drop_set,
        if_pos (by omega)]
    rw [h1, h2, List.append_assoc]
    rfl

theorem goodGrid_shape (bc : Int) (W H : Nat) (g : Grid) (hlen : g.length = H)
    (hrows : ∀ r, r ∈ g → GoodRow bc W r) :
    ∀ y, y < H → ∃ r, g[y]? = some r ∧ W ≤ r.length := by
  intro y hy
  refine ⟨g[y], List.getElem?_eq_getElem (by omega), ?_⟩
  rw [(hrows _ (List.getElem_mem _)).1]

/-- Loading what `save` wrote for an image whose grid is `height` rows of `width` black or
white pixels gives the image back. -/
theorem load_save (img : BmpImage) (W H bc : Nat) (hw : img.width = W) (hh : img.height = H)
    (hb : img.bitCount = bc) (hbc : bc = 24 ∨ bc = 32)
    (hfit : (W : Int) * bc + 31 ≤ INT_MAX) (hmax : (H : Int) ≤ INT_MAX)
    (hlen : img.pixels.length = H) (hrows : ∀ r, r ∈ img.pixels → GoodRow bc W r) :
    ∃ bytes, img.save true = Except.ok (true, bytes) ∧
      BmpImage.fresh.load (some bytes) =
        Except.ok { ret := true, cerr := none, img := img } := by
  have hshape := goodGrid_shape bc W H img.pixels hlen hrows
  have hbcI : ((bc : Nat) : Int) = 24 ∨ ((bc : Nat) : Int) = 32 := by omega
  have hstride : W * (((bc : Nat) : Int).tdiv 8).toNat ≤ rowStride W bc := by
    rw [bpp_cast bc hbc]; exact stride_ge W bc hbc
  have hWlt : W < 2 ^ 31 := by
    have : (0 : Int) ≤ (W : Int) * bc := by positivity
    have h24 : (W : Int) * 24 ≤ (W : Int) * bc := by
      rcases hbc with rfl | rfl <;> push_cast <;> omega
    unfold INT_MAX at hfit
    omega
  have hHlt : H < 2 ^ 31 := by unfold INT_MAX at hmax; omega
  refine ⟨_, save_eq img W H bc hw hh hb hbc hfit hmax hshape, ?_⟩
  obtain ⟨f1, f2, f3, f4, f5, f6⟩ := saved_header_fields
    ((54 + rowStride W bc * H) % 2 ^ 32) ((rowStride W bc * H) % 2 ^ 32) W H bc
    (bodyBytes bc W (rowStride W bc) img.pixels H) hWlt hHlt hbc
  have hbl := bodyBytes_length bc hbcI W (rowStride W bc) hstride img.pixels H hshape
  have hlen54 : (fileHeaderBytes 0x4D42 ((54 + rowStride W bc * H) % 2 ^ 32) 54 ++
      infoHeaderBytes 40 W H 1 bc 0 ((rowStride W bc * H) % 2 ^ 32)).length = 54 := rfl
  have hdrop : (fileHeaderBytes 0x4D42 ((54 + rowStride W bc * H) % 2 ^ 32) 54 ++
      infoHeaderBytes 40 W H 1 bc 0 ((rowStride W bc * H) % 2 ^ 32) ++
      bodyBytes bc W (rowStride W bc) img.pixels H).drop 54 =
      bodyBytes bc W (rowStride W bc) img.pixels H ++ [] := by
    rw [List.append_nil, List.drop_append_of_le_length (by rw [hlen54]),
      List.drop_eq_nil_of_le (by rw [hlen54]), List.nil_append]
  have hdec := decodeRows_body bc hbcI W (rowStride W bc) hstride img.pixels H []
    (List.replicate H (List.replicate W Pixel.init)) (by omega) (by simp [hlen])
    (fun y hy => by rw [List.getElem?_replicate, if_pos hy])
    (fun y r _ hr => by
      obtain ⟨hlt, rfl⟩ := List.getElem?_eq_some.1 hr
      exact hrows _ (List.getElem_mem _))
  have htake : img.pixels.take H ++ (List.replicate H (List.replicate W Pixel.init)).drop H =
      img.pixels := by
    rw [List.take_of_length_le (by omega), List.drop_eq_nil_of_le (by simp), List.append_nil]
  rw [htake] at hdec
  rw [load_eq BmpImage.fresh _ (by rw [List.length_append, hlen54]; omega) f1 f6
    (by rw [f5]; exact hbc) (by rw [f3]; exact Int.natCast_nonneg W)
    (by rw [f4]; unfold INT_MIN; omega)
    (by rw [f3, f5]; exact hfit)
    (by rw [f2, f3, f4, f5, List.length_append, hlen54, hbl, Int.natAbs_ofNat,
      Int.toNat_natCast])
    (fresh_shape _ _)]
  unfold loadResult
  simp only [f2, f3, f4, f5, Int.natAbs_ofNat, Int.toNat_natCast, hdrop, BmpImage.fresh,
    resizeRows_nil, hdec]
  cases img
  simp only at hw hh hb
  simp only [hw, hh, hb]

theorem decodeGrid_good (data : List Byte)
    (hbc : hdrBitCount data = 24 ∨ hdrBitCount data = 32) (hc : CompletePixelData data)
    (hbw : AllBW data) :
    ∀ r, r ∈ decodeGrid data → GoodRow (hdrBitCount data) (fileWidth data) r := by
  intro r hr
  unfold decodeGrid at hr
  rw [List.mem_map] at hr
  obtain ⟨y, hy, rfl⟩ := hr
  rw [List.mem_range] at hy
  refine ⟨by simp, ?_⟩
  intro p hp
  rw [List.mem_map] at hp
  obtain ⟨x, hx, rfl⟩ := hp
  rw [List.mem_range] at hx
  refine ⟨(badColor_iff_diskBW data hbc hc _ x (by omega) hx Pixel.init).2
    (hbw _ (by omega) x hx), ?_⟩
  intro h32
  unfold decodePx
  simp only [h32, ↓reduceIte]
  rfl

theorem sample24_valid : ValidHeader sample24 :=
  ⟨by decide, by decide, by decide, by decide, by decide, by decide⟩

theorem bigImage_shape : ∀ y, y < 17 →
    ∃ r, bigImage.pixels[y]? = some r ∧ 89478484 ≤ r.length := by
  intro y hy
  refine ⟨List.replicate 89478484 { r := 255, g := 255, b := 255 }, ?_, ?_⟩
  · show (List.replicate 17 _)[y]? = _
    rw [List.getElem?_replicate, if_pos hy]
  · rw [List.length_replicate]

/-! ## What a returning `load` leaves behind -/

theorem load_out_inv (img : BmpImage) (file : Option (List Byte)) (out : LoadOut)
    (h : img.load file = Except.ok out) :
    (out.ret = false →
      out.cerr = some Msg.openFailed ∨ out.cerr = some Msg.notValidBmp ∨
        (∃ b, out.cerr = some (Msg.unsupportedBitCount b)) ∨
        (∃ x y, out.cerr = some (Msg.badColor x y))) ∧
    (out.cerr = some Msg.openFailed ∨ out.cerr = some Msg.notValidBmp → out.img = img) ∧
    (∀ b, out.cerr = some (Msg.unsupportedBitCount b) → out.img.pixels = img.pixels) := by
  cases file with
  | none =>
    simp only [BmpImage.load, pure_eq_ok, Except.ok.injEq] at h
    subst h
    simp
  | some data =>
    unfold BmpImage.load at h
    simp only [bind, Except.bind, pure, Except.pure] at h
    repeat' split at h
    all_goals first
      | (cases h; done)
      | (simp only [Except.ok.injEq] at h; subst h; simp)

/-! ## `load` into an image whose rows are wide enough -/

theorem rowsFit_fresh (data : List Byte) : RowsFit BmpImage.fresh data :=
  fresh_shape _ _

theorem load_bad (img : BmpImage) (data : List Byte) (h54 : 54 ≤ data.length)
    (hty : hdrType data = 0x4D42) (hcomp : hdrCompression data = 0)
    (hbc : hdrBitCount data = 24 ∨ hdrBitCount data = 32)
    (hw : 0 ≤ hdrWidth data) (hh : hdrHeight data ≠ INT_MIN)
    (hfit : StrideFits data) (hc : CompletePixelData data) (hfits : RowsFit img data)
    (k0 x0 : Nat) (hk : k0 < fileHeight data) (hx : x0 < fileWidth data)
    (hbad : ¬ diskBW data k0 x0)
    (hrows : ∀ k, k < k0 → ∀ x, x < fileWidth data → diskBW data k x)
    (hcols : ∀ x, x < x0 → diskBW data k0 x) :
    ∃ img', img.load (some data) =
      Except.ok { ret := false, cerr := some (Msg.badColor x0 (fileHeight data - 1 - k0)),
                  img := img' } := by
  rw [load_eq img data h54 hty hcomp hbc hw hh hfit hc hfits]
  have hd := decodeRows_some (hdrBitCount data) (fileWidth data) (fileStride data)
    (fileHeight data) (data.drop (hdrOffBits data))
    (resizeRows img.pixels (fileHeight data)
      (List.replicate (fileWidth data) Pixel.init)) k0 x0 hk hx
    (by
      have := (badColor_iff_diskBW data hbc hc k0 x0 hk hx Pixel.init).not.2 hbad
      simpa using this)
    (fun k hk' x hx' =>
      (badColor_iff_diskBW data hbc hc k x (by omega) hx' Pixel.init).2 (hrows k hk' x hx'))
    (fun x hx' =>
      (badColor_iff_diskBW data hbc hc k0 x hk (by omega) Pixel.init).2 (hcols x hx'))
  unfold fileWidth fileHeight fileStride at hd
  unfold fileWidth at hd
  unfold loadResult
  simp only [hd]
  exact ⟨_, rfl⟩

theorem load_good (img : BmpImage) (data : List Byte) (h54 : 54 ≤ data.length)
    (hty : hdrType data = 0x4D42) (hcomp : hdrCompression data = 0)
    (hbc : hdrBitCount data = 24 ∨ hdrBitCount data = 32)
    (hw : 0 ≤ hdrWidth data) (hh : hdrHeight data ≠ INT_MIN)
    (hfit : StrideFits data) (hc : CompletePixelData data) (hfits : RowsFit img data)
    (hbw : AllBW data) : Succeeds (img.load (some data)) := by
  rw [load_eq img data h54 hty hcomp hbc hw hh hfit hc hfits]
  have hd := (decodeRows_none (hdrBitCount data) (fileWidth data) (fileStride data)
    (fileHeight data) (data.drop (hdrOffBits data))
    (resizeRows img.pixels (fileHeight data)
      (List.replicate (fileWidth data) Pixel.init))
    (fun k hk x hx =>
      (badColor_iff_diskBW data hbc hc k x hk hx Pixel.init).2 (hbw k hk x hx))).1
  unfold fileWidth fileHeight fileStride at hd
  unfold fileWidth at hd
  unfold loadResult
  simp only [hd]
  exact ⟨_, rfl, rfl⟩

theorem load_inv (img : BmpImage) (data : List Byte) (h54 : 54 ≤ data.length)
    (hmin : hdrHeight data ≠ INT_MIN) (hs : Succeeds (img.load (some data))) :
    hdrType data = 0x4D42 ∧ hdrCompression data = 0 ∧
      (hdrBitCount data = 24 ∨ hdrBitCount data = 32) ∧ 0 ≤ hdrWidth data ∧
      StrideFits data := by
  obtain ⟨out, hload, hret⟩ := hs
  have hty : hdrType data = 0x4D42 := by
    by_contra h
    rw [load_badType _ data (by omega) h] at hload
    cases hload
    simp at hret
  have hcomp : hdrCompression data = 0 := by
    by_contra h
    rw [load_badComp _ data h54 hty h] at hload
    cases hload
    simp at hret
  have hbc : hdrBitCount data = 24 ∨ hdrBitCount data = 32 := by
    by_contra h
    rw [load_badBitCount _ data h54 hty hcomp hmin h] at hload
    cases hload
    simp at hret
  have hw : 0 ≤ hdrWidth data := by
    by_contra h
    obtain ⟨e, he⟩ := load_negWidth img data h54 hty hcomp hbc (by omega)
    rw [he] at hload
    cases hload
  have hfit : StrideFits data := by
    by_contra h
    rw [load_overflow _ data h54 hty hcomp hbc hw hmin h] at hload
    cases hload
  exact ⟨hty, hcomp, hbc, hw, hfit⟩

theorem load_allBW (img : BmpImage) (data : List Byte) (h54 : 54 ≤ data.length)
    (hmin : hdrHeight data ≠ INT_MIN) (hc : CompletePixelData data) (hfits : RowsFit img data)
    (hs : Succeeds (img.load (some data))) : AllBW data := by
  obtain ⟨hty, hcomp, hbc, hw, hfit⟩ := load_inv img data h54 hmin hs
  by_contra hbw
  have hex : ∃ k x, k < fileHeight data ∧ x < fileWidth data ∧ ¬ diskBW data k x := by
    unfold AllBW at hbw
    push_neg at hbw
    obtain ⟨k, hk, x, hx, hp⟩ := hbw
    exact ⟨k, x, hk, hx, hp⟩
  obtain ⟨k0, x0, hk, hx, hp, hrows, hcols⟩ :=
    first_bad (fun k x => ¬ diskBW data k x) (fileHeight data) (fileWidth data) hex
  obtain ⟨img', hl⟩ := load_bad img data h54 hty hcomp hbc hw hmin hfit hc hfits k0 x0 hk hx hp
    (fun k hk' x hx' => not_not.1 (hrows k hk' x hx')) (fun x hx' => not_not.1 (hcols x hx'))
  obtain ⟨out, hload, hret⟩ := hs
  rw [hl] at hload
  cases hload
  simp at hret

/-! ## The rows that `save` writes -/

/-- The `k`-th block of the pixel section written for `n` rows is the encoding of grid row
`n - 1 - k`. -/
theorem rowAt_bodyBytes (bitCount : Int) (hbc : bitCount = 24 ∨ bitCount = 32)
    (width rowSize : Nat) (hrs : width * (bitCount.tdiv 8).toNat ≤ rowSize) (g : Grid)
    (n : Nat) (hg : ∀ y, y < n → ∃ r, g[y]? = some r ∧ width ≤ r.length) (k : Nat)
    (hk : k < n) :
    rowAt (bodyBytes bitCount width rowSize g n) rowSize k =
      encodeRow bitCount width rowSize (g.getD (n - 1 - k) []) := by
  induction n generalizing k with
  | zero => omega
  | succ n ih =>
    obtain ⟨r, hr, hrl⟩ := hg n (by omega)
    have hD : g.getD n [] = r := by rw [List.getD_eq_getElem?_getD, hr]; rfl
    have henc : (encodeRow bitCount width rowSize r).length = rowSize :=
      encodeRow_length bitCount hbc width rowSize hrs r hrl
    rw [bodyBytes_succ, hD]
    cases k with
    | zero =>
      unfold rowAt
      rw [Nat.zero_mul, List.drop_zero, List.take_append_of_le_length (by omega),
        List.take_of_length_le (by omega), Nat.add_sub_cancel, Nat.sub_zero, hD]
    | succ k =>
      have e : n + 1 - 1 - (k + 1) = n - 1 - k := by omega
      rw [e, ← ih (fun y hy => hg y (by omega)) k (by omega)]
      unfold rowAt
      have e2 : (k + 1) * rowSize = (encodeRow bitCount width rowSize r).length + k * rowSize := by
        rw [henc, Nat.succ_mul, Nat.add_comm]
      rw [e2, List.drop_append]

/-- Byte `j` of pixel `x` in an encoded row. -/
theorem encodeRow_px (bitCount : Int) (hbc : bitCount = 24 ∨ bitCount = 32)
    (width rowSize : Nat) (r : List Pixel) (hr : width ≤ r.length) (x : Nat) (hx : x < width)
    (j : Nat) (hj : j < (bitCount.tdiv 8).toNat) :
    (encodeRow bitCount width rowSize r)[x * (bitCount.tdiv 8).toNat + j]? =
      (pxBytes bitCount (r.getD x Pixel.init))[j]? := by
  have hlen : ∀ q, (pxBytes bitCount q).length = (bitCount.tdiv 8).toNat :=
    pxBytes_length bitCount hbc
  have htl : (r.take width).length = width := by rw [List.length_take, Nat.min_eq_left hr]
  have hfl : ((r.take width).flatMap (pxBytes bitCount)).length =
      width * (bitCount.tdiv 8).toNat := by
    rw [flatMap_pxBytes_length bitCount hbc, htl]
  unfold encodeRow
  rw [List.getElem?_append_left (by
      rw [hfl]
      calc x * (bitCount.tdiv 8).toNat + j < (x + 1) * (bitCount.tdiv 8).toNat := by
            rw [Nat.succ_mul]; omega
        _ ≤ width * (bitCount.tdiv 8).toNat := Nat.mul_le_mul_right _ hx),
    flatMap_getElem _ _ hlen (r.take width) x j (by omega) hj]
  have hxl : x < (r.take width).length := by omega
  have e : (r.take width)[x] = r.getD x Pixel.init := by
    rw [List.getElem_take, List.getD_eq_getElem _ _ (by omega)]
  rw [e]

/-- The bytes of an encoded row after the pixels are zero. -/
theorem encodeRow_zero (bitCount : Int) (hbc : bitCount = 24 ∨ bitCount = 32)
    (width rowSize : Nat) (r : List Pixel) (hr : width ≤ r.length) (i : Nat)
    (hi : width * (bitCount.tdiv 8).toNat ≤ i) (hi2 : i < rowSize) :
    (encodeRow bitCount width rowSize r)[i]? = some 0 := by
  have h := encodeRow_pad bitCount hbc width rowSize r hr
  have e : (encodeRow bitCount width rowSize r)[i]? =
      ((encodeRow bitCount width rowSize r).drop (width * (bitCount.tdiv 8).toNat))[
        i - width * (bitCount.tdiv 8).toNat]? := by
    rw [List.getElem?_drop]
    congr 1
    omega
  rw [e, h, List.getElem?_replicate, if_pos (by omega)]

/-! ## The loop of `drawLine` -/

/-- Arithmetic behind the loop invariant: when the x step is taken before the end, x has
not yet reached its end. -/
theorem arith_xstep (D E a b k : Int) (hD : 0 ≤ D) (ha : a ≤ D) (hb0 : 0 ≤ b)
    (hx : E ≤ D → a = k) (hy : D < E → b = k) (hk : k < max D E)
    (hc : 2 * (D + -E - (a * E - b * D)) ≥ -E) : a < D := by
  rcases le_or_lt E D with h | h
  · rw [max_eq_left h] at hk
    have := hx (by omega)
    omega
  · rw [max_eq_right (le_of_lt h)] at hk
    have hbk := hy (by omega)
    by_contra hn
    have haD : a = D := by omega
    subst haD
    have h1 : 0 ≤ a * (E - 1 - b) := mul_nonneg hD (by omega)
    nlinarith

/-- Arithmetic behind the loop invariant: when the y step is taken before the end, y has
not yet reached its end. -/
theorem arith_ystep (D E a b k : Int) (hE : 0 ≤ E) (ha0 : 0 ≤ a) (hb : b ≤ E)
    (hx : E ≤ D → a = k) (hy : D < E → b = k) (hk : k < max D E)
    (hc : 2 * (D + -E - (a * E - b * D)) ≤ D) : b < E := by
  rcases le_or_lt E D with h | h
  · rw [max_eq_left h] at hk
    have hak := hx (by omega)
    by_contra hn
    have hbE : b = E := by omega
    subst hbE
    have h1 : 0 ≤ b * (D - 1 - a) := mul_nonneg hE (by omega)
    nlinarith
  · rw [max_eq_right (le_of_lt h)] at hk
    have := hy (by omega)
    omega

/-- Before the end of the line the invariant is carried to the next iteration, which moves
by one step along the longer axis and by at most one step along the other. -/
theorem inv_step (x1 y1 x2 y2 : Int) (p : LineParams) (hs : LineSetup x1 y1 x2 y2 p)
    (k : Nat) (s : LineState) (hinv : LineInv x1 y1 p k s)
    (hk : (k : Int) < max p.dx (-p.dy)) :
    ∃ s', idealStep x2 y2 p s = some s' ∧ LineInv x1 y1 p (k + 1) s' ∧
      (s'.x1 = s.x1 ∨ s'.x1 = s.x1 + p.sx) ∧ (s'.y1 = s.y1 ∨ s'.y1 = s.y1 + p.sy) ∧
      ¬ (s'.x1 = s.x1 ∧ s'.y1 = s.y1) ∧
      (2 * s.err ≥ p.dy → s'.x1 = s.x1 + p.sx) ∧ (¬ 2 * s.err ≥ p.dy → s'.x1 = s.x1) := by
  obtain ⟨D, dy, sx, sy⟩ := p
  obtain ⟨x, y, err⟩ := s
  obtain ⟨E, rfl⟩ : ∃ E, dy = -E := ⟨-dy, by ring⟩
  obtain ⟨hD, hE, hsx, hsy, hx2, hy2⟩ := hs
  obtain ⟨a, b, ha0, haD, hb0, hbE, hx, hy, herr, hlo, hhi, hkx, hky⟩ := hinv
  simp only [neg_neg] at *
  have hE0 : 0 ≤ E := by omega
  have hxs := arith_xstep D E a b k hD haD hb0 hkx hky hk
  have hys := arith_ystep D E a b k hE0 ha0 hbE hkx hky hk
  rw [← herr] at hxs hys
  obtain ⟨δ, hδ⟩ : ∃ δ, δ = a * E - b * D := ⟨_, rfl⟩
  rw [← hδ] at herr hlo hhi
  have hnotend : ¬ (x = x2 ∧ y = y2) := by
    rintro ⟨h1, h2⟩
    rcases le_or_lt E D with h | h
    · rw [max_eq_left h] at hk
      have := hkx h
      have e : sx * a = sx * D := by omega
      rcases hsx with r | r <;> (rw [r] at e; omega)
    · rw [max_eq_right (le_of_lt h)] at hk
      have := hky h
      have e : sy * b = sy * E := by omega
      rcases hsy with r | r <;> (rw [r] at e; omega)
  unfold idealStep
  dsimp only
  rw [if_neg hnotend]
  have e11 : (a + 1) * E - (b + 1) * D = δ + E - D := by rw [hδ]; ring
  have e10 : (a + 1) * E - b * D = δ + E := by rw [hδ]; ring
  have e01 : a * E - (b + 1) * D = δ - D := by rw [hδ]; ring
  have hsxne : sx ≠ 0 := by rcases hsx with r | r <;> omega
  have hsyne : sy ≠ 0 := by rcases hsy with r | r <;> omega
  have hmax : (E ≤ D ∧ max D E = D) ∨ (D < E ∧ max D E = E) := by
    rcases le_or_lt E D with h | h
    · exact Or.inl ⟨h, max_eq_left h⟩
    · exact Or.inr ⟨h, max_eq_right (le_of_lt h)⟩
  by_cases c1 : 2 * err ≥ -E <;> by_cases c2 : 2 * err ≤ D
  · rw [if_pos c1, if_pos c2]
    have h1 := hxs c1
    have h2 := hys c2
    refine ⟨_, rfl, ⟨a + 1, b + 1, ?_, ?_, ?_, ?_, ?_, ?_, ?_, ?_, ?_, ?_, ?_⟩,
      Or.inr rfl, Or.inr rfl, ?_, fun _ => rfl, fun h => absurd c1 h⟩ <;> dsimp only
    · omega
    · omega
    · omega
    · omega
    · rw [hx]; ring
    · rw [hy]; ring
    · rw [neg_neg, e11]; omega
    · rw [neg_neg, e11]
      rcases hmax with ⟨h, e⟩ | ⟨h, e⟩ <;> (rw [e] at hlo ⊢; omega)
    · rw [neg_neg, e11]
      rcases hmax with ⟨h, e⟩ | ⟨h, e⟩ <;> (rw [e] at hhi ⊢; omega)
    · rw [neg_neg]; intro h; have := hkx h; push_cast; omega
    · rw [neg_neg]; intro h; have := hky h; push_cast; omega
    · rintro ⟨h, _⟩
      omega
  · rw [if_pos c1, if_neg c2]
    have h1 := hxs c1
    refine ⟨_, rfl, ⟨a + 1, b, ?_, ?_, ?_, ?_, ?_, ?_, ?_, ?_, ?_, ?_, ?_⟩,
      Or.inr rfl, Or.inl rfl, ?_, fun _ => rfl, fun h => absurd c1 h⟩ <;> dsimp only
    · omega
    · omega
    · omega
    · omega
    · rw [hx]; ring
    · exact hy
    · rw [neg_neg, e10]; omega
    · rw [neg_neg, e10]
      rcases hmax with ⟨h, e⟩ | ⟨h, e⟩ <;> (rw [e] at hlo ⊢; omega)
    · rw [neg_neg, e10]
      rcases hmax with ⟨h, e⟩ | ⟨h, e⟩ <;> (rw [e] at hlo hhi ⊢; omega)
    · rw [neg_neg]; intro h; have := hkx h; push_cast; omega
    · rw [neg_neg]; intro h
      exfalso
      rw [max_eq_right (le_of_lt h)] at hlo
      omega
    · rintro ⟨h, _⟩
      omega
  · rw [if_neg c1, if_pos c2]
    have h2 := hys c2
    refine ⟨_, rfl, ⟨a, b + 1, ?_, ?_, ?_, ?_, ?_, ?_, ?_, ?_, ?_, ?_, ?_⟩,
      Or.inl rfl, Or.inr rfl, ?_, fun h => absurd h c1, fun _ => rfl⟩ <;> dsimp only
    · omega
    · omega
    · omega
    · omega
    · exact hx
    · rw [hy]; ring
    · rw [neg_neg, e01]; omega
    · rw [neg_neg, e01]
      rcases hmax with ⟨h, e⟩ | ⟨h, e⟩ <;> (rw [e] at hlo hhi ⊢; omega)
    · rw [neg_neg, e01]
      rcases hmax with ⟨h, e⟩ | ⟨h, e⟩ <;> (rw [e] at hhi ⊢; omega)
    · rw [neg_neg]; intro h
      exfalso
      rw [max_eq_left h] at hhi
      omega
    · rw [neg_neg]; intro h; have := hky h; push_cast; omega
    · rintro ⟨_, h⟩
      omega
  · exfalso; omega

/-- After as many iterations as the longer axis has steps the loop is at `(x2, y2)`. -/
theorem inv_end (x1 y1 x2 y2 : Int) (p : LineParams) (hs : LineSetup x1 y1 x2 y2 p)
    (k : Nat) (s : LineState) (hinv : LineInv x1 y1 p k s)
    (hk : (k : Int) = max p.dx (-p.dy)) : s.x1 = x2 ∧ s.y1 = y2 := by
  obtain ⟨D, dy, sx, sy⟩ := p
  obtain ⟨x, y, err⟩ := s
  obtain ⟨E, rfl⟩ : ∃ E, dy = -E := ⟨-dy, by ring⟩
  obtain ⟨hD, hE, hsx, hsy, hx2, hy2⟩ := hs
  obtain ⟨a, b, ha0, haD, hb0, hbE, hx, hy, herr, hlo, hhi, hkx, hky⟩ := hinv
  simp only [neg_neg] at *
  have hE0 : 0 ≤ E := by omega
  have hab : a = D ∧ b = E := by
    rcases le_or_lt E D with h | h
    · rw [max_eq_left h] at hk hlo hhi
      have haD2 : a = D := by rw [hkx h, hk]
      refine ⟨haD2, ?_⟩
      by_contra hn
      subst haD2
      have h1 : 0 ≤ a * (E - 1 - b) := mul_nonneg hD (by omega)
      have h2 : a ≤ 0 := by nlinarith
      omega
    · rw [max_eq_right (le_of_lt h)] at hk hlo hhi
      have hbE2 : b = E := by rw [hky h, hk]
      refine ⟨?_, hbE2⟩
      by_contra hn
      subst hbE2
      have h1 : 0 ≤ b * (D - 1 - a) := mul_nonneg hE0 (by omega)
      have h2 : b ≤ 0 := by nlinarith
      omega
  show x = x2 ∧ y = y2
  rw [hx, hy, hx2, hy2, hab.1, hab.2]
  exact ⟨rfl, rfl⟩

/-- The number of iterations for which the invariant can hold is at most the number of
steps of the longer axis. -/
theorem inv_le (x1 y1 : Int) (p : LineParams) (k : Nat) (s : LineState)
    (hinv : LineInv x1 y1 p k s) : (k : Int) ≤ max p.dx (-p.dy) := by
  obtain ⟨a, b, ha0, haD, hb0, hbE, hx, hy, herr, hlo, hhi, hkx, hky⟩ := hinv
  rcases le_or_lt (-p.dy) p.dx with h | h
  · rw [max_eq_left h, ← hkx h]; exact haD
  · rw [max_eq_right (le_of_lt h), ← hky h]; exact hbE

/-- The invariant holds when the loop is entered. -/
theorem inv_init (x1 y1 x2 y2 : Int) (p : LineParams) (hs : LineSetup x1 y1 x2 y2 p) :
    LineInv x1 y1 p 0 { x1 := x1, y1 := y1, err := p.dx + p.dy } := by
  have h1 := hs.dx_nonneg
  have h2 := hs.dy_nonpos
  refine ⟨0, 0, le_refl 0, h1, le_refl 0, by omega, ?_, ?_, ?_, ?_, ?_, fun _ => rfl,
    fun _ => rfl⟩ <;> dsimp only
  · rw [mul_zero, add_zero]
  · rw [mul_zero, add_zero]
  · rw [zero_mul, zero_mul, sub_zero, sub_zero]
  · rw [zero_mul, zero_mul, sub_zero, mul_zero]
    have := le_max_left p.dx (-p.dy)
    omega
  · rw [zero_mul, zero_mul, sub_zero, mul_zero]
    have := le_max_left p.dx (-p.dy)
    omega

/-- A point at which the invariant holds is within half a pixel of the ideal line: twice
the absolute value of the cross product with the direction is at most the length of the
longer axis. -/
theorem inv_bound (x1 y1 x2 y2 : Int) (p : LineParams) (hs : LineSetup x1 y1 x2 y2 p)
    (k : Nat) (s : LineState) (hinv : LineInv x1 y1 p k s) :
    2 * |(s.x1 - x1) * (y2 - y1) - (s.y1 - y1) * (x2 - x1)| ≤ max p.dx (-p.dy) := by
  obtain ⟨hD, hE, hsx, hsy, hx2, hy2⟩ := hs
  obtain ⟨a, b, ha0, haD, hb0, hbE, hx, hy, herr, hlo, hhi, hkx, hky⟩ := hinv
  have e : (s.x1 - x1) * (y2 - y1) - (s.y1 - y1) * (x2 - x1) =
      p.sx * p.sy * (a * (-p.dy) - b * p.dx) := by
    rw [hx, hy, hx2, hy2]; ring
  rw [e, abs_mul, abs_mul]
  have a1 : |p.sx| = 1 := by rcases hsx with r | r <;> rw [r] <;> rfl
  have a2 : |p.sy| = 1 := by rcases hsy with r | r <;> rw [r] <;> rfl
  rw [a1, a2, one_mul, one_mul]
  rcases abs_cases (a * (-p.dy) - b * p.dx) with ⟨h, _⟩ | ⟨h, _⟩ <;> rw [h] <;> omega

theorem chkInt_cases (v : Int) :
    chkInt v = Except.ok v ∨ chkInt v = Except.error Fault.undefined := by
  unfold chkInt
  by_cases h : INT_MIN ≤ v ∧ v ≤ INT_MAX
  · rw [if_pos h]; exact Or.inl rfl
  · rw [if_neg h]; exact Or.inr rfl

theorem chkInt_inv (v w : Int) (h : chkInt v = Except.ok w) :
    w = v ∧ INT_MIN ≤ v ∧ v ≤ INT_MAX := by
  unfold chkInt at h
  by_cases c : INT_MIN ≤ v ∧ v ≤ INT_MAX
  · rw [if_pos c] at h
    exact ⟨(Except.ok.inj h).symm, c⟩
  · rw [if_neg c] at h
    cases h

/-- One iteration of the loop either overflows or does what the loop body does on
unbounded integers. -/
theorem lineStep_cases (x2 y2 : Int) (p : LineParams) (s : LineState) :
    lineStep x2 y2 p s = Except.error Fault.undefined ∨
      lineStep x2 y2 p s = Except.ok (idealStep x2 y2 p s) := by
  unfold lineStep idealStep
  by_cases hend : s.x1 = x2 ∧ s.y1 = y2
  · rw [if_pos hend, if_pos hend]; exact Or.inr rfl
  · rw [if_neg hend, if_neg hend]
    rcases chkInt_cases (2 * s.err) with h | h
    swap
    · refine Or.inl ?_; simp only [h, error_bind]
    rw [h, ok_bind]
    dsimp only
    by_cases c1 : 2 * s.err ≥ p.dy
    · rw [if_pos c1, if_pos c1]
      rcases chkInt_cases (s.err + p.dy) with h1 | h1
      swap
      · refine Or.inl ?_; simp only [h1, error_bind]
      rw [h1, ok_bind]
      rcases chkInt_cases (s.x1 + p.sx) with h2 | h2
      swap
      · refine Or.inl ?_; simp only [h2, error_bind]
      rw [h2, ok_bind, pure_eq_ok, ok_bind]
      dsimp only
      by_cases c2 : 2 * s.err ≤ p.dx
      · rw [if_pos c2, if_pos c2]
        rcases chkInt_cases (s.err + p.dy + p.dx) with h3 | h3
        swap
        · refine Or.inl ?_; simp only [h3, error_bind]
        rw [h3, ok_bind]
        rcases chkInt_cases (s.y1 + p.sy) with h4 | h4
        swap
        · refine Or.inl ?_; simp only [h4, error_bind]
        rw [h4, ok_bind, pure_eq_ok, ok_bind]
        exact Or.inr rfl
      · rw [if_neg c2, if_neg c2, pure_eq_ok, ok_bind]
        exact Or.inr rfl
    · rw [if_neg c1, if_neg c1, pure_eq_ok, ok_bind]
      by_cases c2 : 2 * s.err ≤ p.dx
      · rw [if_pos c2, if_pos c2]
        rcases chkInt_cases (s.err + p.dx) with h3 | h3
        swap
        · refine Or.inl ?_; simp only [h3, error_bind]
        rw [h3, ok_bind]
        rcases chkInt_cases (s.y1 + p.sy) with h4 | h4
        swap
        · refine Or.inl ?_; simp only [h4, error_bind]
        rw [h4, ok_bind, pure_eq_ok, ok_bind]
        exact Or.inr rfl
      · rw [if_neg c2, if_neg c2, pure_eq_ok, ok_bind]
        exact Or.inr rfl

/-- The initialisers of `drawLine` either overflow or give `dx = |x2 - x1|`,
`dy = -|y2 - y1|`, the two directions and `err = dx + dy`. -/
theorem lineInit_cases (x1 y1 x2 y2 : Int) :
    lineInit x1 y1 x2 y2 = Except.error Fault.undefined ∨
      ∃ p, lineInit x1 y1 x2 y2 = Except.ok (p, { x1 := x1, y1 := y1, err := p.dx + p.dy }) ∧
        LineSetup x1 y1 x2 y2 p ∧ p.dx = |x2 - x1| ∧ -p.dy = |y2 - y1| ∧
        p.sx = (if x1 < x2 then 1 else -1) ∧ p.sy = (if y1 < y2 then 1 else -1) := by
  unfold lineInit absInt
  rcases chkInt_cases (x2 - x1) with h | h
  swap
  · refine Or.inl ?_; simp only [h, error_bind]
  rw [h, ok_bind]
  rcases chkInt_cases (if x2 - x1 < 0 then -(x2 - x1) else x2 - x1) with h1 | h1
  swap
  · refine Or.inl ?_; simp only [h1, error_bind]
  rw [h1, ok_bind]
  rcases chkInt_cases (y2 - y1) with h2 | h2
  swap
  · refine Or.inl ?_; simp only [h2, error_bind]
  rw [h2, ok_bind]
  rcases chkInt_cases (if y2 - y1 < 0 then -(y2 - y1) else y2 - y1) with h3 | h3
  swap
  · refine Or.inl ?_; simp only [h3, error_bind]
  rw [h3, ok_bind]
  rcases chkInt_cases (-(if y2 - y1 < 0 then -(y2 - y1) else y2 - y1)) with h4 | h4
  swap
  · refine Or.inl ?_; simp only [h4, error_bind]
  rw [h4, ok_bind]
  rcases chkInt_cases ((if x2 - x1 < 0 then -(x2 - x1) else x2 - x1) +
      -(if y2 - y1 < 0 then -(y2 - y1) else y2 - y1)) with h5 | h5
  swap
  · refine Or.inl ?_; simp only [h5, error_bind]
  rw [h5, ok_bind]
  have ex : (if x2 - x1 < 0 then -(x2 - x1) else x2 - x1) = |x2 - x1| := by
    rcases abs_cases (x2 - x1) with ⟨e, _⟩ | ⟨e, _⟩ <;> rw [e] <;> split <;> omega
  have ey : (if y2 - y1 < 0 then -(y2 - y1) else y2 - y1) = |y2 - y1| := by
    rcases abs_cases (y2 - y1) with ⟨e, _⟩ | ⟨e, _⟩ <;> rw [e] <;> split <;> omega
  refine Or.inr ⟨_, rfl, ⟨?_, ?_, ?_, ?_, ?_, ?_⟩, ex, ?_, rfl, rfl⟩ <;> dsimp only
  · rw [ex]; exact abs_nonneg _
  · rw [ey]; have := abs_nonneg (y2 - y1); omega
  · split <;> simp
  · split <;> simp
  · rw [ex]
    rcases abs_cases (x2 - x1) with ⟨e, _⟩ | ⟨e, _⟩ <;> rw [e] <;> split <;> omega
  · rw [ey, neg_neg]
    rcases abs_cases (y2 - y1) with ⟨e, _⟩ | ⟨e, _⟩ <;> rw [e] <;> split <;> omega
  · rw [neg_neg, ey]

theorem lineStep_end (x2 y2 : Int) (p : LineParams) (s : LineState)
    (h : s.x1 = x2 ∧ s.y1 = y2) : lineStep x2 y2 p s = Except.ok none := by
  unfold lineStep
  rw [if_pos h]
  rfl

/-- An iteration that goes on to a next one happens before the end of the line, carries the
invariant over and moves by one step along the longer axis. -/
theorem lineStep_some (x1 y1 x2 y2 : Int) (p : LineParams) (hs : LineSetup x1 y1 x2 y2 p)
    (k : Nat) (s s' : LineState) (hinv : LineInv x1 y1 p k s)
    (h : lineStep x2 y2 p s = Except.ok (some s')) :
    (k : Int) < max p.dx (-p.dy) ∧ LineInv x1 y1 p (k + 1) s' ∧
      (s'.x1 = s.x1 ∨ s'.x1 = s.x1 + p.sx) ∧ (s'.y1 = s.y1 ∨ s'.y1 = s.y1 + p.sy) ∧
      ¬ (s'.x1 = s.x1 ∧ s'.y1 = s.y1) ∧
      (2 * s.err ≥ p.dy → s'.x1 = s.x1 + p.sx) ∧ (¬ 2 * s.err ≥ p.dy → s'.x1 = s.x1) := by
  have hlt : (k : Int) < max p.dx (-p.dy) := by
    rcases lt_or_eq_of_le (inv_le x1 y1 p k s hinv) with c | c
    · exact c
    · rw [lineStep_end x2 y2 p s (inv_end x1 y1 x2 y2 p hs k s hinv c)] at h
      cases h
  obtain ⟨s'', h1, h2⟩ := inv_step x1 y1 x2 y2 p hs k s hinv hlt
  rcases lineStep_cases x2 y2 p s with c | c
  · rw [c] at h; cases h
  · rw [c, h1] at h
    have e : s'' = s' := Option.some.inj (Except.ok.inj h)
    rw [← e]
    exact ⟨hlt, h2⟩

/-- An iteration before the end of the line that does not overflow goes on to a next
one. -/
theorem lineStep_next (x1 y1 x2 y2 : Int) (p : LineParams) (hs : LineSetup x1 y1 x2 y2 p)
    (k : Nat) (s : LineState) (hinv : LineInv x1 y1 p k s)
    (hk : (k : Int) < max p.dx (-p.dy))
    (hne : lineStep x2 y2 p s ≠ Except.error Fault.undefined) :
    ∃ s', lineStep x2 y2 p s = Except.ok (some s') := by
  obtain ⟨s', h1, _⟩ := inv_step x1 y1 x2 y2 p hs k s hinv hk
  rcases lineStep_cases x2 y2 p s with c | c
  · exact absurd c hne
  · exact ⟨s', by rw [c, h1]⟩

theorem lineRun_succ (x2 y2 : Int) (p : LineParams) (n : Nat) (s : LineState) :
    lineRun x2 y2 p (n + 1) s =
      match lineStep x2 y2 p s with
      | Except.error e => Except.error e
      | Except.ok none => Except.ok true
      | Except.ok (some s') => lineRun x2 y2 p n s' := by
  rw [lineRun]
  cases h : lineStep x2 y2 p s with
  | error e => rw [error_bind]
  | ok o =>
    rw [ok_bind]
    cases o <;> rfl

theorem visited_succ (x2 y2 : Int) (p : LineParams) (n : Nat) (s : LineState) :
    visited x2 y2 p (n + 1) s =
      (s.x1, s.y1) ::
        match lineStep x2 y2 p s with
        | Except.ok (some s') => visited x2 y2 p n s'
        | _ => [] := rfl

/-- From a state `j` steps before the end of the longer axis a loop without overflow does
`j` more iterations that go on and ends in the next one, at `(x2, y2)`. -/
theorem run_from (x1 y1 x2 y2 : Int) (p : LineParams) (hs : LineSetup x1 y1 x2 y2 p)
    (M : Nat) (hM : (M : Int) = max p.dx (-p.dy)) (j : Nat) :
    ∀ (k : Nat) (s : LineState), k + j = M → LineInv x1 y1 p k s →
      (∀ n, lineRun x2 y2 p n s ≠ Except.error Fault.undefined) →
      lineRun x2 y2 p (j + 1) s = Except.ok true ∧
      lineRun x2 y2 p j s = Except.ok false ∧
      (visited x2 y2 p (j + 1) s).length = j + 1 ∧
      (∀ n, j + 1 ≤ n → visited x2 y2 p n s = visited x2 y2 p (j + 1) s) ∧
      (visited x2 y2 p (j + 1) s)[0]? = some (s.x1, s.y1) ∧
      (visited x2 y2 p (j + 1) s)[j]? = some (x2, y2) ∧
      ∀ i, i < j → ∃ q r, (visited x2 y2 p (j + 1) s)[i]? = some q ∧
        (visited x2 y2 p (j + 1) s)[i + 1]? = some r ∧ StepShape p.sx p.sy q r := by
  induction j with
  | zero =>
    intro k s hk hinv _
    have hend := inv_end x1 y1 x2 y2 p hs k s hinv (by rw [← hM]; congr 1)
    have hst := lineStep_end x2 y2 p s hend
    have hv : ∀ n, visited x2 y2 p (n + 1) s = [(s.x1, s.y1)] := by
      intro n; rw [visited_succ, hst]
    refine ⟨by rw [lineRun_succ, hst], rfl, by rw [hv]; rfl, ?_, by rw [hv]; rfl, ?_, ?_⟩
    · intro n hn
      obtain ⟨m, rfl⟩ : ∃ m, n = m + 1 := ⟨n - 1, by omega⟩
      rw [hv, hv]
    · rw [hv, ← hend.1, ← hend.2]; rfl
    · intro i hi; omega
  | succ j ih =>
    intro k s hk hinv hne
    have hlt : (k : Int) < max p.dx (-p.dy) := by rw [← hM]; omega
    have hne1 : lineStep x2 y2 p s ≠ Except.error Fault.undefined := by
      intro hc
      apply hne 1
      rw [lineRun_succ, hc]
    obtain ⟨s', hst⟩ := lineStep_next x1 y1 x2 y2 p hs k s hinv hlt hne1
    obtain ⟨_, hinv', hx, hy, hxy, _⟩ := lineStep_some x1 y1 x2 y2 p hs k s s' hinv hst
    have hrun : ∀ n, lineRun x2 y2 p (n + 1) s = lineRun x2 y2 p n s' := by
      intro n; rw [lineRun_succ, hst]
    have hv : ∀ n, visited x2 y2 p (n + 1) s = (s.x1, s.y1) :: visited x2 y2 p n s' := by
      intro n; rw [visited_succ, hst]
    obtain ⟨r1, r2, r3, r4, r5, r6, r7⟩ := ih (k + 1) s' (by omega) hinv'
      (fun n => by rw [← hrun]; exact hne (n + 1))
    refine ⟨by rw [hrun]; exact r1, by rw [hrun]; exact r2, ?_, ?_, by rw [hv]; rfl, ?_, ?_⟩
    · rw [hv, List.length_cons, r3]
    · intro n hn
      obtain ⟨m, rfl⟩ : ∃ m, n = m + 1 := ⟨n - 1, by omega⟩
      rw [hv, hv, r4 m (by omega)]
    · rw [hv, List.getElem?_cons_succ]; exact r6
    · intro i hi
      rw [hv]
      cases i with
      | zero =>
        refine ⟨(s.x1, s.y1), (s'.x1, s'.y1), rfl, ?_, hx, hy, ?_⟩
        · rw [List.getElem?_cons_succ]; exact r5
        · intro hc
          exact hxy ⟨congrArg Prod.fst hc, congrArg Prod.snd hc⟩
      | succ i =>
        obtain ⟨q, r, h1, h2, h3⟩ := r7 i (by omega)
        exact ⟨q, r, by rw [List.getElem?_cons_succ]; exact h1,
          by rw [List.getElem?_cons_succ]; exact h2, h3⟩

/-! ## The guarded assignment and the grid -/

theorem getPx_setPx (g : Grid) (y0 x0 : Nat) (c : Pixel) (row : List Pixel)
    (hy0 : g[y0]? = some row) (hx0 : x0 < row.length) (y x : Nat) :
    getPx (setPx g y0 x0 c) y x =
      if y = y0 ∧ x = x0 then Except.ok c else getPx g y x := by
  have hyl : y0 < g.length := by
    rcases Nat.lt_or_ge y0 g.length with h | h
    · exact h
    · rw [List.getElem?_eq_none h] at hy0; cases hy0
  unfold setPx getPx
  rw [hy0]
  dsimp only
  by_cases hy : y = y0
  · subst hy
    rw [List.getElem?_set_self hyl, hy0]
    dsimp only
    by_cases hx : x = x0
    · subst hx
      rw [List.getElem?_set_self hx0, if_pos ⟨rfl, rfl⟩]
      rfl
    · rw [List.getElem?_set_ne (Ne.symm hx), if_neg (fun h => hx h.2)]
  · rw [List.getElem?_set_ne (Ne.symm hy), if_neg (fun h => hy h.1)]

theorem setPx_shape (g : Grid) (y0 x0 : Nat) (c : Pixel) :
    (setPx g y0 x0 c).length = g.length ∧
      ∀ (w : Int), (∀ r, r ∈ g → (r.length : Int) = w) →
        ∀ r, r ∈ setPx g y0 x0 c → (r.length : Int) = w := by
  unfold setPx
  cases h : g[y0]? with
  | none => exact ⟨rfl, fun _ hw => hw⟩
  | some row =>
    dsimp only
    refine ⟨List.length_set _ _ _, ?_⟩
    intro w hw r hr
    rcases List.mem_or_eq_of_mem_set hr with h1 | h1
    · exact hw r h1
    · rw [h1, List.length_set]
      obtain ⟨hl, e⟩ := List.getElem?_eq_some.1 h
      rw [← e]
      exact hw _ (List.getElem_mem _)

theorem plotPx_shape (img : BmpImage) (q : Int × Int) (h : GridShape img) :
    GridShape (plotPx img q) ∧ (plotPx img q).width = img.width ∧
      (plotPx img q).height = img.height ∧ (plotPx img q).bitCount = img.bitCount := by
  unfold plotPx
  split
  · refine ⟨⟨?_, ?_⟩, rfl, rfl, rfl⟩
    · show ((setPx img.pixels q.2.toNat q.1.toNat Pixel.black).length : Int) = img.height
      rw [(setPx_shape _ _ _ _).1]; exact h.1
    · exact (setPx_shape _ _ _ _).2 _ h.2
  · exact ⟨h, rfl, rfl, rfl⟩

/-- On a grid of `height` rows of `width` pixels the guarded assignment of the loop body is
defined. -/
theorem plot_eq (img : BmpImage) (x1 y1 : Int) (h : GridShape img) :
    plot img x1 y1 = Except.ok (plotPx img (x1, y1)) := by
  unfold plot plotPx
  by_cases c : x1 ≥ 0 ∧ x1 < img.width ∧ y1 ≥ 0 ∧ y1 < img.height
  · rw [if_pos c, if_pos c]
    obtain ⟨c1, c2, c3, c4⟩ := c
    have hyl : y1.toNat < img.pixels.length := by
      have := h.1; omega
    have hxl : x1.toNat < (img.pixels[y1.toNat]).length := by
      have := h.2 _ (List.getElem_mem hyl); omega
    rw [idx_of_eq _ y1 y1.toNat (by omega) hyl, ok_bind,
      setIdx_of_eq _ x1 x1.toNat _ (by omega) hxl, ok_bind,
      setIdx_of_eq _ y1 y1.toNat _ (by omega) hyl, ok_bind]
    unfold setPx
    rw [List.getElem?_eq_getElem hyl]
    rfl
  · rw [if_neg c, if_neg c]
    rfl

/-- Reading a pixel after the guarded assignment at `q`. -/
theorem getPx_plotPx (img : BmpImage) (q : Int × Int) (h : GridShape img) (y x : Nat) :
    getPx (plotPx img q).pixels y x =
      if q = ((x : Int), (y : Int)) ∧ (x : Int) < img.width ∧ (y : Int) < img.height then
        Except.ok Pixel.black
      else getPx img.pixels y x := by
  unfold plotPx
  by_cases c : q.1 ≥ 0 ∧ q.1 < img.width ∧ q.2 ≥ 0 ∧ q.2 < img.height
  · rw [if_pos c]
    obtain ⟨c1, c2, c3, c4⟩ := c
    have hyl : q.2.toNat < img.pixels.length := by
      have := h.1; omega
    have hxl : q.1.toNat < (img.pixels[q.2.toNat]).length := by
      have := h.2 _ (List.getElem_mem hyl); omega
    show getPx (setPx img.pixels q.2.toNat q.1.toNat Pixel.black) y x = _
    rw [getPx_setPx _ _ _ _ _ (List.getElem?_eq_getElem hyl) hxl]
    by_cases e : y = q.2.toNat ∧ x = q.1.toNat
    · rw [if_pos e, if_pos]
      refine ⟨Prod.ext ?_ ?_, ?_, ?_⟩ <;> dsimp only <;> omega
    · rw [if_neg e, if_neg]
      rintro ⟨e1, _, _⟩
      apply e
      rw [e1]
      exact ⟨(Int.toNat_ofNat _).symm, (Int.toNat_ofNat _).symm⟩
  · rw [if_neg c, if_neg]
    rintro ⟨e1, e2, e3⟩
    apply c
    rw [e1]
    dsimp only
    omega

theorem plotAll_shape (pts : List (Int × Int)) (img : BmpImage) (h : GridShape img) :
    GridShape (pts.foldl plotPx img) ∧ (pts.foldl plotPx img).width = img.width ∧
      (pts.foldl plotPx img).height = img.height ∧
      (pts.foldl plotPx img).bitCount = img.bitCount := by
  induction pts generalizing img with
  | nil => exact ⟨h, rfl, rfl, rfl⟩
  | cons q pts ih =>
    obtain ⟨h1, h2, h3, h4⟩ := plotPx_shape img q h
    obtain ⟨i1, i2, i3, i4⟩ := ih (plotPx img q) h1
    rw [List.foldl_cons]
    exact ⟨i1, i2.trans h2, i3.trans h3, i4.trans h4⟩

/-- Reading a pixel after the guarded assignments at the points `pts`: black when the pixel
is one of the points and lies in the image, what it was otherwise. -/
theorem plotAll_get (pts : List (Int × Int)) (img : BmpImage) (h : GridShape img)
    (y x : Nat) :
    getPx (pts.foldl plotPx img).pixels y x =
      if ((x : Int), (y : Int)) ∈ pts ∧ (x : Int) < img.width ∧ (y : Int) < img.height then
        Except.ok Pixel.black
      else getPx img.pixels y x := by
  induction pts generalizing img with
  | nil =>
    rw [if_neg]
    · rfl
    · rintro ⟨hc, _⟩; cases hc
  | cons q pts ih =>
    obtain ⟨h1, h2, h3, h4⟩ := plotPx_shape img q h
    rw [List.foldl_cons, ih (plotPx img q) h1, getPx_plotPx img q h, h2, h3]
    by_cases c : (x : Int) < img.width ∧ (y : Int) < img.height
    · by_cases m : ((x : Int), (y : Int)) ∈ pts
      · rw [if_pos ⟨m, c⟩, if_pos ⟨List.mem_cons_of_mem _ m, c⟩]
      · rw [if_neg (fun hc => m hc.1)]
        by_cases e : q = ((x : Int), (y : Int))
        · rw [if_pos ⟨e, c⟩, if_pos ⟨by rw [e]; exact List.mem_cons_self _ _, c⟩]
        · rw [if_neg (fun hc => e hc.1), if_neg]
          rintro ⟨hc, _⟩
          rcases List.mem_cons.1 hc with r | r
          · exact e r.symm
          · exact m r
    · rw [if_neg (fun hc => c hc.2), if_neg (fun hc => c hc.2), if_neg (fun hc => c hc.2)]

theorem drawLoop_succ (x2 y2 : Int) (p : LineParams) (n : Nat) (s : LineState)
    (img : BmpImage) (h : GridShape img) :
    drawLoop x2 y2 p (n + 1) s img =
      match lineStep x2 y2 p s with
      | Except.error e => Except.error e
      | Except.ok none => Except.ok (some (plotPx img (s.x1, s.y1)))
      | Except.ok (some s') => drawLoop x2 y2 p n s' (plotPx img (s.x1, s.y1)) := by
  rw [drawLoop, plot_eq img s.x1 s.y1 h, ok_bind]
  cases hst : lineStep x2 y2 p s with
  | error e => rw [error_bind]
  | ok o =>
    rw [ok_bind]
    cases o <;> rfl

/-- On a grid of `height` rows of `width` pixels the loop of `drawLine` does what its
arithmetic does and, when it ends, has made the guarded assignment at every visited
point. -/
theorem drawLoop_eq (x2 y2 : Int) (p : LineParams) (n : Nat) :
    ∀ (s : LineState) (img : BmpImage), GridShape img →
      drawLoop x2 y2 p n s img =
        match lineRun x2 y2 p n s with
        | Except.error e => Except.error e
        | Except.ok false => Except.ok none
        | Except.ok true => Except.ok (some ((visited x2 y2 p n s).foldl plotPx img)) := by
  induction n with
  | zero => intro s img _; rfl
  | succ n ih =>
    intro s img h
    rw [drawLoop_succ x2 y2 p n s img h, lineRun_succ, visited_succ]
    cases hst : lineStep x2 y2 p s with
    | error e => rfl
    | ok o =>
      cases o with
      | none => rfl
      | some s' =>
        dsimp only
        rw [ih s' _ (plotPx_shape img _ h).1]
        rfl

/-! ## `drawLine` as a whole -/

/-- Every visited point is the point of a state at which the loop invariant holds. -/
theorem visited_inv (x1 y1 x2 y2 : Int) (p : LineParams) (hs : LineSetup x1 y1 x2 y2 p)
    (n : Nat) :
    ∀ (k : Nat) (s : LineState), LineInv x1 y1 p k s → ∀ i q,
      (visited x2 y2 p n s)[i]? = some q →
      ∃ s', LineInv x1 y1 p (k + i) s' ∧ q = (s'.x1, s'.y1) := by
  induction n with
  | zero => intro k s _ i q h; cases h
  | succ n ih =>
    intro k s hinv i q h
    rw [visited_succ] at h
    cases i with
    | zero =>
      rw [List.getElem?_cons_zero] at h
      exact ⟨s, hinv, (Option.some.inj h).symm⟩
    | succ i =>
      rw [List.getElem?_cons_succ] at h
      cases hst : lineStep x2 y2 p s with
      | error e => rw [hst] at h; cases h
      | ok o =>
        cases o with
        | none => rw [hst] at h; cases h
        | some s' =>
          rw [hst] at h
          obtain ⟨_, hinv', _⟩ := lineStep_some x1 y1 x2 y2 p hs k s s' hinv hst
          obtain ⟨s'', h1, h2⟩ := ih (k + 1) s' hinv' i q h
          refine ⟨s'', ?_, h2⟩
          have e : k + (i + 1) = k + 1 + i := by omega
          rw [e]; exact h1

theorem natAbs_max (a b : Int) :
    ((max a.natAbs b.natAbs : Nat) : Int) = max |a| |b| := by
  rw [Nat.cast_max, Int.natCast_natAbs, Int.natCast_natAbs]

/-- Every point visited by `drawLine` is within half a pixel of the ideal line. -/
theorem lineVisited_bound (x1 y1 x2 y2 : Int) (n : Nat) (q : Int × Int)
    (hq : q ∈ lineVisited n x1 y1 x2 y2) :
    2 * |(q.1 - x1) * (y2 - y1) - (q.2 - y1) * (x2 - x1)| ≤ max |x2 - x1| |y2 - y1| := by
  unfold lineVisited at hq
  rcases lineInit_cases x1 y1 x2 y2 with h | ⟨p, h, hs, hdx, hdy, _⟩
  · rw [h] at hq; cases hq
  · rw [h] at hq
    obtain ⟨i, hi⟩ := List.getElem?_of_mem hq
    obtain ⟨s', h1, h2⟩ := visited_inv x1 y1 x2 y2 p hs n 0 _ (inv_init x1 y1 x2 y2 p hs) i q hi
    rw [h2, ← hdx, ← hdy]
    exact inv_bound x1 y1 x2 y2 p hs _ s' h1

/-- On a grid of `height` rows of `width` pixels `drawLine` does what its arithmetic does
and, when it returns, has made the guarded assignment at every visited point. -/
theorem drawLine_eq (img : BmpImage) (h : GridShape img) (n : Nat) (x1 y1 x2 y2 : Int) :
    img.drawLine n x1 y1 x2 y2 =
      match lineArith n x1 y1 x2 y2 with
      | Except.error e => Except.error e
      | Except.ok false => Except.ok none
      | Except.ok true =>
        Except.ok (some ((lineVisited n x1 y1 x2 y2).foldl plotPx img)) := by
  unfold BmpImage.drawLine lineArith lineVisited
  cases hi : lineInit x1 y1 x2 y2 with
  | error e => rfl
  | ok ps =>
    obtain ⟨p, s⟩ := ps
    rw [ok_bind, ok_bind]
    exact drawLoop_eq x2 y2 p n s img h

/-- A call of `drawLine` without overflow: the loop does exactly `M = max |x2 - x1|
|y2 - y1|` iterations that go on and ends in the next one; the `M + 1` visited points
start at `(x1, y1)`, end at `(x2, y2)` and each differs from the one before by a step. -/
theorem line_run (x1 y1 x2 y2 : Int) (hno : NoOverflow x1 y1 x2 y2) (M : Nat)
    (hM : M = max (x2 - x1).natAbs (y2 - y1).natAbs) :
    lineArith (M + 1) x1 y1 x2 y2 = Except.ok true ∧
      lineArith M x1 y1 x2 y2 = Except.ok false ∧
      (lineVisited (M + 1) x1 y1 x2 y2).length = M + 1 ∧
      (∀ n, M + 1 ≤ n → lineVisited n x1 y1 x2 y2 = lineVisited (M + 1) x1 y1 x2 y2) ∧
      (lineVisited (M + 1) x1 y1 x2 y2)[0]? = some (x1, y1) ∧
      (lineVisited (M + 1) x1 y1 x2 y2)[M]? = some (x2, y2) ∧
      ∀ i, i < M → ∃ q r, (lineVisited (M + 1) x1 y1 x2 y2)[i]? = some q ∧
        (lineVisited (M + 1) x1 y1 x2 y2)[i + 1]? = some r ∧
        StepShape (if x1 < x2 then 1 else -1) (if y1 < y2 then 1 else -1) q r := by
  rcases lineInit_cases x1 y1 x2 y2 with h | ⟨p, h, hs, hdx, hdy, hsx, hsy⟩
  · exfalso
    apply hno 0 Fault.undefined
    unfold lineArith
    rw [h, error_bind]
  · have hrun : ∀ n, lineArith n x1 y1 x2 y2 =
        lineRun x2 y2 p n { x1 := x1, y1 := y1, err := p.dx + p.dy } := by
      intro n; unfold lineArith; rw [h, ok_bind]
    have hvis : ∀ n, lineVisited n x1 y1 x2 y2 =
        visited x2 y2 p n { x1 := x1, y1 := y1, err := p.dx + p.dy } := by
      intro n; unfold lineVisited; rw [h]
    have hMp : (M : Int) = max p.dx (-p.dy) := by rw [hM, natAbs_max, hdx, hdy]
    have key := run_from x1 y1 x2 y2 p hs M hMp M 0 _ (by omega) (inv_init x1 y1 x2 y2 p hs)
      (fun n => by rw [← hrun]; exact hno n _)
    simp only [← hrun, ← hvis] at key
    rw [← hsx, ← hsy]
    exact key

theorem lineRun_done (x2 y2 : Int) (p : LineParams) (n : Nat) :
    ∀ (s : LineState), lineRun x2 y2 p n s = Except.ok true →
      ∀ m e, lineRun x2 y2 p m s ≠ Except.error e := by
  induction n with
  | zero => intro s h; cases h
  | succ n ih =>
    intro s h m e
    cases m with
    | zero => intro hc; cases hc
    | succ m =>
      rw [lineRun_succ] at h ⊢
      cases hst : lineStep x2 y2 p s with
      | error e => rw [hst] at h; cases h
      | ok o =>
        cases o with
        | none => intro hc; cases hc
        | some s' =>
          rw [hst] at h
          exact ih s' h m e

/-- A call whose arithmetic reaches the `break` has no overflow. -/
theorem noOverflow_of_done (n : Nat) (x1 y1 x2 y2 : Int)
    (h : lineArith n x1 y1 x2 y2 = Except.ok true) : NoOverflow x1 y1 x2 y2 := by
  intro m e
  unfold lineArith at h ⊢
  cases hi : lineInit x1 y1 x2 y2 with
  | error e => rw [hi] at h; cases h
  | ok ps =>
    obtain ⟨p, s⟩ := ps
    rw [hi, ok_bind] at h
    rw [ok_bind]
    exact lineRun_done x2 y2 p n s h m e

theorem white10_shape : GridShape white10 := by
  refine ⟨rfl, ?_⟩
  intro r hr
  rw [(List.mem_replicate.1 hr).2]
  rfl

/-! ## The diagonals of a square image -/

/-- On a diagonal (`dx = |dy|`, `err = 0`) an iteration before the end takes both steps
and leaves `err` at 0. -/
theorem lineStep_diag (x2 y2 D sx sy x y : Int) (hD0 : 0 ≤ D) (hD : D ≤ INT_MAX)
    (hend : ¬ (x = x2 ∧ y = y2))
    (hx1 : INT_MIN ≤ x + sx) (hx2 : x + sx ≤ INT_MAX)
    (hy1 : INT_MIN ≤ y + sy) (hy2 : y + sy ≤ INT_MAX) :
    lineStep x2 y2 { dx := D, dy := -D, sx := sx, sy := sy } { x1 := x, y1 := y, err := 0 } =
      Except.ok (some { x1 := x + sx, y1 := y + sy, err := 0 }) := by
  have hmin : INT_MIN ≤ -D := by unfold INT_MIN; unfold INT_MAX at hD; omega
  have hmax : -D ≤ INT_MAX := by unfold INT_MAX; omega
  have h0a : INT_MIN ≤ (0 : Int) := by unfold INT_MIN; omega
  have h0b : (0 : Int) ≤ INT_MAX := by unfold INT_MAX; omega
  unfold lineStep
  dsimp only
  rw [if_neg hend, mul_zero, chkInt_ok 0 h0a h0b, ok_bind, if_pos (by omega : (0 : Int) ≥ -D),
    zero_add, chkInt_ok (-D) hmin hmax, ok_bind, chkInt_ok _ hx1 hx2, ok_bind, pure_eq_ok,
    ok_bind]
  dsimp only
  rw [if_pos hD0, neg_add_cancel, chkInt_ok 0 h0a h0b, ok_bind, chkInt_ok _ hy1 hy2, ok_bind,
    pure_eq_ok, ok_bind, pure_eq_ok]

/-- The run of the loop along a diagonal of `j` steps: it ends after `j + 1` iterations and
visits exactly the points `(x + sx * i, y + sy * i)` for `i <= j`. -/
theorem diag_run (D sx sy : Int) (hD0 : 0 ≤ D) (hD : D ≤ INT_MAX) (hsx : sx = 1 ∨ sx = -1)
    (j : Nat) :
    ∀ (x y : Int),
      (∀ i : Nat, i ≤ j → INT_MIN ≤ x + sx * i ∧ x + sx * i ≤ INT_MAX ∧
        INT_MIN ≤ y + sy * i ∧ y + sy * i ≤ INT_MAX) →
      lineRun (x + sx * j) (y + sy * j) { dx := D, dy := -D, sx := sx, sy := sy } (j + 1)
          { x1 := x, y1 := y, err := 0 } = Except.ok true ∧
        ∀ q, q ∈ visited (x + sx * j) (y + sy * j) { dx := D, dy := -D, sx := sx, sy := sy }
            (j + 1) { x1 := x, y1 := y, err := 0 } ↔
          ∃ i : Nat, i ≤ j ∧ q = (x + sx * i, y + sy * i) := by
  induction j with
  | zero =>
    intro x y _
    have hend : x = x + sx * ((0 : Nat) : Int) ∧ y = y + sy * ((0 : Nat) : Int) := by
      constructor <;> simp
    have hst := lineStep_end (x + sx * ((0 : Nat) : Int)) (y + sy * ((0 : Nat) : Int))
      { dx := D, dy := -D, sx := sx, sy := sy } { x1 := x, y1 := y, err := 0 } hend
    refine ⟨by rw [lineRun_succ, hst], ?_⟩
    intro q
    rw [visited_succ, hst]
    constructor
    · intro h
      refine ⟨0, le_refl 0, ?_⟩
      rw [List.mem_singleton.1 h]
      simp
    · rintro ⟨i, hi, rfl⟩
      obtain rfl : i = 0 := by omega
      simp
  | succ j ih =>
    intro x y hr
    have hr1 := hr 1 (by omega)
    simp only [Nat.cast_one, mul_one] at hr1
    have hend : ¬ (x = x + sx * ((j + 1 : Nat) : Int) ∧ y = y + sy * ((j + 1 : Nat) : Int)) := by
      rintro ⟨h, _⟩
      push_cast at h
      rcases hsx with r | r <;> (rw [r] at h; omega)
    have hst := lineStep_diag (x + sx * ((j + 1 : Nat) : Int)) (y + sy * ((j + 1 : Nat) : Int))
      D sx sy x y hD0 hD hend hr1.1 hr1.2.1 hr1.2.2.1 hr1.2.2.2
    have ex : x + sx * ((j + 1 : Nat) : Int) = x + sx + sx * (j : Int) := by push_cast; ring
    have ey : y + sy * ((j + 1 : Nat) : Int) = y + sy + sy * (j : Int) := by push_cast; ring
    obtain ⟨i1, i2⟩ := ih (x + sx) (y + sy) (fun i hi => by
      have := hr (i + 1) (by omega)
      have e1 : x + sx + sx * (i : Int) = x + sx * ((i + 1 : Nat) : Int) := by push_cast; ring
      have e2 : y + sy + sy * (i : Int) = y + sy * ((i + 1 : Nat) : Int) := by push_cast; ring
      rw [e1, e2]; exact this)
    rw [lineRun_succ, hst]
    dsimp only
    rw [ex, ey]
    refine ⟨i1, ?_⟩
    intro q
    rw [visited_succ, ← ex, ← ey, hst]
    dsimp only
    rw [ex, ey, List.mem_cons, i2 q]
    constructor
    · rintro (h | ⟨i, hi, h⟩)
      · exact ⟨0, by omega, by rw [h]; simp⟩
      · refine ⟨i + 1, by omega, ?_⟩
        rw [h]; push_cast; congr 1 <;> ring
    · rintro ⟨i, hi, h⟩
      cases i with
      | zero => left; rw [h]; simp
      | succ i =>
        right
        refine ⟨i, by omega, ?_⟩
        rw [h]; push_cast; congr 1 <;> ring

/-- On a grid of `height` rows of `width` pixels `drawX` does what the arithmetic of its
two lines does and, when it returns, has made the guarded assignment at every point visited
by the first and then by the second line. -/
theorem drawX_eq (img : BmpImage) (hshape : GridShape img) (hw1 : INT_MIN ≤ img.width - 1)
    (hw2 : img.width - 1 ≤ INT_MAX) (hh1 : INT_MIN ≤ img.height - 1)
    (hh2 : img.height - 1 ≤ INT_MAX) (fuel : Nat) :
    img.drawX fuel =
      match lineArith fuel 0 0 (img.width - 1) (img.height - 1) with
      | Except.error e => Except.error e
      | Except.ok false => Except.ok none
      | Except.ok true =>
        match lineArith fuel (img.width - 1) 0 0 (img.height - 1) with
        | Except.error e => Except.error e
        | Except.ok false => Except.ok none
        | Except.ok true =>
          Except.ok (some ((lineVisited fuel (img.width - 1) 0 0 (img.height - 1)).foldl plotPx
            ((lineVisited fuel 0 0 (img.width - 1) (img.height - 1)).foldl plotPx img))) := by
  unfold BmpImage.drawX
  rw [chkInt_ok _ hw1 hw2, ok_bind, chkInt_ok _ hh1 hh2, ok_bind, drawLine_eq img hshape]
  cases h : lineArith fuel 0 0 (img.width - 1) (img.height - 1) with
  | error e => rfl
  | ok b =>
    cases b with
    | false => rfl
    | true =>
      obtain ⟨s1, s2, s3, _⟩ := plotAll_shape
        (lineVisited fuel 0 0 (img.width - 1) (img.height - 1)) img hshape
      dsimp only
      rw [ok_bind]
      dsimp only
      rw [s2, s3, chkInt_ok _ hw1 hw2, ok_bind, chkInt_ok _ hh1 hh2, ok_bind]
      refine (drawLine_eq _ s1 _ _ _ _ _).trans ?_
      cases lineArith fuel (img.width - 1) 0 0 (img.height - 1) with
      | error e => rfl
      | ok b => cases b <;> rfl

/-- The initialisers of `drawLine` are defined when both differences are at most `INT_MAX`
in absolute value. -/
theorem lineInit_ok (x1 y1 x2 y2 : Int) (hx : |x2 - x1| ≤ INT_MAX)
    (hy : |y2 - y1| ≤ INT_MAX) :
    ∃ p, lineInit x1 y1 x2 y2 = Except.ok (p, { x1 := x1, y1 := y1, err := p.dx + p.dy }) ∧
      LineSetup x1 y1 x2 y2 p ∧ p.dx = |x2 - x1| ∧ -p.dy = |y2 - y1| ∧
      p.sx = (if x1 < x2 then 1 else -1) ∧ p.sy = (if y1 < y2 then 1 else -1) := by
  rcases lineInit_cases x1 y1 x2 y2 with h | h
  swap
  · exact h
  exfalso
  have ex : (if x2 - x1 < 0 then -(x2 - x1) else x2 - x1) = |x2 - x1| := by
    rcases abs_cases (x2 - x1) with ⟨e, _⟩ | ⟨e, _⟩ <;> rw [e] <;> split <;> omega
  have ey : (if y2 - y1 < 0 then -(y2 - y1) else y2 - y1) = |y2 - y1| := by
    rcases abs_cases (y2 - y1) with ⟨e, _⟩ | ⟨e, _⟩ <;> rw [e] <;> split <;> omega
  have ax := abs_nonneg (x2 - x1)
  have ay := abs_nonneg (y2 - y1)
  have bx := neg_abs_le (x2 - x1)
  have cx := le_abs_self (x2 - x1)
  have bY := neg_abs_le (y2 - y1)
  have cy := le_abs_self (y2 - y1)
  unfold INT_MAX at hx hy
  unfold lineInit absInt at h
  rw [chkInt_ok (x2 - x1) (by unfold INT_MIN; omega) (by unfold INT_MAX; omega), ok_bind, ex,
    chkInt_ok _ (by unfold INT_MIN; omega) (by unfold INT_MAX; omega), ok_bind,
    chkInt_ok (y2 - y1) (by unfold INT_MIN; omega) (by unfold INT_MAX; omega), ok_bind, ey,
    chkInt_ok _ (by unfold INT_MIN; omega) (by unfold INT_MAX; omega), ok_bind,
    chkInt_ok _ (by unfold INT_MIN; omega) (by unfold INT_MAX; omega), ok_bind,
    chkInt_ok _ (by unfold INT_MIN; omega) (by unfold INT_MAX; omega), ok_bind] at h
  cases h

/-- The two lines of `drawX` on an `n x n` image: each ends after `n` iterations without
overflow and visits the `n` points of its diagonal. -/
theorem diag_line (x1 x2 : Int) (n : Nat) (hn : 1 ≤ n) (hmax : (n : Int) ≤ INT_MAX)
    (hx : (x1 = 0 ∧ x2 = (n : Int) - 1) ∨ (x1 = (n : Int) - 1 ∧ x2 = 0)) :
    lineArith n x1 0 x2 ((n : Int) - 1) = Except.ok true ∧
      ∀ q, q ∈ lineVisited n x1 0 x2 ((n : Int) - 1) ↔
        ∃ i : Nat, i < n ∧ q = ((if x1 = 0 then (i : Int) else (n : Int) - 1 - i), (i : Int)) := by
  have hmax' : (n : Int) ≤ 2147483647 := hmax
  have hax : |x2 - x1| = (n : Int) - 1 := by
    rcases hx with ⟨r1, r2⟩ | ⟨r1, r2⟩ <;> rw [r1, r2]
    · rw [sub_zero]; exact abs_of_nonneg (by omega)
    · rw [zero_sub, abs_neg]; exact abs_of_nonneg (by omega)
  have hay : |(n : Int) - 1 - 0| = (n : Int) - 1 := by
    rw [sub_zero]; exact abs_of_nonneg (by omega)
  obtain ⟨p, hi, hs, hdx, hdy, hsx, hsy⟩ := lineInit_ok x1 0 x2 ((n : Int) - 1)
    (by rw [hax]; unfold INT_MAX; omega) (by rw [hay]; unfold INT_MAX; omega)
  obtain ⟨dx, dy, sx, sy⟩ := p
  dsimp only at hi hdx hdy hsx hsy
  rw [hax] at hdx
  rw [hay] at hdy
  obtain rfl : dy = -dx := by omega
  subst hdx
  obtain ⟨j, rfl⟩ : ∃ j, n = j + 1 := ⟨n - 1, by omega⟩
  have eD : ((j + 1 : Nat) : Int) - 1 = (j : Int) := by push_cast; ring
  simp only [eD] at hi hsx hsy hx ⊢
  rw [add_neg_cancel] at hi
  have kx : ∀ i : Nat, i ≤ j → x1 + sx * (i : Int) = if x1 = 0 then (i : Int) else (j : Int) - i := by
    intro i hij
    rcases hx with ⟨r1, r2⟩ | ⟨r1, r2⟩
    · rw [r1, r2] at hsx
      rw [if_pos r1, r1, hsx]
      split
      · ring
      · omega
    · rw [r1, r2] at hsx
      have hs1 : sx = -1 := by rw [hsx, if_neg (by omega)]
      rw [hs1, r1]
      split
      · omega
      · ring
  have ky : ∀ i : Nat, i ≤ j → (0 : Int) + sy * (i : Int) = (i : Int) := by
    intro i hij
    rw [hsy]
    split
    · ring
    · omega
  have ex : x1 + sx * (j : Int) = x2 := by
    rw [kx j (le_refl j)]
    rcases hx with ⟨r1, r2⟩ | ⟨r1, r2⟩
    · rw [if_pos r1, r2]
    · rw [r2]; split <;> omega
  have hrun := diag_run (j : Int) sx sy (by omega) (by unfold INT_MAX; omega) hs.sx_unit j x1 0
    (fun i hij => by
      rw [kx i hij, ky i hij]
      unfold INT_MIN INT_MAX
      rcases hx with ⟨r1, r2⟩ | ⟨r1, r2⟩
      · rw [if_pos r1]; omega
      · split <;> omega)
  rw [ex, ky j (le_refl j)] at hrun
  unfold lineArith lineVisited
  rw [hi, ok_bind]
  refine ⟨hrun.1, ?_⟩
  intro q
  dsimp only
  rw [hrun.2 q]
  constructor
  · rintro ⟨i, hij, h⟩
    refine ⟨i, by omega, ?_⟩
    rw [h, kx i hij, ky i hij]
  · rintro ⟨i, hij, h⟩
    refine ⟨i, by omega, ?_⟩
    rw [h, kx i (by omega), ky i (by omega)]

theorem mem_diag1 (n x y : Nat) (hx : x < n) :
    (∃ i : Nat, i < n ∧ (((x : Int), (y : Int)) : Int × Int) =
      ((if (0 : Int) = 0 then (i : Int) else (n : Int) - 1 - i), (i : Int))) ↔ x = y := by
  constructor
  · rintro ⟨i, _, h⟩
    have h1 := congrArg Prod.fst h
    have h2 := congrArg Prod.snd h
    dsimp only at h1 h2
    rw [if_pos rfl] at h1
    omega
  · intro h
    exact ⟨x, hx, by rw [if_pos rfl, h]⟩

theorem mem_diag2 (n x y : Nat) (hx : x < n) (hy : y < n) :
    (∃ i : Nat, i < n ∧ (((x : Int), (y : Int)) : Int × Int) =
      ((if (n : Int) - 1 = 0 then (i : Int) else (n : Int) - 1 - i), (i : Int))) ↔
      x + y = n - 1 := by
  constructor
  · rintro ⟨i, hi, h⟩
    have h1 := congrArg Prod.fst h
    have h2 := congrArg Prod.snd h
    dsimp only at h1 h2
    split at h1 <;> omega
  · intro h
    refine ⟨y, hy, ?_⟩
    congr 1
    split <;> omega

theorem white10_px (x y : Nat) (hx : x < 10) (hy : y < 10) :
    ∃ p, getPx white10.pixels y x = Except.ok p ∧ isWhite p = true := by
  refine ⟨{ r := 255, g := 255, b := 255 }, ?_, rfl⟩
  unfold getPx white10
  dsimp only
  rw [List.getElem?_replicate, if_pos hy]
  dsimp only
  rw [List.getElem?_replicate, if_pos hx]
  rfl

/-! ## The two lines of `drawX` in lockstep -/

theorem chkInt_fits (v : Int) (h : InInt v) : chkInt v = Except.ok v :=
  chkInt_ok v h.1 h.2

theorem chkInt_unfit (v : Int) (h : ¬ InInt v) : chkInt v = Except.error Fault.undefined := by
  unfold InInt at h
  unfold chkInt
  rw [if_neg h]
  rfl

/-- An iteration past the `break` test does what the loop body does on unbounded integers
when all its operations fit in `int`, and is undefined otherwise. -/
theorem lineStep_char (x2 y2 : Int) (p : LineParams) (s : LineState)
    (hend : ¬ (s.x1 = x2 ∧ s.y1 = y2)) :
    (StepFits p s ∧ lineStep x2 y2 p s = Except.ok (idealStep x2 y2 p s)) ∨
      (¬ StepFits p s ∧ lineStep x2 y2 p s = Except.error Fault.undefined) := by
  unfold lineStep idealStep StepFits
  rw [if_neg hend, if_neg hend]
  by_cases r0 : InInt (2 * s.err)
  swap
  · refine Or.inr ⟨fun h => r0 h.1, ?_⟩
    simp only [chkInt_unfit _ r0, error_bind]
  rw [chkInt_fits _ r0, ok_bind]
  dsimp only
  by_cases c1 : 2 * s.err ≥ p.dy
  · rw [if_pos c1, if_pos c1, if_pos c1]
    by_cases r1 : InInt (s.err + p.dy)
    swap
    · refine Or.inr ⟨fun h => r1 (h.2.1 c1).1, ?_⟩
      simp only [chkInt_unfit _ r1, error_bind]
    rw [chkInt_fits _ r1, ok_bind]
    by_cases r2 : InInt (s.x1 + p.sx)
    swap
    · refine Or.inr ⟨fun h => r2 (h.2.1 c1).2, ?_⟩
      simp only [chkInt_unfit _ r2, error_bind]
    rw [chkInt_fits _ r2, ok_bind, pure_eq_ok, ok_bind]
    dsimp only
    by_cases c2 : 2 * s.err ≤ p.dx
    · rw [if_pos c2, if_pos c2]
      by_cases r3 : InInt (s.err + p.dy + p.dx)
      swap
      · refine Or.inr ⟨fun h => r3 (h.2.2 c2).1, ?_⟩
        simp only [chkInt_unfit _ r3, error_bind]
      rw [chkInt_fits _ r3, ok_bind]
      by_cases r4 : InInt (s.y1 + p.sy)
      swap
      · refine Or.inr ⟨fun h => r4 (h.2.2 c2).2, ?_⟩
        simp only [chkInt_unfit _ r4, error_bind]
      rw [chkInt_fits _ r4, ok_bind, pure_eq_ok, ok_bind]
      exact Or.inl ⟨⟨r0, fun _ => ⟨r1, r2⟩, fun _ => ⟨r3, r4⟩⟩, rfl⟩
    · rw [if_neg c2, if_neg c2, pure_eq_ok, ok_bind]
      exact Or.inl ⟨⟨r0, fun _ => ⟨r1, r2⟩, fun h => absurd h c2⟩, rfl⟩
  · rw [if_neg c1, if_neg c1, if_neg c1, pure_eq_ok, ok_bind]
    by_cases c2 : 2 * s.err ≤ p.dx
    · rw [if_pos c2, if_pos c2]
      by_cases r3 : InInt (s.err + p.dx)
      swap
      · refine Or.inr ⟨fun h => r3 (h.2.2 c2).1, ?_⟩
        simp only [chkInt_unfit _ r3, error_bind]
      rw [chkInt_fits _ r3, ok_bind]
      by_cases r4 : InInt (s.y1 + p.sy)
      swap
      · refine Or.inr ⟨fun h => r4 (h.2.2 c2).2, ?_⟩
        simp only [chkInt_unfit _ r4, error_bind]
      rw [chkInt_fits _ r4, ok_bind, pure_eq_ok, ok_bind]
      exact Or.inl ⟨⟨r0, fun h => absurd h c1, fun _ => ⟨r3, r4⟩⟩, rfl⟩
    · rw [if_neg c2, if_neg c2, pure_eq_ok, ok_bind]
      exact Or.inl ⟨⟨r0, fun h => absurd h c1, fun h => absurd h c2⟩, rfl⟩

/-- Before the end of the line an x step is taken only while x has not reached its end. -/
theorem inv_xstep (x1 y1 : Int) (p : LineParams) (hdx : 0 ≤ p.dx) (k : Nat) (s : LineState)
    (hinv : LineInv x1 y1 p k s) (hk : (k : Int) < max p.dx (-p.dy))
    (hc : 2 * s.err ≥ p.dy) : ∃ a : Int, 0 ≤ a ∧ a < p.dx ∧ s.x1 = x1 + p.sx * a := by
  obtain ⟨D, dy, sx, sy⟩ := p
  obtain ⟨x, y, err⟩ := s
  obtain ⟨E, rfl⟩ : ∃ E, dy = -E := ⟨-dy, by ring⟩
  obtain ⟨a, b, ha0, haD, hb0, hbE, hx, hy, herr, hlo, hhi, hkx, hky⟩ := hinv
  simp only [neg_neg] at *
  have hxs := arith_xstep D E a b k hdx haD hb0 hkx hky hk
  rw [← herr] at hxs
  exact ⟨a, ha0, hxs hc, hx⟩

/-- An iteration of the second line of `drawX` from the mirrored state does the mirror image
of what the iteration of the first line does. -/
theorem mirror_step (W y2 : Int) (p : LineParams) (hs : LineSetup 0 0 (W - 1) y2 p)
    (hW : 1 ≤ W) (hWmax : W ≤ INT_MAX) (hdx : p.dx = W - 1)
    (hsx : p.sx = if 0 < W - 1 then 1 else -1) (k : Nat) (s : LineState)
    (hinv : LineInv 0 0 p k s) :
    lineStep 0 y2 { p with sx := -1 } (mirrorState W s) =
      match lineStep (W - 1) y2 p s with
      | Except.error e => Except.error e
      | Except.ok o => Except.ok (o.map (mirrorState W)) := by
  have hWmax' : W ≤ 2147483647 := hWmax
  by_cases hend : s.x1 = W - 1 ∧ s.y1 = y2
  · have hendB : (mirrorState W s).x1 = 0 ∧ (mirrorState W s).y1 = y2 := by
      refine ⟨?_, hend.2⟩
      show W - 1 - s.x1 = 0
      omega
    rw [lineStep_end _ _ _ _ hend, lineStep_end _ _ _ _ hendB]
    rfl
  · have hendB : ¬ ((mirrorState W s).x1 = 0 ∧ (mirrorState W s).y1 = y2) := by
      rintro ⟨h1, h2⟩
      apply hend
      have : W - 1 - s.x1 = 0 := h1
      exact ⟨by omega, h2⟩
    have hk : (k : Int) < max p.dx (-p.dy) := by
      rcases lt_or_eq_of_le (inv_le 0 0 p k s hinv) with c | c
      · exact c
      · exact absurd (inv_end 0 0 (W - 1) y2 p hs k s hinv c) hend
    have hkey : 2 * s.err ≥ p.dy → p.sx = 1 ∧ 0 ≤ s.x1 ∧ s.x1 + 1 ≤ W - 1 := by
      intro hc
      obtain ⟨a, ha0, ha, hx⟩ := inv_xstep 0 0 p hs.dx_nonneg k s hinv hk hc
      have h1 : p.sx = 1 := by rw [hsx, if_pos (by omega)]
      rw [h1] at hx
      exact ⟨h1, by omega, by omega⟩
    have hfit : StepFits p s ↔ StepFits { p with sx := -1 } (mirrorState W s) := by
      constructor
      · rintro ⟨h0, h1, h2⟩
        refine ⟨h0, fun c => ⟨(h1 c).1, ?_⟩, h2⟩
        obtain ⟨_, k1, k2⟩ := hkey c
        show INT_MIN ≤ W - 1 - s.x1 + -1 ∧ W - 1 - s.x1 + -1 ≤ INT_MAX
        unfold INT_MIN INT_MAX
        omega
      · rintro ⟨h0, h1, h2⟩
        refine ⟨h0, fun c => ⟨(h1 c).1, ?_⟩, h2⟩
        obtain ⟨k0, k1, k2⟩ := hkey c
        rw [k0]
        show INT_MIN ≤ s.x1 + 1 ∧ s.x1 + 1 ≤ INT_MAX
        unfold INT_MIN INT_MAX
        omega
    have hideal : idealStep 0 y2 { p with sx := -1 } (mirrorState W s) =
        (idealStep (W - 1) y2 p s).map (mirrorState W) := by
      unfold idealStep
      rw [if_neg hend, if_neg hendB]
      dsimp only [mirrorState]
      by_cases c1 : 2 * s.err ≥ p.dy
      · obtain ⟨k0, _, _⟩ := hkey c1
        rw [if_pos c1, if_pos c1, k0]
        by_cases c2 : 2 * s.err ≤ p.dx
        · rw [if_pos c2, if_pos c2]
          show some _ = some _
          congr 2
          ring
        · rw [if_neg c2, if_neg c2]
          show some _ = some _
          congr 2
          ring
      · rw [if_neg c1, if_neg c1]
        by_cases c2 : 2 * s.err ≤ p.dx
        · rw [if_pos c2, if_pos c2]
          rfl
        · rw [if_neg c2, if_neg c2]
          rfl
    rcases lineStep_char (W - 1) y2 p s hend with ⟨fA, eA⟩ | ⟨nfA, eA⟩
    · rcases lineStep_char 0 y2 { p with sx := -1 } (mirrorState W s) hendB with
        ⟨_, eB⟩ | ⟨nfB, _⟩
      · rw [eA, eB, hideal]
      · exact absurd (hfit.1 fA) nfB
    · rcases lineStep_char 0 y2 { p with sx := -1 } (mirrorState W s) hendB with
        ⟨fB, _⟩ | ⟨_, eB⟩
      · exact absurd (hfit.2 fB) nfA
      · rw [eA, eB]

/-- The second line of `drawX` runs in lockstep with the first: same arithmetic, mirrored
points. -/
theorem mirror_run (W y2 : Int) (p : LineParams) (hs : LineSetup 0 0 (W - 1) y2 p)
    (hW : 1 ≤ W) (hWmax : W ≤ INT_MAX) (hdx : p.dx = W - 1)
    (hsx : p.sx = if 0 < W - 1 then 1 else -1) (n : Nat) :
    ∀ (k : Nat) (s : LineState), LineInv 0 0 p k s →
      visited 0 y2 { p with sx := -1 } n (mirrorState W s) =
          (visited (W - 1) y2 p n s).map (mirrorPt W) ∧
        lineRun 0 y2 { p with sx := -1 } n (mirrorState W s) = lineRun (W - 1) y2 p n s := by
  induction n with
  | zero => intro k s _; exact ⟨rfl, rfl⟩
  | succ n ih =>
    intro k s hinv
    have hm := mirror_step W y2 p hs hW hWmax hdx hsx k s hinv
    rw [visited_succ, visited_succ, lineRun_succ, lineRun_succ, hm]
    cases hst : lineStep (W - 1) y2 p s with
    | error e => exact ⟨rfl, rfl⟩
    | ok o =>
      cases o with
      | none => exact ⟨rfl, rfl⟩
      | some s' =>
        obtain ⟨_, hinv', _⟩ := lineStep_some 0 0 (W - 1) y2 p hs k s s' hinv hst
        obtain ⟨i1, i2⟩ := ih (k + 1) s' hinv'
        dsimp only [Option.map]
        rw [i1, i2]
        exact ⟨rfl, rfl⟩

/-- The line `drawLine(W - 1, 0, 0, H - 1)` visits, iteration by iteration, the mirror
images of the points of `drawLine(0, 0, W - 1, H - 1)`, with the same arithmetic. -/
theorem mirror_line (W H : Int) (hW : 1 ≤ W) (hWmax : W ≤ INT_MAX) (hH : 1 ≤ H)
    (hHmax : H ≤ INT_MAX) (n : Nat) :
    lineVisited n (W - 1) 0 0 (H - 1) = (lineVisited n 0 0 (W - 1) (H - 1)).map (mirrorPt W) ∧
      lineArith n (W - 1) 0 0 (H - 1) = lineArith n 0 0 (W - 1) (H - 1) := by
  have hWmax' : W ≤ 2147483647 := hWmax
  have hHmax' : H ≤ 2147483647 := hHmax
  have a1 : |W - 1 - 0| = W - 1 := by rw [sub_zero]; exact abs_of_nonneg (by omega)
  have a2 : |0 - (W - 1)| = W - 1 := by rw [zero_sub, abs_neg]; exact abs_of_nonneg (by omega)
  have a3 : |H - 1 - 0| = H - 1 := by rw [sub_zero]; exact abs_of_nonneg (by omega)
  obtain ⟨pA, iA, sA, dxA, dyA, sxA, syA⟩ := lineInit_ok 0 0 (W - 1) (H - 1)
    (by rw [a1]; unfold INT_MAX; omega) (by rw [a3]; unfold INT_MAX; omega)
  obtain ⟨pB, iB, sB, dxB, dyB, sxB, syB⟩ := lineInit_ok (W - 1) 0 0 (H - 1)
    (by rw [a2]; unfold INT_MAX; omega) (by rw [a3]; unfold INT_MAX; omega)
  rw [a1] at dxA
  rw [a2] at dxB
  have eB : pB = { pA with sx := -1 } := by
    obtain ⟨d1, d2, d3, d4⟩ := pA
    obtain ⟨e1, e2, e3, e4⟩ := pB
    dsimp only at *
    have h3 : e3 = -1 := by rw [sxB, if_neg (by omega)]
    have h2 : e2 = d2 := by omega
    rw [dxA, dxB, h2, h3, syA, syB]
  have hst : ({ x1 := W - 1, y1 := 0, err := pB.dx + pB.dy } : LineState) =
      mirrorState W { x1 := 0, y1 := 0, err := pA.dx + pA.dy } := by
    unfold mirrorState
    rw [eB, sub_zero]
  obtain ⟨r1, r2⟩ := mirror_run W (H - 1) pA sA hW hWmax dxA sxA n 0 _
    (inv_init 0 0 (W - 1) (H - 1) pA sA)
  unfold lineVisited lineArith
  rw [iA, iB, ok_bind, ok_bind]
  dsimp only
  rw [hst, eB, r1, r2]
  exact ⟨rfl, rfl⟩

theorem mirrorPt_mirrorPt (W : Int) (q : Int × Int) : mirrorPt W (mirrorPt W q) = q := by
  unfold mirrorPt
  apply Prod.ext <;> dsimp only
  omega

theorem mem_map_mirrorPt (W : Int) (l : List (Int × Int)) (q : Int × Int) :
    q ∈ l.map (mirrorPt W) ↔ mirrorPt W q ∈ l := by
  rw [List.mem_map]
  constructor
  · rintro ⟨r, hr, rfl⟩
    rw [mirrorPt_mirrorPt]; exact hr
  · intro h
    exact ⟨_, h, mirrorPt_mirrorPt W q⟩

/-- The pixels of the image after the two lines of `drawX`: black where one of the lines
passed, unchanged elsewhere. -/
theorem drawX_get (img : BmpImage) (hshape : GridShape img) (A B : List (Int × Int))
    (x y : Nat) (hx : (x : Int) < img.width) (hy : (y : Int) < img.height) :
    getPx (B.foldl plotPx (A.foldl plotPx img)).pixels y x =
      if ((x : Int), (y : Int)) ∈ A ∨ ((x : Int), (y : Int)) ∈ B then Except.ok Pixel.black
      else getPx img.pixels y x := by
  obtain ⟨s1, s2, s3, _⟩ := plotAll_shape A img hshape
  rw [plotAll_get _ _ s1, plotAll_get _ _ hshape, s2, s3]
  by_cases b : ((x : Int), (y : Int)) ∈ B
  · rw [if_pos ⟨b, hx, hy⟩, if_pos (Or.inr b)]
  · rw [if_neg (fun h => b h.1)]
    by_cases a : ((x : Int), (y : Int)) ∈ A
    · rw [if_pos ⟨a, hx, hy⟩, if_pos (Or.inl a)]
    · rw [if_neg (fun h => a h.1), if_neg (fun h => h.elim a b)]

/-- When `drawX` returns on a grid of `height` rows of `width` pixels, the image is the one
with the guarded assignments made along both lines. -/
theorem drawX_some (img img' : BmpImage) (hshape : GridShape img)
    (hw1 : INT_MIN ≤ img.width - 1) (hw2 : img.width - 1 ≤ INT_MAX)
    (hh1 : INT_MIN ≤ img.height - 1) (hh2 : img.height - 1 ≤ INT_MAX) (fuel : Nat)
    (h : img.drawX fuel = Except.ok (some img')) :
    img' = (lineVisited fuel (img.width - 1) 0 0 (img.height - 1)).foldl plotPx
      ((lineVisited fuel 0 0 (img.width - 1) (img.height - 1)).foldl plotPx img) := by
  rw [drawX_eq img hshape hw1 hw2 hh1 hh2] at h
  cases h1 : lineArith fuel 0 0 (img.width - 1) (img.height - 1) with
  | error e => rw [h1] at h; cases h
  | ok b =>
    cases b with
    | false => rw [h1] at h; cases h
    | true =>
      rw [h1] at h
      dsimp only at h
      cases h2 : lineArith fuel (img.width - 1) 0 0 (img.height - 1) with
      | error e => rw [h2] at h; cases h
      | ok b =>
        cases b with
        | false => rw [h2] at h; cases h
        | true =>
          rw [h2] at h
          exact (Option.some.inj (Except.ok.inj h)).symm

/-! ## `load` on any file, truncated or not -/

/-- A read of `rowSize` bytes into the row buffer, for a stream that is either good and at
position `pos` or failed with the file ending at or before `pos`. -/
theorem read_fill (s : IStream) (pos rowSize : Nat) (buf : List Byte)
    (hs : (s.failed = false ∧ s.pos = pos) ∨ (s.failed = true ∧ s.data.length ≤ pos)) :
    (s.read buf rowSize).2 =
        (s.data.drop pos).take rowSize ++ buf.drop ((s.data.drop pos).take rowSize).length ∧
      (s.read buf rowSize).1.data = s.data ∧
      (((s.read buf rowSize).1.failed = false ∧ (s.read buf rowSize).1.pos = pos + rowSize) ∨
        ((s.read buf rowSize).1.failed = true ∧ s.data.length ≤ pos + rowSize)) := by
  unfold IStream.read IStream.readRaw
  rcases hs with ⟨hf, hp⟩ | ⟨hf, hl⟩
  · rw [hf]
    simp only [Bool.false_eq_true, if_false]
    rw [hp]
    refine ⟨rfl, trivial, ?_⟩
    by_cases c : ((s.data.drop pos).take rowSize).length < rowSize
    · right
      refine ⟨decide_eq_true c, ?_⟩
      rw [List.length_take, List.length_drop] at c
      omega
    · left
      refine ⟨decide_eq_false c, ?_⟩
      show pos + ((s.data.drop pos).take rowSize).length = pos + rowSize
      have := List.length_take_le rowSize (s.data.drop pos)
      omega
  · rw [hf]
    simp only [if_true]
    have e : (s.data.drop pos).take rowSize = [] := by
      rw [List.drop_eq_nil_of_le hl, List.take_nil]
    rw [e]
    exact ⟨rfl, trivial, Or.inr ⟨hf, by omega⟩⟩

theorem read_length (s : IStream) (buf : List Byte) (n : Nat) (hb : buf.length = n) :
    (s.read buf n).2.length = n := by
  unfold IStream.read
  have h : (s.readRaw n).2.length ≤ n := by
    unfold IStream.readRaw
    split
    · exact Nat.zero_le _
    · exact List.length_take_le _ _
  rw [List.length_append, List.length_drop]
  omega

/-- The outer loop of `load` on any stream: it decodes the rows that the row buffer holds
after each read, whether or not the reads succeeded. -/
theorem loadRows_fill (bitCount : Int) (hbc : bitCount = 24 ∨ bitCount = 32)
    (width rowSize : Nat) (hrs : width * (bitCount.tdiv 8).toNat ≤ rowSize)
    (n : Nat) (s : IStream) (pos : Nat) (buf : List Byte) (g : Grid)
    (hs : (s.failed = false ∧ s.pos = pos) ∨ (s.failed = true ∧ s.data.length ≤ pos))
    (hb : buf.length = rowSize)
    (hg : ∀ y, y < n → ∃ r, g[y]? = some r ∧ width ≤ r.length) :
    loadRows bitCount width rowSize n s buf g =
      Except.ok (decodeRows bitCount width rowSize n (fillRows s.data rowSize n pos buf) g) := by
  induction n generalizing s pos buf g with
  | zero => rfl
  | succ n ih =>
    rcases hg n (by omega) with ⟨r, hr, hrw⟩
    obtain ⟨e1, e2, e3⟩ := read_fill s pos rowSize buf hs
    have hlen := read_length s buf rowSize hb
    have hcols := loadCols_eq bitCount hbc (s.read buf rowSize).2 n width 0 g r hr
      (by omega) (by rw [hlen]; simpa using hrs)
    have hD : g.getD n [] = r := by
      rw [List.getD_eq_getElem?_getD, hr]; rfl
    have hfill : fillRows s.data rowSize (n + 1) pos buf =
        (s.read buf rowSize).2 ++
          fillRows s.data rowSize n (pos + rowSize) (s.read buf rowSize).2 := by
      rw [e1]; rfl
    have htake : (fillRows s.data rowSize (n + 1) pos buf).take rowSize =
        (s.read buf rowSize).2 := by
      rw [hfill, List.take_append_of_le_length (by omega), List.take_of_length_le (by omega)]
    have hdrop : (fillRows s.data rowSize (n + 1) pos buf).drop rowSize =
        fillRows s.data rowSize n (pos + rowSize) (s.read buf rowSize).2 := by
      rw [hfill, List.drop_append_of_le_length (by omega), List.drop_eq_nil_of_le (by omega),
        List.nil_append]
    unfold loadRows decodeRows
    simp only [hcols, ok_bind, hD, htake, hdrop]
    cases hc : (decodeCols bitCount (s.read buf rowSize).2 width 0 r).2 with
    | some x => rfl
    | none =>
      simp only
      rw [ih (s.read buf rowSize).1 (pos + rowSize) _ _ (by rw [e2]; exact e3) hlen, e2]
      intro y hy
      rcases hg y (by omega) with ⟨r', hr', hrw'⟩
      refine ⟨r', ?_, hrw'⟩
      rw [List.getElem?_set_ne (by omega)]
      exact hr'

theorem rowSize_inv (w : Int) (bc : Nat) (rs : Nat) (h : rowSize w bc = Except.ok rs) :
    INT_MIN ≤ w * bc ∧ w * bc + 31 ≤ INT_MAX := by
  unfold rowSize rowSizeInt at h
  by_cases c1 : INT_MIN ≤ w * bc ∧ w * bc ≤ INT_MAX
  · by_cases c2 : INT_MIN ≤ w * bc + 31 ∧ w * bc + 31 ≤ INT_MAX
    · exact ⟨c1.1, c2.2⟩
    · rw [chkInt_ok _ c1.1 c1.2, ok_bind, chkInt_unfit _ c2] at h
      simp only [error_bind] at h
      cases h
  · rw [chkInt_unfit _ c1] at h
    simp only [error_bind] at h
    cases h

theorem absInt_inv (v w : Int) (h : absInt v = Except.ok w) : 0 ≤ w ∧ w ≤ INT_MAX := by
  unfold absInt at h
  obtain ⟨e, _, h2⟩ := chkInt_inv _ _ h
  refine ⟨?_, by rw [e]; exact h2⟩
  rw [e]
  split <;> omega

theorem allocVec_inv {α : Type} (elemSize n : Nat) (x : α) (l : List α)
    (h : allocVec elemSize n x = Except.ok l) : n ≤ vecMaxSize elemSize ∧ l = List.replicate n x := by
  unfold allocVec at h
  by_cases c : n ≤ vecMaxSize elemSize
  · rw [if_pos c] at h
    exact ⟨c, (Except.ok.inj h).symm⟩
  · rw [if_neg c] at h
    cases h

theorem seekg_inv (s : IStream) (off : Nat) :
    (s.seekg off).data = s.data ∧
      (((s.seekg off).failed = false ∧ (s.seekg off).pos = if s.failed then s.data.length else off) ∨
        ((s.seekg off).failed = true ∧
          (s.seekg off).data.length ≤ if s.failed then s.data.length else off)) := by
  unfold IStream.seekg
  cases hf : s.failed with
  | false => exact ⟨rfl, Or.inl ⟨rfl, rfl⟩⟩
  | true =>
    rw [if_pos rfl, if_pos rfl]
    exact ⟨rfl, Or.inr ⟨hf, le_refl _⟩⟩

/-- What a successful `load` into a fresh image has done: for a width `W`, a height `H` and
a bit depth `bc` that fit, it has decoded `H` rows of `W` pixels without meeting a pixel that
is neither black nor white, from the bytes the row buffer held after each read. -/
theorem load_fresh_success (file : Option (List Byte)) (out : LoadOut)
    (h : BmpImage.fresh.load file = Except.ok out) (hret : out.ret = true) :
    ∃ (W H bc : Nat) (rest : List Byte), (bc = 24 ∨ bc = 32) ∧
      (W : Int) * bc + 31 ≤ INT_MAX ∧ (H : Int) ≤ INT_MAX ∧
      decodeRows bc W (rowStride W bc) H rest
        (List.replicate H (List.replicate W Pixel.init)) = (out.img.pixels, none) ∧
      out.img.width = W ∧ out.img.height = H ∧ out.img.bitCount = bc := by
  have hfalse : ∀ (c : Option Msg) (i : BmpImage),
      (pure { ret := false, cerr := c, img := i } : Except Fault LoadOut) = Except.ok out →
        False := by
    intro c i hc
    have e : out = { ret := false, cerr := c, img := i } := (Except.ok.inj hc).symm
    rw [e] at hret
    cases hret
  cases file with
  | none => exact (hfalse _ _ h).elim
  | some data =>
    unfold BmpImage.load at h
    dsimp only at h
    generalize (IStream.readRaw (IStream.readRaw { data := data, pos := 0, failed := false }
      sizeofFileHeader).1 sizeofInfoHeader).1 = s at h
    generalize (IStream.readRaw (IStream.readRaw { data := data, pos := 0, failed := false }
      sizeofFileHeader).1 sizeofInfoHeader).2 = ih at h
    generalize (IStream.readRaw { data := data, pos := 0, failed := false }
      sizeofFileHeader).2 = fh at h
    cases e1 : bfType fh with
    | error x => rw [e1, error_bind] at h; cases h
    | ok ty =>
    rw [e1, ok_bind] at h
    by_cases c1 : ty ≠ 19778
    · rw [if_pos c1] at h; exact (hfalse _ _ h).elim
    rw [if_neg c1] at h
    cases e2 : biCompression ih with
    | error x => rw [e2, error_bind] at h; cases h
    | ok comp =>
    rw [e2, ok_bind] at h
    by_cases c2 : comp ≠ 0
    · rw [if_pos c2] at h; exact (hfalse _ _ h).elim
    rw [if_neg c2] at h
    cases e3 : biWidth ih with
    | error x => rw [e3, error_bind] at h; cases h
    | ok width =>
    rw [e3, ok_bind] at h
    cases e4 : biHeight ih with
    | error x => rw [e4, error_bind] at h; cases h
    | ok hraw =>
    rw [e4, ok_bind] at h
    cases e5 : absInt hraw with
    | error x => rw [e5, error_bind] at h; cases h
    | ok height =>
    rw [e5, ok_bind] at h
    cases e6 : biBitCount ih with
    | error x => rw [e6, error_bind] at h; cases h
    | ok bc =>
    rw [e6, ok_bind] at h
    by_cases c3 : (bc : Int) ≠ 24 ∧ (bc : Int) ≠ 32
    · rw [if_pos c3] at h; exact (hfalse _ _ h).elim
    rw [if_neg c3] at h
    cases e7 : bfOffBits fh with
    | error x => rw [e7, error_bind] at h; cases h
    | ok off =>
    rw [e7, ok_bind] at h
    cases e8 : rowSize width bc with
    | error x => rw [e8, error_bind] at h; cases h
    | ok rs =>
    rw [e8, ok_bind] at h
    cases e9 : allocVec 1 rs (0 : Byte) with
    | error x => rw [e9, error_bind] at h; cases h
    | ok row =>
    rw [e9, ok_bind] at h
    cases e10 : allocVec 4 (toSizeT width) Pixel.init with
    | error x => rw [e10, error_bind] at h; cases h
    | ok proto =>
    rw [e10, ok_bind] at h
    have hbc : bc = 24 ∨ bc = 32 := by omega
    have hbcI : (bc : Int) = 24 ∨ (bc : Int) = 32 := by omega
    obtain ⟨r1, r2⟩ := rowSize_inv width bc rs e8
    have hwmin : INT_MIN ≤ width := by
      unfold INT_MIN at r1 ⊢
      rcases hbcI with e | e <;> (rw [e] at r1; omega)
    have hw0 : 0 ≤ width := by
      by_contra hn
      rw [allocVec_neg width Pixel.init hwmin (by omega)] at e10
      cases e10
    obtain ⟨W, rfl⟩ := Int.eq_ofNat_of_zero_le hw0
    obtain ⟨hh0, hhmax⟩ := absInt_inv hraw height e5
    obtain ⟨H, rfl⟩ := Int.eq_ofNat_of_zero_le hh0
    rw [rowSize_eq (W : Int) bc hw0 r2, Int.toNat_natCast] at e8
    have ers : rs = rowStride W bc := (Except.ok.inj e8).symm
    have hWlt : W < 2 ^ 64 := by unfold INT_MAX at r2; rcases hbcI with e | e <;> (rw [e] at r2; omega)
    have hHlt : H < 2 ^ 64 := by unfold INT_MAX at hhmax; omega
    rw [toSizeT_natCast W hWlt] at e10
    obtain ⟨_, erow⟩ := allocVec_inv 1 rs (0 : Byte) row e9
    obtain ⟨_, eproto⟩ := allocVec_inv 4 W Pixel.init proto e10
    have hstride : W * ((bc : Int).tdiv 8).toNat ≤ rowStride W bc := by
      rw [bpp_cast bc hbc]; exact stride_ge W bc hbc
    obtain ⟨sd, sinv⟩ := seekg_inv s off
    have hg0 : resizeRows BmpImage.fresh.pixels (toSizeT (H : Int)) proto =
        List.replicate H (List.replicate W Pixel.init) := by
      rw [toSizeT_natCast H hHlt, eproto]
      exact resizeRows_nil _ _
    have hrows := loadRows_fill (bc : Int) hbcI W (rowStride W bc) hstride H (s.seekg off)
      (if s.failed then s.data.length else off) row
      (List.replicate H (List.replicate W Pixel.init)) sinv
      (by rw [erow, List.length_replicate, ers])
      (fun y hy => ⟨_, by rw [List.getElem?_replicate, if_pos hy], by
        rw [List.length_replicate]⟩)
    rw [Int.toNat_natCast, Int.toNat_natCast, hg0, ers, hrows, ok_bind] at h
    refine ⟨W, H, bc, fillRows (s.seekg off).data (rowStride W bc) H
      (if s.failed then s.data.length else off) row, hbc, r2, hhmax, ?_⟩
    generalize decodeRows (bc : Int) W (rowStride W bc) H
      (fillRows (s.seekg off).data (rowStride W bc) H
        (if s.failed then s.data.length else off) row)
      (List.replicate H (List.replicate W Pixel.init)) = d at h ⊢
    obtain ⟨d1, d2⟩ := d
    cases d2 with
    | some xy => exact (hfalse _ _ h).elim
    | none =>
      have e : out = LoadOut.mk true none (BmpImage.mk (W : Int) (H : Int) (bc : Int) d1) :=
        (Except.ok.inj h).symm
      rw [e]
      exact ⟨rfl, rfl, rfl, rfl⟩

/-- When the decoding of `H` rows of `W` pixels into a fresh grid meets no rejected pixel,
the grid consists of `H` rows of `W` black or white pixels, with alpha 255 unless the depth
is 32 bits. -/
theorem decodeRows_good (bitCount : Int) (W RS H : Nat) (rest : List Byte) (g : Grid)
    (h : decodeRows bitCount W RS H rest (List.replicate H (List.replicate W Pixel.init)) =
      (g, none)) :
    g.length = H ∧ ∀ r, r ∈ g → GoodRow bitCount W r := by
  have hall : ∀ k, k < H → ∀ x, x < W →
      badColor (decodePx bitCount (rowAt rest RS k) x Pixel.init) = false := by
    by_contra hn
    have hex : ∃ k x, k < H ∧ x < W ∧
        badColor (decodePx bitCount (rowAt rest RS k) x Pixel.init) = true := by
      by_contra hne
      apply hn
      intro k hk x hx
      cases hb : badColor (decodePx bitCount (rowAt rest RS k) x Pixel.init) with
      | false => rfl
      | true => exact absurd ⟨k, x, hk, hx, hb⟩ hne
    obtain ⟨k0, x0, hk0, hx0, hbad, hrows, hcols⟩ := first_bad
      (fun k x => badColor (decodePx bitCount (rowAt rest RS k) x Pixel.init) = true) H W hex
    have hs := decodeRows_some bitCount W RS H rest
      (List.replicate H (List.replicate W Pixel.init)) k0 x0 hk0 hx0 hbad
      (fun k hk x hx => by
        cases hb : badColor (decodePx bitCount (rowAt rest RS k) x Pixel.init) with
        | false => rfl
        | true => exact absurd hb (hrows k hk x hx))
      (fun x hx => by
        cases hb : badColor (decodePx bitCount (rowAt rest RS k0) x Pixel.init) with
        | false => rfl
        | true => exact absurd hb (hcols x hx))
    rw [h] at hs
    cases hs
  obtain ⟨_, hpt⟩ := decodeRows_none bitCount W RS H rest
    (List.replicate H (List.replicate W Pixel.init)) hall
  have hlen : g.length = H := by
    have hl := decodeRows_length bitCount W RS H rest
      (List.replicate H (List.replicate W Pixel.init))
    rw [h, List.length_replicate] at hl
    exact hl
  rw [h] at hpt
  dsimp only at hpt
  refine ⟨hlen, ?_⟩
  intro r hr
  obtain ⟨y, hy⟩ := List.getElem?_of_mem hr
  have hyH : y < H := by
    rcases Nat.lt_or_ge y g.length with c | c
    · omega
    · rw [List.getElem?_eq_none c] at hy; cases hy
  have e := hpt y
  rw [hy, if_pos hyH, List.getElem?_replicate, if_pos hyH] at e
  have er : r = (decodeCols bitCount (rowAt rest RS (H - 1 - y)) W 0
      (List.replicate W Pixel.init)).1 := Option.some.inj e
  obtain ⟨_, hcp⟩ := decodeCols_none bitCount (rowAt rest RS (H - 1 - y)) W 0
    (List.replicate W Pixel.init) (fun i _ hi => hall (H - 1 - y) (by omega) i (by omega))
  have hrl : r.length = W := by
    rw [er, decodeCols_length, List.length_replicate]
  refine ⟨hrl, ?_⟩
  intro p hp
  obtain ⟨i, hi⟩ := List.getElem?_of_mem hp
  have hiW : i < W := by
    rcases Nat.lt_or_ge i r.length with c | c
    · omega
    · rw [List.getElem?_eq_none c] at hi; cases hi
  have e2 := hcp i
  rw [← er, hi, if_pos ⟨Nat.zero_le _, by omega⟩, List.getElem?_replicate, if_pos hiW] at e2
  have ep : p = decodePx bitCount (rowAt rest RS (H - 1 - y)) i Pixel.init :=
    Option.some.inj e2
  rw [ep]
  refine ⟨hall (H - 1 - y) (by omega) i hiW, ?_⟩
  intro h32
  unfold decodePx
  dsimp only
  rw [if_neg h32]
  rfl

/-! ## The black/white invariant -/

theorem setPx_all (P : Pixel → Prop) (c : Pixel) (hc : P c) (g : Grid) (y x : Nat)
    (h : ∀ r, r ∈ g → ∀ p, p ∈ r → P p) :
    ∀ r, r ∈ setPx g y x c → ∀ p, p ∈ r → P p := by
  unfold setPx
  cases hy : g[y]? with
  | none => exact h
  | some row =>
    dsimp only
    intro r hr p hp
    rcases List.mem_or_eq_of_mem_set hr with h1 | h1
    · exact h r h1 p hp
    · rw [h1] at hp
      rcases List.mem_or_eq_of_mem_set hp with h2 | h2
      · obtain ⟨hl, e⟩ := List.getElem?_eq_some.1 hy
        exact h row (by rw [← e]; exact List.getElem_mem _) p h2
      · rw [h2]; exact hc

theorem plotPx_all (P : Pixel → Prop) (hc : P Pixel.black) (img : BmpImage) (q : Int × Int)
    (h : ∀ r, r ∈ img.pixels → ∀ p, p ∈ r → P p) :
    ∀ r, r ∈ (plotPx img q).pixels → ∀ p, p ∈ r → P p := by
  unfold plotPx
  split
  · exact setPx_all P Pixel.black hc _ _ _ h
  · exact h

/-- A property of pixels that black has and every pixel of the grid has, still holds for
every pixel after the guarded assignments at the points `pts`. -/
theorem plotAll_all (P : Pixel → Prop) (hc : P Pixel.black) (pts : List (Int × Int))
    (img : BmpImage) (h : ∀ r, r ∈ img.pixels → ∀ p, p ∈ r → P p) :
    ∀ r, r ∈ (pts.foldl plotPx img).pixels → ∀ p, p ∈ r → P p := by
  induction pts generalizing img with
  | nil => exact h
  | cons q pts ih =>
    rw [List.foldl_cons]
    exact ih _ (plotPx_all P hc img q h)

/-- When `drawLine` returns on a grid of `height` rows of `width` pixels, the image is the
one with the guarded assignments made at the visited points. -/
theorem drawLine_some (img img' : BmpImage) (hshape : GridShape img) (fuel : Nat)
    (x1 y1 x2 y2 : Int) (h : img.drawLine fuel x1 y1 x2 y2 = Except.ok (some img')) :
    img' = (lineVisited fuel x1 y1 x2 y2).foldl plotPx img := by
  rw [drawLine_eq img hshape] at h
  cases h1 : lineArith fuel x1 y1 x2 y2 with
  | error e => rw [h1] at h; cases h
  | ok b =>
    cases b with
    | false => rw [h1] at h; cases h
    | true =>
      rw [h1] at h
      exact (Option.some.inj (Except.ok.inj h)).symm

/-- When `drawX` returns on a grid of `height` rows of `width` pixels, the image is the one
with the guarded assignments made at some points. -/
theorem drawX_plots (img img' : BmpImage) (hshape : GridShape img) (fuel : Nat)
    (h : img.drawX fuel = Except.ok (some img')) :
    ∃ A B : List (Int × Int), img' = B.foldl plotPx (A.foldl plotPx img) := by
  have hw : INT_MIN ≤ img.width - 1 ∧ img.width - 1 ≤ INT_MAX := by
    by_contra c
    unfold BmpImage.drawX at h
    rw [chkInt_unfit _ c, error_bind] at h
    cases h
  have hh : INT_MIN ≤ img.height - 1 ∧ img.height - 1 ≤ INT_MAX := by
    by_contra c
    unfold BmpImage.drawX at h
    rw [chkInt_ok _ hw.1 hw.2, ok_bind, chkInt_unfit _ c, error_bind] at h
    cases h
  exact ⟨_, _, drawX_some img img' hshape hw.1 hw.2 hh.1 hh.2 fuel h⟩

theorem bw_of_not_bad (p : Pixel) (h : badColor p = false) :
    isBlack p = true ∨ isWhite p = true := by
  unfold badColor at h
  cases hb : isBlack p
  · cases hw : isWhite p
    · rw [hb, hw] at h; cases h
    · exact Or.inr rfl
  · exact Or.inl rfl

/-- After a successful `load` into a fresh image, width, height and bit depth fit and the
grid is `height` rows of `width` black or white pixels, with alpha 255 unless the depth is
32 bits. -/
theorem load_fresh_good (file : Option (List Byte)) (out : LoadOut)
    (h : BmpImage.fresh.load file = Except.ok out) (hret : out.ret = true) :
    ∃ (W H bc : Nat), out.img.width = W ∧ out.img.height = H ∧ out.img.bitCount = bc ∧
      (bc = 24 ∨ bc = 32) ∧ (W : Int) * bc + 31 ≤ INT_MAX ∧ (H : Int) ≤ INT_MAX ∧
      out.img.pixels.length = H ∧ ∀ r, r ∈ out.img.pixels → GoodRow bc W r := by
  obtain ⟨W, H, bc, rest, hbc, hfit, hmax, hd, hw, hh, hb⟩ :=
    load_fresh_success file out h hret
  obtain ⟨g1, g2⟩ := decodeRows_good (bc : Int) W (rowStride W bc) H rest out.img.pixels hd
  exact ⟨W, H, bc, hw, hh, hb, hbc, hfit, hmax, g1, g2⟩

theorem goodGrid_gridShape (img : BmpImage) (bc : Int) (W H : Nat) (hw : img.width = W)
    (hh : img.height = H) (hlen : img.pixels.length = H)
    (hrows : ∀ r, r ∈ img.pixels → GoodRow bc W r) : GridShape img := by
  refine ⟨by rw [hlen, hh], ?_⟩
  intro r hr
  rw [(hrows r hr).1, hw]

theorem goodGrid_bw (img : BmpImage) (bc : Int) (W H : Nat) (hw : img.width = W)
    (hh : img.height = H) (hlen : img.pixels.length = H)
    (hrows : ∀ r, r ∈ img.pixels → GoodRow bc W r) : BWGrid img :=
  ⟨goodGrid_gridShape img bc W H hw hh hlen hrows,
    fun r hr p hp => bw_of_not_bad p ((hrows r hr).2 p hp).1⟩

/-- The guarded assignments keep a grid of `H` rows of `W` black or white pixels (alpha 255
unless the depth is 32 bits) such a grid. -/
theorem plots_good (bc : Int) (W H : Nat) (pts : List (Int × Int)) (img : BmpImage)
    (hw : img.width = W) (hh : img.height = H) (hlen : img.pixels.length = H)
    (hrows : ∀ r, r ∈ img.pixels → GoodRow bc W r) :
    (pts.foldl plotPx img).width = W ∧ (pts.foldl plotPx img).height = H ∧
      (pts.foldl plotPx img).bitCount = img.bitCount ∧
      (pts.foldl plotPx img).pixels.length = H ∧
      ∀ r, r ∈ (pts.foldl plotPx img).pixels → GoodRow bc W r := by
  have hshape := goodGrid_gridShape img bc W H hw hh hlen hrows
  obtain ⟨s1, s2, s3, s4⟩ := plotAll_shape pts img hshape
  have hall := plotAll_all (fun p => badColor p = false ∧ (bc ≠ 32 → p.a = 255))
    ⟨rfl, fun _ => rfl⟩ pts img (fun r hr => (hrows r hr).2)
  have hl : ((pts.foldl plotPx img).pixels.length : Int) = (H : Int) := by
    rw [s1.1, s3, hh]
  refine ⟨s2.trans hw, s3.trans hh, s4, by exact_mod_cast hl, ?_⟩
  intro r hr
  refine ⟨?_, hall r hr⟩
  have := s1.2 r hr
  rw [s2, hw] at this
  exact_mod_cast this

/-! ## A tall file -/

theorem tallFile_fields :
    hdrType tallFile = 0x4D42 ∧ hdrOffBits tallFile = 54 ∧ hdrWidth tallFile = 1 ∧
    hdrHeight tallFile = 2147483647 ∧ hdrBitCount tallFile = 24 ∧
    hdrCompression tallFile = 0 := by
  obtain ⟨h1, h2, h3, h4, h5, h6⟩ :=
    hdr_append (sampleHeader 1 2147483647 24 8589934588) (List.replicate 8589934588 255) rfl
  unfold tallFile
  rw [h1, h2, h3, h4, h5, h6]
  exact ⟨rfl, rfl, rfl, rfl, rfl, rfl⟩

theorem tallFile_complete : CompletePixelData tallFile := by
  obtain ⟨h1, h2, h3, h4, h5, h6⟩ := tallFile_fields
  unfold CompletePixelData fileHeight fileStride fileWidth
  rw [h2, h3, h4, h5]
  unfold tallFile
  rw [List.length_append, sampleHeader_length, List.length_replicate]
  decide

/-- The all-white file `tallFile` is loaded successfully, as an image of width 1 and height
2147483647. -/
theorem tallFile_load :
    BmpImage.fresh.load (some tallFile) =
      Except.ok { ret := true, cerr := none,
                  img := { width := 1, height := 2147483647, bitCount := 24,
                           pixels := decodeGrid tallFile } } := by
  obtain ⟨h1, h2, h3, h4, h5, h6⟩ := tallFile_fields
  have h54 : 54 ≤ tallFile.length := by
    unfold tallFile
    rw [List.length_append, sampleHeader_length]; omega
  have hbw : AllBW tallFile := by
    have hc := tallFile_complete
    have h2' := h2
    have h5' := h5
    unfold tallFile at hc h2' h5' ⊢
    exact white_allBW _ _ rfl h2' (Or.inl h5') hc
  rw [load_fresh_ok tallFile h54 h1 h6 (Or.inl h5) (by rw [h3]; decide)
    (by rw [h4]; decide) (by unfold StrideFits; rw [h3, h5]; decide) tallFile_complete hbw]
  have e : (((2147483647 : Int).natAbs : Nat) : Int) = 2147483647 := by
    rw [Int.natCast_natAbs]; exact abs_of_nonneg (by norm_num)
  unfold fileHeight
  rw [h3, h4, h5, e]
  rfl

theorem gridShape_mk (w h bc : Int) (g : Grid) (hl : (g.length : Int) = h)
    (hr : ∀ r, r ∈ g → (r.length : Int) = w) :
    GridShape { width := w, height := h, bitCount := bc, pixels := g } := ⟨hl, hr⟩

theorem tallFile_shape :
    GridShape { width := 1, height := 2147483647, bitCount := 24,
                pixels := decodeGrid tallFile } := by
  obtain ⟨h1, h2, h3, h4, h5, h6⟩ := tallFile_fields
  apply gridShape_mk
  · rw [decodeGrid_length]
    unfold fileHeight
    rw [h4, Int.natCast_natAbs]
    exact abs_of_nonneg (by norm_num)
  · intro r hr
    rw [decodeGrid_row_length tallFile r hr]
    unfold fileWidth
    rw [h3]
    rfl

/-! ## What `load` decodes when reads fail -/

/-- For a file with complete, well-formed headers `load` decodes what the row buffer holds
after each read, whether or not the reads succeeded. -/
theorem load_eq_fill (img : BmpImage) (data : List Byte) (h54 : 54 ≤ data.length)
    (hty : hdrType data = 0x4D42) (hcomp : hdrCompression data = 0)
    (hbc : hdrBitCount data = 24 ∨ hdrBitCount data = 32)
    (hw : 0 ≤ hdrWidth data) (hh : hdrHeight data ≠ INT_MIN)
    (hov : hdrWidth data * hdrBitCount data + 31 ≤ INT_MAX)
    (hshape : ∀ y r, y < (hdrHeight data).natAbs → img.pixels[y]? = some r →
      (hdrWidth data).toNat ≤ r.length) :
    img.load (some data) = Except.ok (loadResultOn img data (bufferRows data)) := by
  obtain ⟨hf1, hf2, hf3, hf4, hf5, hf6⟩ := header_fields data h54
  obtain ⟨hr1, hr2⟩ := readRaw_headers data h54
  have hwr := hdrWidth_range data
  have hhr := hdrHeight_range data
  have habs := absInt_eq (hdrHeight data) (lt_of_le_of_ne hhr.1 (Ne.symm hh)) hhr.2
  have hrs := rowSize_eq (hdrWidth data) (hdrBitCount data) hw hov
  have hbc' : ¬ (((hdrBitCount data : Nat) : Int) ≠ 24 ∧ ((hdrBitCount data : Nat) : Int) ≠ 32) := by
    omega
  have hbcI : ((hdrBitCount data : Nat) : Int) = 24 ∨ ((hdrBitCount data : Nat) : Int) = 32 := by
    omega
  have hlt := rowStride_lt (hdrWidth data).toNat (hdrBitCount data)
    (by rw [Int.toNat_of_nonneg hw]; exact hov)
  have ha1 := allocVec_ok 1 (rowStride (hdrWidth data).toNat (hdrBitCount data)) (0 : Byte)
    (by unfold vecMaxSize; omega)
  have hWlt : (hdrWidth data).toNat < 2 ^ 31 := by
    unfold INT_MAX at hwr; omega
  have hsw : toSizeT (hdrWidth data) = (hdrWidth data).toNat := by
    conv_lhs => rw [← Int.toNat_of_nonneg hw]
    exact toSizeT_natCast _ (lt_trans hWlt (by norm_num))
  have hHlt : (hdrHeight data).natAbs < 2 ^ 31 := by
    unfold INT_MAX INT_MIN at hhr; unfold INT_MIN at hh; omega
  have hsh : toSizeT ((hdrHeight data).natAbs : Int) = (hdrHeight data).natAbs :=
    toSizeT_natCast _ (lt_trans hHlt (by norm_num))
  have ha2 := allocVec_ok 4 (hdrWidth data).toNat Pixel.init
    (by unfold vecMaxSize; omega)
  have hstride : (hdrWidth data).toNat * (((hdrBitCount data : Nat) : Int).tdiv 8).toNat ≤
      rowStride (hdrWidth data).toNat (hdrBitCount data) := by
    rw [bpp_cast _ hbc]; exact stride_ge _ _ hbc
  have hrows := loadRows_fill (hdrBitCount data) hbcI (hdrWidth data).toNat
    (rowStride (hdrWidth data).toNat (hdrBitCount data)) hstride (hdrHeight data).natAbs
    { data := data, pos := hdrOffBits data, failed := false } (hdrOffBits data)
    (List.replicate (rowStride (hdrWidth data).toNat (hdrBitCount data)) (0 : Byte))
    (resizeRows img.pixels (hdrHeight data).natAbs
      (List.replicate (hdrWidth data).toNat Pixel.init))
    (Or.inl ⟨rfl, rfl⟩) (by rw [List.length_replicate])
    (resizeRows_shape _ _ _ hshape)
  unfold BmpImage.load
  simp only [hr1, hr2, hf1, hf2, hf3, hf4, hf5, hf6, ok_bind, hty, hcomp, habs, hrs, ha1,
    hsw, hsh, ha2, Int.toNat_natCast, IStream.seekg, ne_eq, not_true_eq_false, ↓reduceIte,
    hbc', Bool.false_eq_true, hrows, pure_eq_ok]
  unfold loadResultOn bufferRows fileStride fileHeight fileWidth
  simp only
  split <;> rename_i h <;> simp only [h]

/-- The decoding of `n` rows meets no rejected pixel exactly when every decoded pixel is
black or white. -/
theorem decodeRows_ok_iff (bitCount : Int) (W RS n : Nat) (rest : List Byte) (g : Grid) :
    (decodeRows bitCount W RS n rest g).2 = none ↔
      ∀ k, k < n → ∀ x, x < W →
        badColor (decodePx bitCount (rowAt rest RS k) x Pixel.init) = false := by
  constructor
  · intro h
    by_contra hn
    have hex : ∃ k x, k < n ∧ x < W ∧
        badColor (decodePx bitCount (rowAt rest RS k) x Pixel.init) = true := by
      by_contra hne
      apply hn
      intro k hk x hx
      cases hb : badColor (decodePx bitCount (rowAt rest RS k) x Pixel.init) with
      | false => rfl
      | true => exact absurd ⟨k, x, hk, hx, hb⟩ hne
    obtain ⟨k0, x0, hk0, hx0, hbad, hrows, hcols⟩ := first_bad
      (fun k x => badColor (decodePx bitCount (rowAt rest RS k) x Pixel.init) = true) n W hex
    have hs := decodeRows_some bitCount W RS n rest g k0 x0 hk0 hx0 hbad
      (fun k hk x hx => by
        cases hb : badColor (decodePx bitCount (rowAt rest RS k) x Pixel.init) with
        | false => rfl
        | true => exact absurd hb (hrows k hk x hx))
      (fun x hx => by
        cases hb : badColor (decodePx bitCount (rowAt rest RS k0) x Pixel.init) with
        | false => rfl
        | true => exact absurd hb (hcols x hx))
    rw [h] at hs
    cases hs
  · intro h
    exact (decodeRows_none bitCount W RS n rest g h).1

theorem fillRows_succ (data : List Byte) (RS n pos : Nat) (prev : List Byte) :
    fillRows data RS (n + 1) pos prev =
      ((data.drop pos).take RS ++ prev.drop ((data.drop pos).take RS).length) ++
        fillRows data RS n (pos + RS)
          ((data.drop pos).take RS ++ prev.drop ((data.drop pos).take RS).length) := rfl

theorem fill_length (data : List Byte) (RS pos : Nat) (prev : List Byte)
    (hp : prev.length = RS) :
    ((data.drop pos).take RS ++ prev.drop ((data.drop pos).take RS).length).length = RS := by
  have := List.length_take_le RS (data.drop pos)
  rw [List.length_append, List.length_drop]
  omega

/-- Row `k` of the buffer contents: the bytes of the file at the row's position, as many as
there are, followed by the bytes at the remaining positions of what the buffer held before:
the row before, or the initial contents for the first row. -/
theorem fillRows_rowAt (data : List Byte) (RS n : Nat) :
    ∀ (pos : Nat) (prev : List Byte), prev.length = RS → ∀ k, k < n →
      rowAt (fillRows data RS n pos prev) RS k =
        (data.drop (pos + k * RS)).take RS ++
          (if k = 0 then prev else rowAt (fillRows data RS n pos prev) RS (k - 1)).drop
            ((data.drop (pos + k * RS)).take RS).length := by
  induction n with
  | zero => intro pos prev _ k hk; omega
  | succ n ih =>
    intro pos prev hp k hk
    have hl := fill_length data RS pos prev hp
    have h0 : rowAt (fillRows data RS (n + 1) pos prev) RS 0 =
        (data.drop pos).take RS ++ prev.drop ((data.drop pos).take RS).length := by
      unfold rowAt
      rw [fillRows_succ, Nat.zero_mul, List.drop_zero,
        List.take_append_of_le_length (by omega), List.take_of_length_le (by omega)]
    have hs : ∀ j, rowAt (fillRows data RS (n + 1) pos prev) RS (j + 1) =
        rowAt (fillRows data RS n (pos + RS)
          ((data.drop pos).take RS ++ prev.drop ((data.drop pos).take RS).length)) RS j := by
      intro j
      rw [← rowAt_drop, fillRows_succ, List.drop_append_of_le_length (by omega),
        List.drop_eq_nil_of_le (by omega), List.nil_append]
    cases k with
    | zero =>
      rw [h0, Nat.zero_mul, Nat.add_zero, if_pos rfl]
    | succ k =>
      rw [hs k, ih (pos + RS) _ hl k (by omega), if_neg (Nat.succ_ne_zero k),
        Nat.add_sub_cancel]
      have e : pos + RS + k * RS = pos + (k + 1) * RS := by rw [Nat.succ_mul]; omega
      rw [e]
      congr 2
      cases k with
      | zero => rw [if_pos rfl]; exact h0.symm
      | succ j =>
        rw [if_neg (Nat.succ_ne_zero j), Nat.add_sub_cancel]
        exact (hs j).symm

theorem loadResultOn_ret (img : BmpImage) (data rest : List Byte) :
    (loadResultOn img data rest).ret = true ↔
      (decodeRows (hdrBitCount data) (hdrWidth data).toNat
        (rowStride (hdrWidth data).toNat (hdrBitCount data)) (hdrHeight data).natAbs rest
        (resizeRows img.pixels (hdrHeight data).natAbs
          (List.replicate (hdrWidth data).toNat Pixel.init))).2 = none := by
  unfold loadResultOn
  dsimp only
  split <;> rename_i hd <;> simp [hd]

/-! ## A bound under which `drawLine` has no overflow -/

/-- Before the end of the line a y step is taken only while y has not reached its end. -/
theorem inv_ystep (x1 y1 : Int) (p : LineParams) (hdy : p.dy ≤ 0) (hdx : 0 ≤ p.dx) (k : Nat)
    (s : LineState) (hinv : LineInv x1 y1 p k s) (hk : (k : Int) < max p.dx (-p.dy))
    (hc : 2 * s.err ≤ p.dx) : ∃ b : Int, 0 ≤ b ∧ b < -p.dy ∧ s.y1 = y1 + p.sy * b := by
  obtain ⟨D, dy, sx, sy⟩ := p
  obtain ⟨x, y, err⟩ := s
  obtain ⟨E, rfl⟩ : ∃ E, dy = -E := ⟨-dy, by ring⟩
  obtain ⟨a, b, ha0, haD, hb0, hbE, hx, hy, herr, hlo, hhi, hkx, hky⟩ := hinv
  simp only [neg_neg] at *
  have hys := arith_ystep D E a b k (by omega) ha0 hbE hkx hky hk
  rw [← herr] at hys
  exact ⟨b, hb0, hys hc, hy⟩

/-- When the endpoints are `int` values and three times the longer axis is at most
`INT_MAX`, every operation of an iteration before the end of the line fits in `int`. -/
theorem step_fits (x1 y1 x2 y2 : Int) (p : LineParams) (hs : LineSetup x1 y1 x2 y2 p)
    (k : Nat) (s : LineState) (hinv : LineInv x1 y1 p k s)
    (hk : (k : Int) < max p.dx (-p.dy)) (hb : 3 * max p.dx (-p.dy) ≤ INT_MAX)
    (hx1 : InInt x1) (hx2 : InInt x2) (hy1 : InInt y1) (hy2 : InInt y2) :
    StepFits p s := by
  have hxs := inv_xstep x1 y1 p hs.dx_nonneg k s hinv hk
  have hys := inv_ystep x1 y1 p hs.dy_nonpos hs.dx_nonneg k s hinv hk
  obtain ⟨hD, hE, hsx, hsy, hxe, hye⟩ := hs
  obtain ⟨a, b, ha0, haD, hb0, hbE, hx, hy, herr, hlo, hhi, hkx, hky⟩ := hinv
  obtain ⟨δ, hδ⟩ : ∃ δ, δ = a * (-p.dy) - b * p.dx := ⟨_, rfl⟩
  rw [← hδ] at herr hlo hhi
  have hM1 := le_max_left p.dx (-p.dy)
  have hM2 := le_max_right p.dx (-p.dy)
  obtain ⟨M, hMe⟩ : ∃ M, M = max p.dx (-p.dy) := ⟨_, rfl⟩
  rw [← hMe] at hb hlo hhi hM1 hM2
  unfold InInt INT_MIN INT_MAX at hx1 hx2 hy1 hy2
  unfold INT_MAX at hb
  unfold StepFits InInt INT_MIN INT_MAX
  refine ⟨by omega, ?_, ?_⟩
  · intro c
    obtain ⟨a', h1, h2, h3⟩ := hxs c
    refine ⟨by omega, ?_⟩
    rw [h3]
    rcases hsx with r | r <;> (rw [r] at hxe ⊢; omega)
  · intro c
    obtain ⟨b', h1, h2, h3⟩ := hys c
    refine ⟨by split <;> omega, ?_⟩
    rw [h3]
    rcases hsy with r | r <;> (rw [r] at hye ⊢; omega)

/-- Under the same bound the loop never overflows. -/
theorem lineRun_fits (x1 y1 x2 y2 : Int) (p : LineParams) (hs : LineSetup x1 y1 x2 y2 p)
    (hb : 3 * max p.dx (-p.dy) ≤ INT_MAX)
    (hx1 : InInt x1) (hx2 : InInt x2) (hy1 : InInt y1) (hy2 : InInt y2) (n : Nat) :
    ∀ (k : Nat) (s : LineState), LineInv x1 y1 p k s → ∀ e,
      lineRun x2 y2 p n s ≠ Except.error e := by
  induction n with
  | zero => intro k s _ e hc; cases hc
  | succ n ih =>
    intro k s hinv e
    rw [lineRun_succ]
    by_cases hend : s.x1 = x2 ∧ s.y1 = y2
    · rw [lineStep_end _ _ _ _ hend]
      intro hc; cases hc
    · have hk : (k : Int) < max p.dx (-p.dy) := by
        rcases lt_or_eq_of_le (inv_le x1 y1 p k s hinv) with c | c
        · exact c
        · exact absurd (inv_end x1 y1 x2 y2 p hs k s hinv c) hend
      have hf := step_fits x1 y1 x2 y2 p hs k s hinv hk hb hx1 hx2 hy1 hy2
      obtain ⟨s', h1, h2, _⟩ := inv_step x1 y1 x2 y2 p hs k s hinv hk
      rcases lineStep_char x2 y2 p s hend with ⟨_, e1⟩ | ⟨nf, _⟩
      · rw [e1, h1]
        exact ih (k + 1) s' h2 e
      · exact absurd hf nf

/-- A sufficient condition for `NoOverflow`: the endpoints are `int` values and three times
the longer axis of the line is at most `INT_MAX`. -/
theorem noOverflow_of_bound (x1 y1 x2 y2 : Int) (hx1 : InInt x1) (hx2 : InInt x2)
    (hy1 : InInt y1) (hy2 : InInt y2)
    (hb : 3 * max |x2 - x1| |y2 - y1| ≤ INT_MAX) : NoOverflow x1 y1 x2 y2 := by
  have h1 := le_max_left |x2 - x1| |y2 - y1|
  have h2 := le_max_right |x2 - x1| |y2 - y1|
  have a1 := abs_nonneg (x2 - x1)
  have a2 := abs_nonneg (y2 - y1)
  obtain ⟨p, hi, hs, hdx, hdy, _⟩ := lineInit_ok x1 y1 x2 y2 (by omega) (by omega)
  intro n e
  unfold lineArith
  rw [hi, ok_bind]
  exact lineRun_fits x1 y1 x2 y2 p hs (by rw [hdx, hdy]; exact hb) hx1 hx2 hy1 hy2 n 0 _
    (inv_init x1 y1 x2 y2 p hs) e

/-! ## The header fields that `load` stores before it rejects a bit depth -/

theorem field_drop_take (data : List Byte) (a m off len v : Nat)
    (h : field ((data.drop a).take m) off len = Except.ok v) :
    v = leNat ((data.drop (a + off)).take len) := by
  unfold field at h
  by_cases c : off + len ≤ ((data.drop a).take m).length
  · rw [if_pos c, pure_eq_ok] at h
    have hm : off + len ≤ m := by
      rw [List.length_take] at c
      omega
    rw [← Except.ok.inj h, List.drop_take, List.take_take, List.drop_drop,
      Nat.min_eq_left (by omega)]
  · rw [if_neg c] at h
    cases h

theorem field_nil (off len v : Nat) (h : field [] off len = Except.ok v) :
    off = 0 ∧ len = 0 := by
  unfold field at h
  by_cases c : off + len ≤ ([] : List Byte).length
  · rw [List.length_nil] at c
    omega
  · rw [if_neg c] at h
    cases h

theorem readRaw_info (data : List Byte) :
    (IStream.readRaw (IStream.readRaw { data := data, pos := 0, failed := false }
      sizeofFileHeader).1 sizeofInfoHeader).2 = [] ∨
    (IStream.readRaw (IStream.readRaw { data := data, pos := 0, failed := false }
      sizeofFileHeader).1 sizeofInfoHeader).2 = (data.drop 14).take 40 := by
  by_cases c : 14 ≤ data.length
  · right
    have h1 : (data.take 14).length = 14 := by rw [List.length_take]; omega
    simp [IStream.readRaw, sizeofFileHeader, sizeofInfoHeader, h1]
  · left
    have h1 : data.length < 14 := by omega
    simp [IStream.readRaw, sizeofFileHeader, sizeofInfoHeader, h1]

theorem load_unsupported (img : BmpImage) (data : List Byte) (out : LoadOut) (b : Int)
    (h : img.load (some data) = Except.ok out)
    (hc : out.cerr = some (Msg.unsupportedBitCount b)) :
    out.img.pixels = img.pixels ∧ out.img.width = hdrWidth data ∧
      out.img.height = ((hdrHeight data).natAbs : Int) ∧
      out.img.bitCount = (hdrBitCount data : Int) ∧ b = (hdrBitCount data : Int) := by
  have hother : ∀ (r : Bool) (c : Option Msg) (i : BmpImage),
      (∀ b', c ≠ some (Msg.unsupportedBitCount b')) →
      (pure { ret := r, cerr := c, img := i } : Except Fault LoadOut) = Except.ok out →
        False := by
    intro r c i hne ho
    have e : out = { ret := r, cerr := c, img := i } := (Except.ok.inj ho).symm
    rw [e] at hc
    exact hne b hc
  unfold BmpImage.load at h
  dsimp only at h
  have hih := readRaw_info data
  generalize (IStream.readRaw (IStream.readRaw { data := data, pos := 0, failed := false }
    sizeofFileHeader).1 sizeofInfoHeader).1 = s at h
  generalize (IStream.readRaw (IStream.readRaw { data := data, pos := 0, failed := false }
    sizeofFileHeader).1 sizeofInfoHeader).2 = ih at h hih
  generalize (IStream.readRaw { data := data, pos := 0, failed := false }
    sizeofFileHeader).2 = fh at h
  cases e1 : bfType fh with
  | error x => rw [e1, error_bind] at h; cases h
  | ok ty =>
  rw [e1, ok_bind] at h
  by_cases c1 : ty ≠ 19778
  · rw [if_pos c1] at h; exact (hother _ _ _ (by intro b' hb; cases hb) h).elim
  rw [if_neg c1] at h
  cases e2 : biCompression ih with
  | error x => rw [e2, error_bind] at h; cases h
  | ok comp =>
  rw [e2, ok_bind] at h
  by_cases c2 : comp ≠ 0
  · rw [if_pos c2] at h; exact (hother _ _ _ (by intro b' hb; cases hb) h).elim
  rw [if_neg c2] at h
  cases e3 : biWidth ih with
  | error x => rw [e3, error_bind] at h; cases h
  | ok width =>
  rw [e3, ok_bind] at h
  cases e4 : biHeight ih with
  | error x => rw [e4, error_bind] at h; cases h
  | ok hraw =>
  rw [e4, ok_bind] at h
  cases e5 : absInt hraw with
  | error x => rw [e5, error_bind] at h; cases h
  | ok height =>
  rw [e5, ok_bind] at h
  cases e6 : biBitCount ih with
  | error x => rw [e6, error_bind] at h; cases h
  | ok bc =>
  rw [e6, ok_bind] at h
  have hnil : ih ≠ [] := by
    intro e
    rw [e] at e6
    have := field_nil _ _ _ e6
    omega
  have eih : ih = (data.drop 14).take 40 := hih.resolve_left hnil
  have hw : width = hdrWidth data := by
    unfold biWidth at e3
    cases e : field ih 4 4 with
    | error x => rw [e, error_bind] at e3; cases e3
    | ok v =>
      rw [e, ok_bind, pure_eq_ok] at e3
      rw [eih] at e
      rw [← Except.ok.inj e3, field_drop_take data 14 40 4 4 v e]
      rfl
  have hh : hraw = hdrHeight data := by
    unfold biHeight at e4
    cases e : field ih 8 4 with
    | error x => rw [e, error_bind] at e4; cases e4
    | ok v =>
      rw [e, ok_bind, pure_eq_ok] at e4
      rw [eih] at e
      rw [← Except.ok.inj e4, field_drop_take data 14 40 8 4 v e]
      rfl
  have hb : bc = hdrBitCount data := by
    unfold biBitCount at e6
    rw [eih] at e6
    rw [field_drop_take data 14 40 14 2 bc e6]
    rfl
  have hht : height = ((hdrHeight data).natAbs : Int) := by
    unfold absInt at e5
    obtain ⟨e, _, _⟩ := chkInt_inv _ _ e5
    rw [e, hh]
    split <;> omega
  by_cases c3 : (bc : Int) ≠ 24 ∧ (bc : Int) ≠ 32
  · rw [if_pos c3] at h
    have e : out = { ret := false, cerr := some (Msg.unsupportedBitCount bc),
                     img := { img with width := width, height := height,
                                       bitCount := bc } } :=
      (Except.ok.inj h).symm
    rw [e] at hc ⊢
    dsimp only at hc ⊢
    have eb : (bc : Int) = b := by
      injection hc with hc
      injection hc
    exact ⟨rfl, hw, hht, by rw [hb], by rw [← eb, hb]⟩
  rw [if_neg c3] at h
  cases e7 : bfOffBits fh with
  | error x => rw [e7, error_bind] at h; cases h
  | ok off =>
  rw [e7, ok_bind] at h
  cases e8 : rowSize width bc with
  | error x => rw [e8, error_bind] at h; cases h
  | ok rs =>
  rw [e8, ok_bind] at h
  cases e9 : allocVec 1 rs (0 : Byte) with
  | error x => rw [e9, error_bind] at h; cases h
  | ok row =>
  rw [e9, ok_bind] at h
  cases e10 : allocVec 4 (toSizeT width) Pixel.init with
  | error x => rw [e10, error_bind] at h; cases h
  | ok proto =>
  rw [e10, ok_bind] at h
  cases e11 : loadRows (bc : Int) width.toNat rs height.toNat (s.seekg off) row
      (resizeRows img.pixels (toSizeT height) proto) with
  | error x => rw [e11, error_bind] at h; cases h
  | ok res =>
  rw [e11, ok_bind] at h
  cases e12 : res.2 with
  | none =>
    rw [e12] at h
    exact (hother _ _ _ (by intro b' hb; cases hb) h).elim
  | some q =>
    rw [e12] at h
    exact (hother _ _ _ (by intro b' hb; cases hb) h).elim

/-! ## `load` into a fresh image when reads fall short -/

/-- What `load` into a fresh image returns on a file with valid, complete headers and a row
size computable in `int`, whether or not the file holds all its pixel data: the result is
decoded from the row buffer as each `in.read` leaves it.  Stored row `k` is the bytes of the
file at `bfOffBits + k * rowStride`, as many as the file still has (at most `rowStride`),
followed by what the buffer held before at the remaining positions (the row before, or
zeros for the first row); `load` returns `false` exactly when one of the pixels so decoded
is neither black nor white, and `true` otherwise.  No outcome of `load` depends on whether
a read delivered all its bytes. -/
theorem load_fresh_buffer (data : List Byte) (hv : ValidHeader data) (hfit : StrideFits data) :
    BmpImage.fresh.load (some data) =
        Except.ok (loadResultOn BmpImage.fresh data (bufferRows data)) ∧
      (Fails (BmpImage.fresh.load (some data)) ↔
        ∃ k x, k < fileHeight data ∧ x < fileWidth data ∧
          badColor (decodePx (hdrBitCount data)
            (rowAt (bufferRows data) (fileStride data) k) x Pixel.init) = true) ∧
      (Succeeds (BmpImage.fresh.load (some data)) ↔
        ∀ k, k < fileHeight data → ∀ x, x < fileWidth data →
          badColor (decodePx (hdrBitCount data)
            (rowAt (bufferRows data) (fileStride data) k) x Pixel.init) = false) ∧
      ∀ k, k < fileHeight data →
        rowAt (bufferRows data) (fileStride data) k =
          (data.drop (hdrOffBits data + k * fileStride data)).take (fileStride data) ++
            (if k = 0 then List.replicate (fileStride data) 0
              else rowAt (bufferRows data) (fileStride data) (k - 1)).drop
              ((data.drop (hdrOffBits data + k * fileStride data)).take
                (fileStride data)).length := by
  have hhr : hdrHeight data ≠ INT_MIN := by
    have := hv.height
    unfold INT_MIN
    omega
  have hl := load_eq_fill BmpImage.fresh data hv.complete hv.signature hv.compression
    hv.bitCount (le_of_lt hv.width) hhr hfit (fresh_shape _ _)
  have hiff := decodeRows_ok_iff (hdrBitCount data) (fileWidth data) (fileStride data)
    (fileHeight data) (bufferRows data)
    (resizeRows BmpImage.fresh.pixels (fileHeight data)
      (List.replicate (fileWidth data) Pixel.init))
  have hret : (loadResultOn BmpImage.fresh data (bufferRows data)).ret = true ↔
      (decodeRows (hdrBitCount data) (fileWidth data) (fileStride data) (fileHeight data)
        (bufferRows data) (resizeRows BmpImage.fresh.pixels (fileHeight data)
          (List.replicate (fileWidth data) Pixel.init))).2 = none :=
    loadResultOn_ret BmpImage.fresh data (bufferRows data)
  refine ⟨hl, ?_, ?_, ?_⟩
  · rw [hl]
    constructor
    · rintro ⟨out, ho, hr⟩
      have e := (Except.ok.inj ho).symm
      rw [e] at hr
      by_contra hn
      have hall : ∀ k, k < fileHeight data → ∀ x, x < fileWidth data →
          badColor (decodePx (hdrBitCount data)
            (rowAt (bufferRows data) (fileStride data) k) x Pixel.init) = false := by
        intro k hk x hx
        cases hb : badColor (decodePx (hdrBitCount data)
            (rowAt (bufferRows data) (fileStride data) k) x Pixel.init) with
        | false => rfl
        | true => exact absurd ⟨k, x, hk, hx, hb⟩ hn
      rw [hret.2 (hiff.2 hall)] at hr
      cases hr
    · rintro ⟨k, x, hk, hx, hb⟩
      refine ⟨_, rfl, ?_⟩
      cases hr : (loadResultOn BmpImage.fresh data (bufferRows data)).ret with
      | false => rfl
      | true =>
        have := hiff.1 (hret.1 hr) k hk x hx
        rw [this] at hb
        cases hb
  · rw [hl]
    constructor
    · rintro ⟨out, ho, hr⟩
      have e := (Except.ok.inj ho).symm
      rw [e] at hr
      exact hiff.1 (hret.1 hr)
    · intro hall
      exact ⟨_, rfl, hret.2 (hiff.2 hall)⟩
  · intro k hk
    unfold bufferRows
    exact fillRows_rowAt data (fileStride data) (fileHeight data) (hdrOffBits data) _
      (List.length_replicate _ _) k hk

/-! ## Sample images for the mirror symmetry of `drawX` -/

theorem white4x3_shape : GridShape white4x3 := by
  refine ⟨rfl, ?_⟩
  intro r hr
  rw [(List.mem_replicate.1 hr).2]
  rfl

theorem white4x3_px (x y : Nat) (hx : x < 4) (hy : y < 3) :
    ∃ p, getPx white4x3.pixels y x = Except.ok p ∧ isWhite p = true := by
  refine ⟨{ r := 255, g := 255, b := 255 }, ?_, rfl⟩
  unfold getPx white4x3
  dsimp only
  rw [List.getElem?_replicate, if_pos hy]
  dsimp only
  rw [List.getElem?_replicate, if_pos hx]
  rfl

theorem narrowWhite_shape : GridShape narrowWhite := by
  unfold narrowWhite
  apply gridShape_mk
  · rw [List.length_replicate]
    rfl
  · intro r hr
    rw [(List.mem_replicate.1 hr).2, List.length_replicate]
    rfl

theorem getPx_replicate (h w : Nat) (p : Pixel) (x y : Nat) (hx : x < w) (hy : y < h) :
    getPx (List.replicate h (List.replicate w p)) y x = Except.ok p := by
  unfold getPx
  rw [List.getElem?_replicate, if_pos hy]
  dsimp only
  rw [List.getElem?_replicate, if_pos hx]
  rfl

theorem narrowWhite_px (x y : Nat) (hx : x < 2) (hy : y < 1073741827) :
    ∃ p, getPx narrowWhite.pixels y x = Except.ok p ∧ isWhite p = true :=
  ⟨{ r := 255, g := 255, b := 255 }, getPx_replicate _ _ _ x y hx hy, rfl⟩

theorem narrowWhite_drawX (fuel : Nat) :
    narrowWhite.drawX (fuel + 1) = Except.error Fault.undefined := by
  have hX := drawX_eq narrowWhite narrowWhite_shape
    (by show INT_MIN ≤ (2 : Int) - 1; unfold INT_MIN; omega)
    (by show (2 : Int) - 1 ≤ INT_MAX; unfold INT_MAX; omega)
    (by show INT_MIN ≤ (1073741827 : Int) - 1; unfold INT_MIN; omega)
    (by show (1073741827 : Int) - 1 ≤ INT_MAX; unfold INT_MAX; omega) (fuel + 1)
  rw [hX]
  rfl

/-! # The claims -/

/-- C1 (amended): for every byte file with a valid header (signature BM, compression 0, bit
depth 24 or 32, width > 0, height > 0), complete black/white-only pixel data and a row size
computable in `int` (`width * bitCount + 31 <= INT_MAX`), loading it into a fresh image `A`,
saving `A` and loading the saved bytes into a fresh image `B` all succeed, and
`B.width = A.width`, `B.height = A.height`, `B.bitCount = A.bitCount`,
`B.pixels = A.pixels`. -/
theorem C1_roundTrip (data : List Byte) (hv : ValidHeader data) (hfit : StrideFits data)
    (hc : CompletePixelData data) (hbw : AllBW data) :
    ∃ A bytes B,
      BmpImage.fresh.load (some data) = Except.ok { ret := true, cerr := none, img := A } ∧
      A.save true = Except.ok (true, bytes) ∧
      BmpImage.fresh.load (some bytes) = Except.ok { ret := true, cerr := none, img := B } ∧
      B.width = A.width ∧ B.height = A.height ∧ B.bitCount = A.bitCount ∧
      B.pixels = A.pixels := by
  have hmin : hdrHeight data ≠ INT_MIN := by
    have := hv.height
    unfold INT_MIN; omega
  have hA := load_fresh_ok data hv.complete hv.signature hv.compression hv.bitCount
    (le_of_lt hv.width) hmin hfit hc hbw
  have hhr := hdrHeight_range data
  obtain ⟨bytes, hs, hl⟩ := load_save
    { width := hdrWidth data, height := fileHeight data, bitCount := hdrBitCount data,
      pixels := decodeGrid data }
    (fileWidth data) (fileHeight data) (hdrBitCount data)
    (by unfold fileWidth; exact (Int.toNat_of_nonneg (le_of_lt hv.width)).symm) rfl rfl
    hv.bitCount
    (by unfold fileWidth; rw [Int.toNat_of_nonneg (le_of_lt hv.width)]; exact hfit)
    (by
      unfold fileHeight
      have := hv.height
      have := hhr.2
      omega)
    (decodeGrid_length data) (decodeGrid_good data hv.bitCount hc hbw)
  exact ⟨_, bytes, _, hA, hs, hl, rfl, rfl, rfl, rfl⟩

/-- C1, witness: the file `sample24`. -/
theorem C1_roundTrip_witness :
    ∃ A bytes B,
      BmpImage.fresh.load (some sample24) =
        Except.ok { ret := true, cerr := none, img := A } ∧
      A.save true = Except.ok (true, bytes) ∧
      BmpImage.fresh.load (some bytes) = Except.ok { ret := true, cerr := none, img := B } ∧
      B.width = A.width ∧ B.height = A.height ∧ B.bitCount = A.bitCount ∧
      B.pixels = A.pixels :=
  C1_roundTrip sample24 sample24_valid (by decide) (by decide) (by decide)

/-- C1, counterexample: `wideWhite` has a valid header and complete, all-white pixel data,
but the first `load` does not return: `width * bitCount + 31` is not an `int`. -/
theorem C1_counterexample :
    ValidHeader wideWhite ∧ CompletePixelData wideWhite ∧ AllBW wideWhite ∧
      BmpImage.fresh.load (some wideWhite) = Except.error Fault.undefined ∧
      ¬ Succeeds (BmpImage.fresh.load (some wideWhite)) := by
  have hl : BmpImage.fresh.load (some wideWhite) = Except.error Fault.undefined :=
    wide_load (List.replicate 268435456 255)
  refine ⟨wide_valid _, wide_complete _ (List.length_replicate _ _), wideWhite_allBW, hl, ?_⟩
  rintro ⟨out, ho, -⟩
  rw [hl] at ho
  exact nomatch ho

/-- C2 (amended): for every `width >= 0` and `bitCount` in {24, 32} for which
`width * bitCount + 31` does not overflow `int`, the row size computed by `load` and `save`
is `ceil(width * bitCount / 32) * 4`; it is a multiple of 4, at least the unpadded row byte
count `width * bitCount / 8`, and no smaller multiple of 4 is; it is 4 for (1, 24), 12 for
(4, 24) and 16 for (5, 24). -/
theorem C2_rowStride (width : Int) (bitCount : Nat) (hw : 0 ≤ width)
    (hbc : bitCount = 24 ∨ bitCount = 32) (hov : width * bitCount + 31 ≤ INT_MAX) :
    rowSize width bitCount = Except.ok (rowStrideBytes width.toNat bitCount) ∧
    4 ∣ rowStrideBytes width.toNat bitCount ∧
    width.toNat * bitCount / 8 ≤ rowStrideBytes width.toNat bitCount ∧
    (∀ m, 4 ∣ m → width.toNat * bitCount / 8 ≤ m → rowStrideBytes width.toNat bitCount ≤ m) ∧
    rowSize 1 24 = Except.ok 4 ∧ rowSize 4 24 = Except.ok 12 ∧ rowSize 5 24 = Except.ok 16 := by
  rw [rowStrideBytes_eq]
  obtain ⟨h1, h2, h3⟩ := rowStride_least width.toNat bitCount hbc
  exact ⟨rowSize_eq width bitCount hw hov, h1, h2, h3, rfl, rfl, rfl⟩

/-- C2, witness: width 5 at 24 bits. -/
theorem C2_rowStride_witness :
    rowSize 5 24 = Except.ok (rowStrideBytes (5 : Int).toNat 24) ∧
    4 ∣ rowStrideBytes (5 : Int).toNat 24 :=
  ⟨(C2_rowStride 5 24 (by decide) (by decide) (by decide)).1,
   (C2_rowStride 5 24 (by decide) (by decide) (by decide)).2.1⟩

/-- C2, counterexample: at width 89478485 and 24 bits `width * bitCount + 31` is
2147483671, which is not an `int`; the row size is not the stride of the claim. -/
theorem C2_counterexample :
    (0 : Int) ≤ 89478485 ∧ rowSize 89478485 24 = Except.error Fault.undefined ∧
      rowSize 89478485 24 ≠ Except.ok (rowStrideBytes 89478485 24) := by
  have h : rowSize 89478485 24 = Except.error Fault.undefined := rfl
  refine ⟨by decide, h, ?_⟩
  rw [h]
  exact fun h => nomatch h

/-- C3 (amended): for every file with a valid header, complete pixel data and a row size
that is computable in `int`, which holds at least one pixel whose (r, g, b) is neither
(0, 0, 0) nor (255, 255, 255), `load` into an image that is fresh, or whose existing rows are
at least as wide as the file, returns `false`, and the coordinates it reports are the column
`x0` and the grid row `height - 1 - k0` of the first such pixel in decode order: every pixel
of a stored row before `k0`, and every pixel of the stored row `k0` in a column before `x0`,
is black or white. -/
theorem C3_colorValidation (img : BmpImage) (data : List Byte) (hv : ValidHeader data)
    (hfit : StrideFits data) (hc : CompletePixelData data) (hfits : RowsFit img data)
    (hbad : ∃ k x, k < fileHeight data ∧ x < fileWidth data ∧ ¬ diskBW data k x) :
    ∃ k0 x0 img', k0 < fileHeight data ∧ x0 < fileWidth data ∧ ¬ diskBW data k0 x0 ∧
      (∀ k x, x < fileWidth data → k < k0 ∨ (k = k0 ∧ x < x0) → diskBW data k x) ∧
      img.load (some data) =
        Except.ok { ret := false,
                    cerr := some (Msg.badColor x0 (fileHeight data - 1 - k0)),
                    img := img' } := by
  obtain ⟨k0, x0, hk, hx, hp, hrows, hcols⟩ :=
    first_bad (fun k x => ¬ diskBW data k x) (fileHeight data) (fileWidth data) hbad
  have hrows' : ∀ k, k < k0 → ∀ x, x < fileWidth data → diskBW data k x :=
    fun k hk' x hx' => not_not.1 (hrows k hk' x hx')
  have hcols' : ∀ x, x < x0 → diskBW data k0 x := fun x hx' => not_not.1 (hcols x hx')
  have hmin : hdrHeight data ≠ INT_MIN := by
    have := hv.height
    unfold INT_MIN; omega
  obtain ⟨img', hl⟩ := load_bad img data hv.complete hv.signature hv.compression hv.bitCount
    (le_of_lt hv.width) hmin hfit hc hfits k0 x0 hk hx hp hrows' hcols'
  refine ⟨k0, x0, img', hk, hx, hp, ?_, hl⟩
  rintro k x hx' (h | ⟨rfl, h⟩)
  · exact hrows' k h x hx'
  · exact hcols' x h

/-- C3, witness: the file `sampleGray` loaded into a fresh image; the load ends with the
diagnostic for column 0, grid row 0, the first pixel of the second stored row. -/
theorem C3_colorValidation_witness :
    (∃ k0 x0 img', k0 < fileHeight sampleGray ∧ x0 < fileWidth sampleGray ∧
      ¬ diskBW sampleGray k0 x0 ∧
      (∀ k x, x < fileWidth sampleGray → k < k0 ∨ (k = k0 ∧ x < x0) → diskBW sampleGray k x) ∧
      BmpImage.fresh.load (some sampleGray) =
        Except.ok { ret := false,
                    cerr := some (Msg.badColor x0 (fileHeight sampleGray - 1 - k0)),
                    img := img' }) ∧
    Except.map LoadOut.cerr (BmpImage.fresh.load (some sampleGray)) =
      Except.ok (some (Msg.badColor 0 0)) :=
  ⟨C3_colorValidation BmpImage.fresh sampleGray sampleGray_valid (by decide) (by decide)
    (rowsFit_fresh sampleGray) ⟨1, 1, by decide, by decide, by decide⟩, rfl⟩

/-- C3, counterexample: `wideGray` has a valid header, complete pixel data and a pixel of
colour (10, 10, 10), but `load` into a fresh image does not return: the row size overflows
`int` before any pixel is looked at, so no coordinates are reported.  And `sampleGray`,
loaded into the image state `narrowImage` (two rows of one pixel), does not return either:
the rows that `resize` keeps are one pixel wide and the loop indexes column 1 of grid row
1 before it reaches the first rejected pixel. -/
theorem C3_counterexample :
    (ValidHeader wideGray ∧ CompletePixelData wideGray ∧
      (0 < fileHeight wideGray ∧ 0 < fileWidth wideGray ∧ ¬ diskBW wideGray 0 0) ∧
      BmpImage.fresh.load (some wideGray) = Except.error Fault.undefined ∧
      ¬ Fails (BmpImage.fresh.load (some wideGray))) ∧
    (ValidHeader sampleGray ∧ CompletePixelData sampleGray ∧ StrideFits sampleGray ∧
      (1 < fileHeight sampleGray ∧ 0 < fileWidth sampleGray ∧ ¬ diskBW sampleGray 1 0) ∧
      narrowImage.load (some sampleGray) = Except.error Fault.undefined) := by
  obtain ⟨h1, h2, h3, h4, h5, h6⟩ := wide_fields ([10, 10, 10] ++ List.replicate 268435453 255)
  have hl := wide_load ([10, 10, 10] ++ List.replicate 268435453 255)
  refine ⟨⟨wide_valid _,
    wide_complete _ (by rw [List.length_append, List.length_replicate]; norm_num),
    ⟨?_, ?_, ?_⟩, hl, ?_⟩,
    ⟨sampleGray_valid, by decide, by decide, ⟨by decide, by decide, by decide⟩, rfl⟩⟩
  · unfold fileHeight wideGray; rw [h4]; decide
  · unfold fileWidth wideGray; rw [h3]; decide
  · have hb : diskBase wideGray 0 0 = 54 := by
      unfold diskBase fileStride fileWidth wideGray
      rw [h2, h3, h5, Nat.zero_mul, Nat.zero_mul]
    have hg : wideGray[54]? = some 10 := by
      unfold wideGray
      rw [List.getElem?_append_right (by rw [sampleHeader_length]), sampleHeader_length,
        List.getElem?_append_left (by decide)]
      rfl
    unfold diskBW
    rw [hb, hg]
    decide
  · rintro ⟨out, ho, -⟩
    unfold wideGray at ho
    rw [hl] at ho
    exact nomatch ho

/-- C4: for every file whose first two bytes are not 'B', 'M' (so that the type field of
the file header is not 0x4D42), `load` returns `false` with the data members `width`,
`height`, `bitCount` and `pixels` exactly as they were, whatever the rest of the file holds
(it may end right after the two bytes) and whatever the state of the `BmpImage` was: the
signature test is evaluated before anything else, so no pixel is processed. -/
theorem C4_signature (img : BmpImage) (data : List Byte) (h2 : 2 ≤ data.length)
    (hsig : data.take 2 ≠ [0x42, 0x4D]) :
    hdrType data ≠ 0x4D42 ∧
    img.load (some data) =
      Except.ok { ret := false, cerr := some Msg.notValidBmp, img := img } :=
  ⟨fun h => hsig ((hdrType_eq_iff data h2).1 h),
   load_badType img data h2 (fun h => hsig ((hdrType_eq_iff data h2).1 h))⟩

/-- C4, witness: a two-byte file "BN" loaded into a fresh image. -/
theorem C4_signature_witness :
    BmpImage.fresh.load (some [0x42, 0x4E]) =
      Except.ok { ret := false, cerr := some Msg.notValidBmp, img := BmpImage.fresh } :=
  (C4_signature BmpImage.fresh [0x42, 0x4E] (by decide) (by decide)).2

/-- C5 (amended): for every file that can be opened, has both headers complete, positive
width, a height that is neither 0 nor -2^31, complete pixel data at the stated offset and,
when its bit depth is 24 or 32, a row size computable in `int`, `load` into an image that is
fresh, or whose existing rows are at least as wide as the file, returns `true` if and only
if the signature is "BM", the compression field is 0, the bit depth is 24 or 32 and every
pixel is black or white; a non-zero compression field or a bit depth other than 24 and 32
each make it return `false`. -/
theorem C5_acceptance (img : BmpImage) (data : List Byte) (h54 : 54 ≤ data.length)
    (hw : 0 < hdrWidth data) (_hh : hdrHeight data ≠ 0) (hc : CompletePixelData data)
    (hmin : hdrHeight data ≠ INT_MIN)
    (hfit : hdrBitCount data = 24 ∨ hdrBitCount data = 32 → StrideFits data)
    (hfits : RowsFit img data) :
    (Succeeds (img.load (some data)) ↔
      hdrType data = 0x4D42 ∧ hdrCompression data = 0 ∧
        (hdrBitCount data = 24 ∨ hdrBitCount data = 32) ∧ AllBW data) ∧
    (hdrCompression data ≠ 0 → Fails (img.load (some data))) ∧
    (¬ (hdrBitCount data = 24 ∨ hdrBitCount data = 32) → Fails (img.load (some data))) := by
  have hiff : Succeeds (img.load (some data)) ↔
      hdrType data = 0x4D42 ∧ hdrCompression data = 0 ∧
        (hdrBitCount data = 24 ∨ hdrBitCount data = 32) ∧ AllBW data := by
    constructor
    · intro hs
      obtain ⟨hty, hcomp, hbc, -, -⟩ := load_inv img data h54 hmin hs
      exact ⟨hty, hcomp, hbc, load_allBW img data h54 hmin hc hfits hs⟩
    · rintro ⟨hty, hcomp, hbc, hbw⟩
      exact load_good img data h54 hty hcomp hbc (le_of_lt hw) hmin (hfit hbc) hc hfits hbw
  refine ⟨hiff, ?_, ?_⟩
  · intro hcomp
    by_cases hty : hdrType data = 0x4D42
    · exact ⟨_, load_badComp _ data h54 hty hcomp, rfl⟩
    · exact ⟨_, load_badType _ data (by omega) hty, rfl⟩
  · intro hbc
    by_cases hty : hdrType data = 0x4D42
    · by_cases hcomp : hdrCompression data = 0
      · exact ⟨_, load_badBitCount _ data h54 hty hcomp hmin hbc, rfl⟩
      · exact ⟨_, load_badComp _ data h54 hty hcomp, rfl⟩
    · exact ⟨_, load_badType _ data (by omega) hty, rfl⟩

/-- C5, witness: the file `sample24` loaded into a fresh image. -/
theorem C5_acceptance_witness :
    (Succeeds (BmpImage.fresh.load (some sample24)) ↔
      hdrType sample24 = 0x4D42 ∧ hdrCompression sample24 = 0 ∧
        (hdrBitCount sample24 = 24 ∨ hdrBitCount sample24 = 32) ∧ AllBW sample24) ∧
    AllBW sample24 :=
  ⟨(C5_acceptance BmpImage.fresh sample24 (by decide) (by decide) (by decide) (by decide)
      (by decide) (fun _ => by decide) (rowsFit_fresh sample24)).1, by decide⟩

/-- C5, counterexample: `wideWhite` and `tallWhite` satisfy every condition of the claim and
every pixel is white, yet `load` into a fresh image does not return `true`: for the first
the row size overflows `int`, for the second `std::abs` of the height -2^31 is not an `int`.
And `alpha32`, which a fresh image accepts, is not accepted by the image state
`white24Image`, whose only row is one pixel wide: the loop indexes column 1 of that row. -/
theorem C5_counterexample :
    (54 ≤ wideWhite.length ∧ 0 < hdrWidth wideWhite ∧ hdrHeight wideWhite ≠ 0 ∧
      CompletePixelData wideWhite ∧ hdrType wideWhite = 0x4D42 ∧
      hdrCompression wideWhite = 0 ∧ hdrBitCount wideWhite = 24 ∧ AllBW wideWhite ∧
      ¬ Succeeds (BmpImage.fresh.load (some wideWhite))) ∧
    (54 ≤ tallWhite.length ∧ 0 < hdrWidth tallWhite ∧ hdrHeight tallWhite ≠ 0 ∧
      CompletePixelData tallWhite ∧ hdrType tallWhite = 0x4D42 ∧
      hdrCompression tallWhite = 0 ∧ hdrBitCount tallWhite = 24 ∧ AllBW tallWhite ∧
      ¬ Succeeds (BmpImage.fresh.load (some tallWhite))) ∧
    (54 ≤ alpha32.length ∧ 0 < hdrWidth alpha32 ∧ hdrHeight alpha32 ≠ 0 ∧
      CompletePixelData alpha32 ∧ hdrType alpha32 = 0x4D42 ∧
      hdrCompression alpha32 = 0 ∧ hdrBitCount alpha32 = 32 ∧ AllBW alpha32 ∧
      white24Image.load (some alpha32) = Except.error Fault.undefined) := by
  refine ⟨?_, ?_, by decide, by decide, by decide, by decide, by decide, by decide, by decide,
    by decide, rfl⟩
  · obtain ⟨h1, h2, h3, h4, h5, h6⟩ := wide_fields (List.replicate 268435456 255)
    have hv := wide_valid (List.replicate 268435456 255)
    refine ⟨hv.complete, hv.width, ne_of_gt hv.height,
      wide_complete _ (List.length_replicate _ _), h1, h6, h5, wideWhite_allBW, ?_⟩
    rintro ⟨out, ho, -⟩
    unfold wideWhite at ho
    rw [wide_load] at ho
    exact nomatch ho
  · obtain ⟨h1, h2, h3, h4, h5, h6⟩ := tall_fields (List.replicate 8589934592 255)
    have h54 : 54 ≤ tallWhite.length := by
      unfold tallWhite
      rw [List.length_append, sampleHeader_length]; omega
    refine ⟨h54, by unfold tallWhite; rw [h3]; decide,
      by unfold tallWhite; rw [h4]; decide, tallWhite_complete, h1, h6, h5,
      white_allBW _ _ rfl h2 (Or.inl h5) tallWhite_complete, ?_⟩
    rintro ⟨out, ho, -⟩
    rw [load_minHeight _ tallWhite h54 h1 h6 h4] at ho
    exact nomatch ho

/-- C6 (amended): for every prior state of a `BmpImage` and every file on which `load`
returns `false`, the failure is one of four kinds, told apart by the diagnostic: the file
could not be opened, it is not a valid uncompressed BMP (bad signature or non-zero
compression), its bit count is unsupported, or a pixel is neither black nor white.  After a
failure of the first two kinds `width`, `height`, `bitCount` and the grid equal their values
before the call; after an unsupported bit count the grid equals its value before the call,
while `width`, `height` and `bitCount` hold the values of the header of the file (the width
field, the absolute value of the height field, the bit depth field), and the bit depth field
is the value that the diagnostic reports.  Nothing is stated for a failure on a pixel
colour. -/
theorem C6_atomicity (img : BmpImage) (file : Option (List Byte)) (out : LoadOut)
    (h : img.load file = Except.ok out) (hret : out.ret = false) :
    (out.cerr = some Msg.openFailed ∨ out.cerr = some Msg.notValidBmp ∨
      (∃ b, out.cerr = some (Msg.unsupportedBitCount b)) ∨
      (∃ x y, out.cerr = some (Msg.badColor x y))) ∧
    (out.cerr = some Msg.openFailed ∨ out.cerr = some Msg.notValidBmp → out.img = img) ∧
    (∀ b, out.cerr = some (Msg.unsupportedBitCount b) →
      out.img.pixels = img.pixels ∧
      ∃ data, file = some data ∧ out.img.width = hdrWidth data ∧
        out.img.height = ((hdrHeight data).natAbs : Int) ∧
        out.img.bitCount = (hdrBitCount data : Int) ∧ b = (hdrBitCount data : Int)) := by
  refine ⟨(load_out_inv img file out h).1 hret, (load_out_inv img file out h).2.1, ?_⟩
  intro b hb
  cases file with
  | none =>
    have e : out = { ret := false, cerr := some Msg.openFailed, img := img } :=
      (Except.ok.inj h).symm
    rw [e] at hb
    cases hb
  | some data =>
    have := load_unsupported img data out b h hb
    exact ⟨this.1, data, rfl, this.2⟩

/-- C6, witness: the file `depth16` loaded into the image state `alpha32Image`. -/
theorem C6_atomicity_witness :
    alpha32Image.load (some depth16) =
      Except.ok { ret := false, cerr := some (Msg.unsupportedBitCount 16),
                  img := { alpha32Image with width := 1, height := 1, bitCount := 16 } } ∧
    (∀ b, some (Msg.unsupportedBitCount 16) = some (Msg.unsupportedBitCount b) →
      ({ alpha32Image with width := 1, height := 1, bitCount := 16 } : BmpImage).pixels =
        alpha32Image.pixels ∧
      ∃ data, some depth16 = some data ∧
        ({ alpha32Image with width := 1, height := 1, bitCount := 16 } : BmpImage).width =
          hdrWidth data ∧
        ({ alpha32Image with width := 1, height := 1, bitCount := 16 } : BmpImage).height =
          ((hdrHeight data).natAbs : Int) ∧
        ({ alpha32Image with width := 1, height := 1, bitCount := 16 } : BmpImage).bitCount =
          (hdrBitCount data : Int) ∧ b = (hdrBitCount data : Int)) :=
  ⟨rfl,
    (C6_atomicity alpha32Image (some depth16)
      { ret := false, cerr := some (Msg.unsupportedBitCount 16),
        img := { alpha32Image with width := 1, height := 1, bitCount := 16 } }
      rfl rfl).2.2⟩

/-- C6, counterexample: `load` into a fresh image returns `false` on `depth16` (unsupported
bit depth) and on `sampleGray` (a pixel that is neither black nor white); after the first
call `width`, `height` and `bitCount` are 1, 1 and 16, after the second the grid has two rows
of two pixels, one of them the rejected pixel. -/
theorem C6_counterexample :
    (BmpImage.fresh.load (some depth16) =
        Except.ok { ret := false, cerr := some (Msg.unsupportedBitCount 16),
                    img := { width := 1, height := 1, bitCount := 16, pixels := [] } } ∧
      ({ width := 1, height := 1, bitCount := 16, pixels := [] } : BmpImage) ≠
        BmpImage.fresh) ∧
    (BmpImage.fresh.load (some sampleGray) =
        Except.ok { ret := false, cerr := some (Msg.badColor 0 0),
                    img := { width := 2, height := 2, bitCount := 24,
                             pixels := [[{ r := 10, g := 10, b := 10 }, Pixel.init],
                                        [{ r := 0, g := 0, b := 0 },
                                         { r := 255, g := 255, b := 255 }]] } } ∧
      ({ width := 2, height := 2, bitCount := 24,
         pixels := [[{ r := 10, g := 10, b := 10 }, Pixel.init],
                    [{ r := 0, g := 0, b := 0 }, { r := 255, g := 255, b := 255 }]] } :
        BmpImage) ≠ BmpImage.fresh) :=
  ⟨⟨rfl, by decide⟩, ⟨rfl, by decide⟩⟩

/-- C7 (amended): when the file has its 54 header bytes and all `height * rowStride` bytes
of pixel data from `bfOffBits` on, the header height is positive and `load` into a fresh
image returns `true`, then `width`, `height` and `bitCount` are those of the header, the grid
has exactly `height` rows of exactly `width` pixels, and pixel (x, y) has
`b = byte[base]`, `g = byte[base + 1]`, `r = byte[base + 2]`, `a = byte[base + 3]` for a
32-bit file and `a = 255` for a 24-bit file, where
`base = bfOffBits + (height - 1 - y) * rowStride + x * (bitCount / 8)`
(this is `diskBase data (height - 1 - y) x`); in particular the last row read fills grid
row 0. -/
theorem C7_decodeLayout (data : List Byte) (h54 : 54 ≤ data.length)
    (hpos : 0 < hdrHeight data) (hc : CompletePixelData data) (out : LoadOut)
    (hload : BmpImage.fresh.load (some data) = Except.ok out) (hret : out.ret = true) :
    out.img.width = hdrWidth data ∧ out.img.height = hdrHeight data ∧
    out.img.bitCount = hdrBitCount data ∧
    (hdrBitCount data = 24 ∨ hdrBitCount data = 32) ∧
    out.img.pixels.length = fileHeight data ∧
    (∀ row ∈ out.img.pixels, row.length = fileWidth data) ∧
    ∀ x y, x < fileWidth data → y < fileHeight data →
      ∃ row p, out.img.pixels[y]? = some row ∧ row[x]? = some p ∧
        data[diskBase data (fileHeight data - 1 - y) x]? = some p.b ∧
        data[diskBase data (fileHeight data - 1 - y) x + 1]? = some p.g ∧
        data[diskBase data (fileHeight data - 1 - y) x + 2]? = some p.r ∧
        (hdrBitCount data = 32 →
          data[diskBase data (fileHeight data - 1 - y) x + 3]? = some p.a) ∧
        (hdrBitCount data = 24 → p.a = 255) := by
  have hmin : hdrHeight data ≠ INT_MIN := by unfold INT_MIN; omega
  have hs : Succeeds (BmpImage.fresh.load (some data)) := ⟨out, hload, hret⟩
  obtain ⟨hty, hcomp, hbc, hw, hfit⟩ := load_inv BmpImage.fresh data h54 hmin hs
  have hbw := load_allBW BmpImage.fresh data h54 hmin hc (rowsFit_fresh data) hs
  rw [load_fresh_ok data h54 hty hcomp hbc hw hmin hfit hc hbw] at hload
  cases hload
  refine ⟨rfl, ?_, rfl, hbc, decodeGrid_length data, decodeGrid_row_length data, ?_⟩
  · show ((fileHeight data : Nat) : Int) = hdrHeight data
    unfold fileHeight
    omega
  · intro x y hx hy
    obtain ⟨d0, d1, d2, d3, d4⟩ :=
      decodePx_disk data hbc hc (fileHeight data - 1 - y) x (by omega) hx Pixel.init
    refine ⟨_, _, decodeGrid_row data y hy, ?_, d0, d1, d2, d3, d4⟩
    rw [List.getElem?_map, List.getElem?_range hx]
    rfl

/-- C7, witness: the file `sample24`. -/
theorem C7_decodeLayout_witness :
    ∃ out, BmpImage.fresh.load (some sample24) = Except.ok out ∧
      out.img.pixels.length = fileHeight sample24 ∧
      ∀ x y, x < fileWidth sample24 → y < fileHeight sample24 →
        ∃ row p, out.img.pixels[y]? = some row ∧ row[x]? = some p ∧
          sample24[diskBase sample24 (fileHeight sample24 - 1 - y) x]? = some p.b ∧
          sample24[diskBase sample24 (fileHeight sample24 - 1 - y) x + 1]? = some p.g ∧
          sample24[diskBase sample24 (fileHeight sample24 - 1 - y) x + 2]? = some p.r ∧
          (hdrBitCount sample24 = 32 →
            sample24[diskBase sample24 (fileHeight sample24 - 1 - y) x + 3]? = some p.a) ∧
          (hdrBitCount sample24 = 24 → p.a = 255) :=
  ⟨{ ret := true, cerr := none,
     img := { width := 2, height := 2, bitCount := 24,
              pixels := [[⟨255, 255, 255, 255⟩, ⟨0, 0, 0, 255⟩],
                         [⟨0, 0, 0, 255⟩, ⟨255, 255, 255, 255⟩]] } },
   rfl,
   (C7_decodeLayout sample24 (by decide) (by decide) (by decide) _ rfl rfl).2.2.2.2.1,
   (C7_decodeLayout sample24 (by decide) (by decide) (by decide) _ rfl rfl).2.2.2.2.2.2⟩

/-- C7, counterexample: `load` returns `true` on two truncated files.  For `truncatedRows`
the second `read` fails and grid row 0 is decoded from the bytes left in the buffer, while
`byte[base]` for pixel (0, 0) is past the end of the file.  For `truncatedHeader` the
stream fails in the info header, no `read` of a row succeeds, pixel (0, 0) is decoded from
the zero-filled buffer and has `b = 0`, while `byte[base]` is the byte 'B' of the header. -/
theorem C7_counterexample :
    (0 < hdrHeight truncatedRows ∧
      BmpImage.fresh.load (some truncatedRows) =
        Except.ok { ret := true, cerr := none,
                    img := { width := 1, height := 2, bitCount := 24,
                             pixels := [[⟨255, 255, 255, 255⟩], [⟨255, 255, 255, 255⟩]] } } ∧
      diskBase truncatedRows (fileHeight truncatedRows - 1 - 0) 0 = 58 ∧
      truncatedRows[58]? = none) ∧
    (0 < hdrHeight truncatedHeader ∧ CompletePixelData truncatedHeader ∧
      BmpImage.fresh.load (some truncatedHeader) =
        Except.ok { ret := true, cerr := none,
                    img := { width := 1, height := 1, bitCount := 24,
                             pixels := [[⟨0, 0, 0, 255⟩]] } } ∧
      diskBase truncatedHeader (fileHeight truncatedHeader - 1 - 0) 0 = 0 ∧
      truncatedHeader[0]? = some 0x42) :=
  ⟨⟨by decide, rfl, rfl, rfl⟩, ⟨by decide, by decide, rfl, rfl, rfl⟩⟩

/-- C8 (the code at the failing input): `topDown24` is a top-down file (height -2) whose
first stored row, the topmost displayed row, is black and whose second stored row is white;
`load` succeeds and puts the white row into grid row 0 and the black row into grid row 1, so
grid row 0 is not the topmost displayed row and grid row `y` does not hold on-disk row
`y`. -/
theorem C8_topDown_flipped :
    hdrHeight topDown24 = -2 ∧
    topDown24[diskBase topDown24 0 0]? = some 0 ∧
    BmpImage.fresh.load (some topDown24) =
      Except.ok { ret := true, cerr := none,
                  img := { width := 1, height := 2, bitCount := 24,
                           pixels := [[{ r := 255, g := 255, b := 255 }],
                                      [{ r := 0, g := 0, b := 0 }]] } } :=
  ⟨by decide, by decide, rfl⟩

/-- C9 (the code at the failing input): after a successful `load` of the 32-bit 2 x 1 file
`alpha32`, a successful `load` of the 24-bit 1 x 1 file `white24` leaves a grid of one row
with two pixels whose alpha is 128, where a load into a fresh image gives one row of one
pixel with alpha 255.  In the other order (`white24` first, then `alpha32`) the second
`load` indexes the kept one-pixel row at column 1, outside the vector. -/
theorem C9_stale_state :
    BmpImage.fresh.load (some alpha32) =
      Except.ok { ret := true, cerr := none, img := alpha32Image } ∧
    BmpImage.fresh.load (some white24) =
      Except.ok { ret := true, cerr := none, img := white24Image } ∧
    alpha32Image.load (some white24) =
      Except.ok { ret := true, cerr := none,
                  img := { width := 1, height := 1, bitCount := 24,
                           pixels := [[{ r := 255, g := 255, b := 255, a := 128 },
                                       { r := 255, g := 255, b := 255, a := 128 }]] } } ∧
    white24Image.load (some alpha32) = Except.error Fault.undefined :=
  ⟨rfl, rfl, rfl, rfl⟩

/-- C10 (amended): for every image state with `width >= 0`, `0 <= height` (an `int`),
`bitCount` in {24, 32}, a row size computable in `int` and a grid with at least `height` rows
of at least `width` pixels, `save` returns `true` and the first 54 bytes it writes are a
14-byte file header followed by a 40-byte info header with signature "BM" (0x4D42),
info-header size 40, offset to the pixel data 54, total file size
`(54 + rowStride * height) mod 2^32`, width and height equal to the image's, planes 1, bit
count equal to `bitCount`, compression 0, image size `(rowStride * height) mod 2^32` and
every other field 0; the whole output is exactly `54 + rowStride * height` bytes long.  The
two size fields are 32 bits wide, so they hold `54 + rowStride * height` and
`rowStride * height` themselves exactly when the file is shorter than 2^32 bytes. -/
theorem C10_headerSerialization (img : BmpImage) (hw : 0 ≤ img.width) (hh : 0 ≤ img.height)
    (hmax : img.height ≤ INT_MAX) (hbc : img.bitCount = 24 ∨ img.bitCount = 32)
    (hfit : img.width * img.bitCount + 31 ≤ INT_MAX)
    (hg : ∀ y, y < img.height.toNat →
      ∃ r, img.pixels[y]? = some r ∧ img.width.toNat ≤ r.length) :
    ∃ out, img.save true = Except.ok (true, out) ∧
      out.take 14 = fileHeaderBytes 0x4D42
        ((54 + rowStride img.width.toNat img.bitCount.toNat * img.height.toNat) % 2 ^ 32) 54 ∧
      (out.drop 14).take 40 = infoHeaderBytes 40 img.width.toNat img.height.toNat 1
        img.bitCount.toNat 0
        ((rowStride img.width.toNat img.bitCount.toNat * img.height.toNat) % 2 ^ 32) ∧
      out.length = 54 + rowStride img.width.toNat img.bitCount.toNat * img.height.toNat := by
  have hbn : img.bitCount.toNat = 24 ∨ img.bitCount.toNat = 32 := by omega
  have hbI : img.bitCount = (img.bitCount.toNat : Int) := by omega
  have hs := save_eq img img.width.toNat img.height.toNat img.bitCount.toNat
    (Int.toNat_of_nonneg hw).symm (Int.toNat_of_nonneg hh).symm hbI hbn
    (by rw [Int.toNat_of_nonneg hw, ← hbI]; exact hfit)
    (by rw [Int.toNat_of_nonneg hh]; exact hmax) hg
  have hstride : img.width.toNat * (((img.bitCount.toNat : Nat) : Int).tdiv 8).toNat ≤
      rowStride img.width.toNat img.bitCount.toNat := by
    rw [bpp_cast _ hbn]; exact stride_ge _ _ hbn
  have hbl := bodyBytes_length (img.bitCount.toNat : Int) (by omega) img.width.toNat
    (rowStride img.width.toNat img.bitCount.toNat) hstride img.pixels img.height.toNat hg
  refine ⟨_, hs, ?_, ?_, ?_⟩
  · rw [List.append_assoc, List.take_append_of_le_length (by exact Nat.le_refl 14)]
    exact List.take_of_length_le (Nat.le_refl 14)
  · rw [List.append_assoc, List.drop_append_of_le_length (by exact Nat.le_refl 14),
      List.drop_eq_nil_of_le (by exact Nat.le_refl 14), List.nil_append,
      List.take_append_of_le_length (by exact Nat.le_refl 40)]
    exact List.take_of_length_le (Nat.le_refl 40)
  · rw [List.length_append, hbl]
    show 54 + _ = _
    rw [Nat.mul_comm]

/-- C10, witness: the 2 x 2 image `sampleImage`. -/
theorem C10_headerSerialization_witness :
    ∃ out, sampleImage.save true = Except.ok (true, out) ∧
      out.take 14 = fileHeaderBytes 0x4D42
        ((54 + rowStride sampleImage.width.toNat sampleImage.bitCount.toNat *
          sampleImage.height.toNat) % 2 ^ 32) 54 ∧
      (out.drop 14).take 40 = infoHeaderBytes 40 sampleImage.width.toNat
        sampleImage.height.toNat 1 sampleImage.bitCount.toNat 0
        ((rowStride sampleImage.width.toNat sampleImage.bitCount.toNat *
          sampleImage.height.toNat) % 2 ^ 32) ∧
      out.length = 54 + rowStride sampleImage.width.toNat sampleImage.bitCount.toNat *
        sampleImage.height.toNat :=
  C10_headerSerialization sampleImage (by decide) (by decide) (by decide) (by decide)
    (by decide)
    (fun y hy =>
      match y, hy with
      | 0, _ => ⟨_, rfl, by decide⟩
      | 1, _ => ⟨_, rfl, by decide⟩
      | n + 2, h => absurd h (by
          show ¬ n + 2 < 2
          omega))

/-- C10, counterexample: three image states with `width >= 0`, `height >= 0` and 24 bits.
For `emptyGridImage` the grid has no row to read pixel (0, 0) from; for `wideImage` the row
size is not an `int`; for `bigImage` `save` succeeds, but the file-size field (bytes 2..5 of
the output) cannot hold `54 + rowStride * height = 4563402738`. -/
theorem C10_counterexample :
    (0 ≤ emptyGridImage.width ∧ 0 ≤ emptyGridImage.height ∧ emptyGridImage.bitCount = 24 ∧
      emptyGridImage.save true = Except.error Fault.undefined) ∧
    (0 ≤ wideImage.width ∧ 0 ≤ wideImage.height ∧ wideImage.bitCount = 24 ∧
      wideImage.save true = Except.error Fault.undefined) ∧
    (0 ≤ bigImage.width ∧ 0 ≤ bigImage.height ∧ bigImage.bitCount = 24 ∧
      ∃ out, bigImage.save true = Except.ok (true, out) ∧
        leNat ((out.drop 2).take 4) ≠
          54 + rowStride bigImage.width.toNat bigImage.bitCount.toNat *
            bigImage.height.toNat) := by
  refine ⟨⟨by decide, by decide, rfl, rfl⟩, ⟨by decide, by decide, rfl, rfl⟩,
    by decide, by decide, rfl, ?_⟩
  refine ⟨_, save_eq bigImage 89478484 17 24 rfl rfl rfl (Or.inl rfl) (by decide) (by decide)
    bigImage_shape, ?_⟩
  apply ne_of_lt
  refine lt_of_lt_of_le (leNat_lt _) ?_
  refine le_trans (Nat.pow_le_pow_right (by norm_num) (List.length_take_le 4 _)) ?_
  show 256 ^ 4 ≤ 54 + rowStride 89478484 24 * 17
  decide

/-- C11 (amended): for every image state with a `height x width` grid, `bitCount` in
{24, 32} and a row size computable in `int`, `save` returns `true` and what it writes after
the 54 header bytes is `height` blocks of exactly `rowStride` bytes each, the block of grid
row `y` being block number `height - 1 - y` (so the blocks stand for the rows
`height - 1` down to 0); in the block of row `y` pixel `x` occupies the bytes
`x * bpp .. x * bpp + bpp - 1` in the order blue, green, red (then alpha for 32 bits), and
every byte at a position `>= width * bpp` inside the block is 0. -/
theorem C11_rowEncoding (img : BmpImage) (hw : 0 ≤ img.width) (hh : 0 ≤ img.height)
    (hmax : img.height ≤ INT_MAX) (hbc : img.bitCount = 24 ∨ img.bitCount = 32)
    (hfit : img.width * img.bitCount + 31 ≤ INT_MAX)
    (hlen : img.pixels.length = img.height.toNat)
    (hrow : ∀ r, r ∈ img.pixels → r.length = img.width.toNat) :
    ∃ out, img.save true = Except.ok (true, out) ∧
      out.length = 54 + img.height.toNat * rowStride img.width.toNat img.bitCount.toNat ∧
      ∀ y, y < img.height.toNat →
        ∃ block,
          rowAt (out.drop 54) (rowStride img.width.toNat img.bitCount.toNat)
            (img.height.toNat - 1 - y) = block ∧
          block.length = rowStride img.width.toNat img.bitCount.toNat ∧
          (∀ x, x < img.width.toNat →
            ∃ p, getPx img.pixels y x = Except.ok p ∧
              block[x * (img.bitCount.toNat / 8)]? = some p.b ∧
              block[x * (img.bitCount.toNat / 8) + 1]? = some p.g ∧
              block[x * (img.bitCount.toNat / 8) + 2]? = some p.r ∧
              (img.bitCount = 32 → block[x * (img.bitCount.toNat / 8) + 3]? = some p.a)) ∧
          ∀ i, img.width.toNat * (img.bitCount.toNat / 8) ≤ i →
            i < rowStride img.width.toNat img.bitCount.toNat → block[i]? = some 0 := by
  have hbn : img.bitCount.toNat = 24 ∨ img.bitCount.toNat = 32 := by omega
  have hbI : img.bitCount = (img.bitCount.toNat : Int) := by omega
  have hg : ∀ y, y < img.height.toNat →
      ∃ r, img.pixels[y]? = some r ∧ img.width.toNat ≤ r.length := by
    intro y hy
    refine ⟨img.pixels[y], List.getElem?_eq_getElem (by omega), ?_⟩
    rw [hrow _ (List.getElem_mem _)]
  have hs := save_eq img img.width.toNat img.height.toNat img.bitCount.toNat
    (Int.toNat_of_nonneg hw).symm (Int.toNat_of_nonneg hh).symm hbI hbn
    (by rw [Int.toNat_of_nonneg hw, ← hbI]; exact hfit)
    (by rw [Int.toNat_of_nonneg hh]; exact hmax) hg
  have hbpp : (((img.bitCount.toNat : Nat) : Int).tdiv 8).toNat = img.bitCount.toNat / 8 :=
    bpp_cast _ hbn
  have hstride : img.width.toNat * (((img.bitCount.toNat : Nat) : Int).tdiv 8).toNat ≤
      rowStride img.width.toNat img.bitCount.toNat := by
    rw [hbpp]; exact stride_ge _ _ hbn
  have hbcI : ((img.bitCount.toNat : Nat) : Int) = 24 ∨ ((img.bitCount.toNat : Nat) : Int) = 32 := by
    omega
  have hbl := bodyBytes_length (img.bitCount.toNat : Int) hbcI img.width.toNat
    (rowStride img.width.toNat img.bitCount.toNat) hstride img.pixels img.height.toNat hg
  refine ⟨_, hs, ?_, ?_⟩
  · rw [List.length_append, hbl]
    rfl
  · intro y hy
    have hdrop : ∀ (a b c : List Byte), (a ++ b).length = 54 → (a ++ b ++ c).drop 54 = c := by
      intro a b c h
      rw [← h, List.drop_left]
    rw [hdrop (fileHeaderBytes _ _ _) (infoHeaderBytes _ _ _ _ _ _ _) _ rfl,
      rowAt_bodyBytes _ hbcI _ _ hstride _ _ hg _ (by omega)]
    have ey : img.height.toNat - 1 - (img.height.toNat - 1 - y) = y := by omega
    rw [ey]
    obtain ⟨r, hr, hrl⟩ := hg y hy
    have hD : img.pixels.getD y [] = r := by rw [List.getD_eq_getElem?_getD, hr]; rfl
    rw [hD]
    refine ⟨_, rfl, encodeRow_length _ hbcI _ _ hstride r hrl, ?_, ?_⟩
    · intro x hx
      have hxr : x < r.length := by omega
      refine ⟨r[x], ?_, ?_⟩
      · unfold getPx
        rw [hr]
        simp only [List.getElem?_eq_getElem hxr]
        rfl
      · have hp : r.getD x Pixel.init = r[x] := List.getD_eq_getElem _ _ hxr
        have key := fun j hj => encodeRow_px _ hbcI img.width.toNat
          (rowStride img.width.toNat img.bitCount.toNat) r hrl x hx j hj
        rw [hbpp, hp] at key
        rcases hbn with h24 | h32
        · rw [h24] at key ⊢
          have k0 := key 0 (by norm_num)
          have k1 := key 1 (by norm_num)
          have k2 := key 2 (by norm_num)
          refine ⟨k0, k1, k2, ?_⟩
          intro h; omega
        · rw [h32] at key ⊢
          have k0 := key 0 (by norm_num)
          have k1 := key 1 (by norm_num)
          have k2 := key 2 (by norm_num)
          have k3 := key 3 (by norm_num)
          exact ⟨k0, k1, k2, fun _ => k3⟩
    · intro i hi hi2
      exact encodeRow_zero _ hbcI _ _ r hrl i (by rw [hbpp]; exact hi) hi2

/-- C11, witness: the 2 x 2 image `sampleImage`. -/
theorem C11_rowEncoding_witness :
    ∃ out, sampleImage.save true = Except.ok (true, out) ∧
      out.length = 54 + sampleImage.height.toNat *
        rowStride sampleImage.width.toNat sampleImage.bitCount.toNat ∧
      ∀ y, y < sampleImage.height.toNat →
        ∃ block,
          rowAt (out.drop 54) (rowStride sampleImage.width.toNat sampleImage.bitCount.toNat)
            (sampleImage.height.toNat - 1 - y) = block ∧
          block.length = rowStride sampleImage.width.toNat sampleImage.bitCount.toNat ∧
          (∀ x, x < sampleImage.width.toNat →
            ∃ p, getPx sampleImage.pixels y x = Except.ok p ∧
              block[x * (sampleImage.bitCount.toNat / 8)]? = some p.b ∧
              block[x * (sampleImage.bitCount.toNat / 8) + 1]? = some p.g ∧
              block[x * (sampleImage.bitCount.toNat / 8) + 2]? = some p.r ∧
              (sampleImage.bitCount = 32 →
                block[x * (sampleImage.bitCount.toNat / 8) + 3]? = some p.a)) ∧
          ∀ i, sampleImage.width.toNat * (sampleImage.bitCount.toNat / 8) ≤ i →
            i < rowStride sampleImage.width.toNat sampleImage.bitCount.toNat →
            block[i]? = some 0 :=
  C11_rowEncoding sampleImage (by decide) (by decide) (by decide) (by decide) (by decide)
    rfl (by decide)

/-- C11, counterexample: `wideRowImage` has a grid of 1 row of 89478485 pixels and 24 bits,
but `width * bitCount + 31 = 2147483671` is not an `int`, so `save` has no defined
output. -/
theorem C11_counterexample :
    wideRowImage.bitCount = 24 ∧ wideRowImage.pixels.length = wideRowImage.height.toNat ∧
      (∀ r, r ∈ wideRowImage.pixels → r.length = wideRowImage.width.toNat) ∧
      wideRowImage.save true = Except.error Fault.undefined := by
  refine ⟨rfl, rfl, ?_, rfl⟩
  intro r hr
  rw [List.mem_singleton.1 hr, List.length_replicate]
  rfl

/-- C12 (amended): for every image whose grid is `height x width` and all integer endpoints
for which no `int` operation of `drawLine` overflows (negative ones and ones `>= width` or
`>= height` included), `drawLine` is defined however long its loop is run, so it never
indexes the grid outside `[0, width) x [0, height)`; it returns after
`max |x2 - x1| |y2 - y1| + 1` iterations, and afterwards the grid still has exactly
`height` rows of `width` pixels. -/
theorem C12_clipping (img : BmpImage) (hshape : GridShape img) (x1 y1 x2 y2 : Int)
    (hno : NoOverflow x1 y1 x2 y2) :
    (∀ fuel e, img.drawLine fuel x1 y1 x2 y2 ≠ Except.error e) ∧
      ∃ img', img.drawLine (max (x2 - x1).natAbs (y2 - y1).natAbs + 1) x1 y1 x2 y2 =
          Except.ok (some img') ∧
        GridShape img' ∧ img'.width = img.width ∧ img'.height = img.height := by
  constructor
  · intro fuel e hc
    rw [drawLine_eq img hshape] at hc
    cases h : lineArith fuel x1 y1 x2 y2 with
    | error e' => exact hno fuel e' h
    | ok b =>
      rw [h] at hc
      cases b <;> cases hc
  · obtain ⟨h1, _⟩ := line_run x1 y1 x2 y2 hno _ rfl
    refine ⟨_, by rw [drawLine_eq img hshape, h1], ?_⟩
    obtain ⟨s1, s2, s3, _⟩ := plotAll_shape
      (lineVisited (max (x2 - x1).natAbs (y2 - y1).natAbs + 1) x1 y1 x2 y2) img hshape
    exact ⟨s1, s2, s3⟩

/-- C12, witness: the line from `(-5, 3)` to `(12, 8)` on the 10 x 10 image `white10`. -/
theorem C12_clipping_witness :
    (∀ fuel e, white10.drawLine fuel (-5) 3 12 8 ≠ Except.error e) ∧
      ∃ img', white10.drawLine (max ((12 : Int) - -5).natAbs ((8 : Int) - 3).natAbs + 1)
          (-5) 3 12 8 = Except.ok (some img') ∧
        GridShape img' ∧ img'.width = white10.width ∧ img'.height = white10.height :=
  C12_clipping white10 white10_shape (-5) 3 12 8 (noOverflow_of_done 18 (-5) 3 12 8 rfl)

/-- C12, counterexample: on the 10 x 10 image `white10` the call
`drawLine(0, 0, 1073741824, 0)` has `dx = err = 1073741824`, and `e2 = 2 * err` in the first
iteration is not an `int`. -/
theorem C12_counterexample :
    GridShape white10 ∧
      ∀ fuel, 1 ≤ fuel →
        white10.drawLine fuel 0 0 1073741824 0 = Except.error Fault.undefined := by
  refine ⟨white10_shape, ?_⟩
  intro fuel h
  match fuel, h with
  | n + 1, _ => rfl

/-- C13: for every `n >= 1` (an `int`) and every `n x n` all-white image, `drawX` returns,
each of its loops after `n` iterations, with width, height and bitCount unchanged and a grid
of `n` rows of `n` pixels in which pixel `(x, y)` is black `(0, 0, 0, 255)` if and only if
`x = y` or `x + y = n - 1`; every other pixel is what it was, so still white.  In
particular the four corners are black. -/
theorem C13_cross (n : Nat) (hn : 1 ≤ n) (hmax : (n : Int) ≤ INT_MAX) (img : BmpImage)
    (hw : img.width = n) (hh : img.height = n) (hshape : GridShape img)
    (hwhite : ∀ x y, x < n → y < n →
      ∃ p, getPx img.pixels y x = Except.ok p ∧ isWhite p = true) :
    ∃ img', img.drawX n = Except.ok (some img') ∧
      img'.width = img.width ∧ img'.height = img.height ∧ img'.bitCount = img.bitCount ∧
      GridShape img' ∧
      (∀ x y, x < n → y < n →
        ∃ p, getPx img'.pixels y x = Except.ok p ∧
          (p = Pixel.black ↔ (x = y ∨ x + y = n - 1)) ∧
          (¬ (x = y ∨ x + y = n - 1) →
            getPx img.pixels y x = Except.ok p ∧ isWhite p = true)) ∧
      getPx img'.pixels 0 0 = Except.ok Pixel.black ∧
      getPx img'.pixels 0 (n - 1) = Except.ok Pixel.black ∧
      getPx img'.pixels (n - 1) 0 = Except.ok Pixel.black ∧
      getPx img'.pixels (n - 1) (n - 1) = Except.ok Pixel.black := by
  have hmax' : (n : Int) ≤ 2147483647 := hmax
  obtain ⟨a1, m1⟩ := diag_line 0 ((n : Int) - 1) n hn hmax (Or.inl ⟨rfl, rfl⟩)
  obtain ⟨a2, m2⟩ := diag_line ((n : Int) - 1) 0 n hn hmax (Or.inr ⟨rfl, rfl⟩)
  have hX := drawX_eq img hshape (by rw [hw]; unfold INT_MIN; omega)
    (by rw [hw]; unfold INT_MAX; omega) (by rw [hh]; unfold INT_MIN; omega)
    (by rw [hh]; unfold INT_MAX; omega) n
  rw [hw, hh, a1, a2] at hX
  dsimp only at hX
  obtain ⟨s1, s2, s3, s4⟩ := plotAll_shape (lineVisited n 0 0 ((n : Int) - 1) ((n : Int) - 1))
    img hshape
  obtain ⟨t1, t2, t3, t4⟩ := plotAll_shape
    (lineVisited n ((n : Int) - 1) 0 0 ((n : Int) - 1)) _ s1
  have key : ∀ x y, x < n → y < n →
      getPx ((lineVisited n ((n : Int) - 1) 0 0 ((n : Int) - 1)).foldl plotPx
        ((lineVisited n 0 0 ((n : Int) - 1) ((n : Int) - 1)).foldl plotPx img)).pixels y x =
        if x = y ∨ x + y = n - 1 then Except.ok Pixel.black else getPx img.pixels y x := by
    intro x y hx hy
    have c : (x : Int) < n ∧ (y : Int) < n := ⟨by omega, by omega⟩
    have e1 := (m1 ((x : Int), (y : Int))).trans (mem_diag1 n x y hx)
    have e2 := (m2 ((x : Int), (y : Int))).trans (mem_diag2 n x y hx hy)
    rw [plotAll_get _ _ s1, plotAll_get _ _ hshape, s2, s3, hw, hh]
    by_cases d2 : x + y = n - 1
    · rw [if_pos ⟨e2.2 d2, c⟩, if_pos (Or.inr d2)]
    · rw [if_neg (fun h => d2 (e2.1 h.1))]
      by_cases d1 : x = y
      · rw [if_pos ⟨e1.2 d1, c⟩, if_pos (Or.inl d1)]
      · rw [if_neg (fun h => d1 (e1.1 h.1)), if_neg (fun h => h.elim d1 d2)]
  refine ⟨_, hX, t2.trans s2, t3.trans s3, t4.trans s4, t1, ?_, ?_, ?_, ?_, ?_⟩
  · intro x y hx hy
    rw [key x y hx hy]
    obtain ⟨p, hp, hpw⟩ := hwhite x y hx hy
    by_cases d : x = y ∨ x + y = n - 1
    · rw [if_pos d]
      exact ⟨_, rfl, ⟨fun _ => d, fun _ => rfl⟩, fun h => absurd d h⟩
    · rw [if_neg d]
      refine ⟨p, hp, ⟨fun h => ?_, fun h => absurd h d⟩, fun _ => ⟨hp, hpw⟩⟩
      rw [h] at hpw
      exact absurd hpw (by decide)
  · rw [key 0 0 (by omega) (by omega), if_pos (Or.inl rfl)]
  · rw [key (n - 1) 0 (by omega) (by omega), if_pos (Or.inr (by omega))]
  · rw [key 0 (n - 1) (by omega) (by omega), if_pos (Or.inr (by omega))]
  · rw [key (n - 1) (n - 1) (by omega) (by omega), if_pos (Or.inl rfl)]

/-- C13, witness: the 10 x 10 all-white image `white10`. -/
theorem C13_cross_witness :
    ∃ img', white10.drawX 10 = Except.ok (some img') ∧
      img'.width = white10.width ∧ img'.height = white10.height ∧
      img'.bitCount = white10.bitCount ∧ GridShape img' ∧
      (∀ x y, x < 10 → y < 10 →
        ∃ p, getPx img'.pixels y x = Except.ok p ∧
          (p = Pixel.black ↔ (x = y ∨ x + y = 10 - 1)) ∧
          (¬ (x = y ∨ x + y = 10 - 1) →
            getPx white10.pixels y x = Except.ok p ∧ isWhite p = true)) ∧
      getPx img'.pixels 0 0 = Except.ok Pixel.black ∧
      getPx img'.pixels 0 (10 - 1) = Except.ok Pixel.black ∧
      getPx img'.pixels (10 - 1) 0 = Except.ok Pixel.black ∧
      getPx img'.pixels (10 - 1) (10 - 1) = Except.ok Pixel.black :=
  C13_cross 10 (by decide) (by decide) white10 rfl rfl white10_shape white10_px

/-- C14: for all integers `x1, y1, x2, y2` for which no `int` operation of `drawLine`
overflows, with `M = max |x2 - x1| |y2 - y1|`: the loop does exactly `M` advancing
iterations and leaves in the next one (after `M` iterations it is still running, after
`M + 1` it has returned, on every image with a `height x width` grid); the visited points
are `M + 1` in number, the first is `(x1, y1)`, the last is `(x2, y2)`, and each step changes
x by 0 or `sx` and y by 0 or `sy`, never both by 0. -/
theorem C14_termination (x1 y1 x2 y2 : Int) (hno : NoOverflow x1 y1 x2 y2) :
    lineArith (max (x2 - x1).natAbs (y2 - y1).natAbs + 1) x1 y1 x2 y2 = Except.ok true ∧
      lineArith (max (x2 - x1).natAbs (y2 - y1).natAbs) x1 y1 x2 y2 = Except.ok false ∧
      (∀ img : BmpImage, GridShape img →
        (∃ img', img.drawLine (max (x2 - x1).natAbs (y2 - y1).natAbs + 1) x1 y1 x2 y2 =
          Except.ok (some img')) ∧
        img.drawLine (max (x2 - x1).natAbs (y2 - y1).natAbs) x1 y1 x2 y2 = Except.ok none) ∧
      (lineVisited (max (x2 - x1).natAbs (y2 - y1).natAbs + 1) x1 y1 x2 y2).length =
        max (x2 - x1).natAbs (y2 - y1).natAbs + 1 ∧
      (∀ n, max (x2 - x1).natAbs (y2 - y1).natAbs + 1 ≤ n →
        lineVisited n x1 y1 x2 y2 =
          lineVisited (max (x2 - x1).natAbs (y2 - y1).natAbs + 1) x1 y1 x2 y2) ∧
      (lineVisited (max (x2 - x1).natAbs (y2 - y1).natAbs + 1) x1 y1 x2 y2)[0]? =
        some (x1, y1) ∧
      (lineVisited (max (x2 - x1).natAbs (y2 - y1).natAbs + 1) x1 y1 x2 y2)[
        max (x2 - x1).natAbs (y2 - y1).natAbs]? = some (x2, y2) ∧
      ∀ i, i < max (x2 - x1).natAbs (y2 - y1).natAbs →
        ∃ q r,
          (lineVisited (max (x2 - x1).natAbs (y2 - y1).natAbs + 1) x1 y1 x2 y2)[i]? = some q ∧
          (lineVisited (max (x2 - x1).natAbs (y2 - y1).natAbs + 1) x1 y1 x2 y2)[i + 1]? =
            some r ∧
          StepShape (if x1 < x2 then 1 else -1) (if y1 < y2 then 1 else -1) q r := by
  obtain ⟨h1, h2, h3, h4, h5, h6, h7⟩ := line_run x1 y1 x2 y2 hno _ rfl
  refine ⟨h1, h2, ?_, h3, h4, h5, h6, h7⟩
  intro img hshape
  exact ⟨⟨_, by rw [drawLine_eq img hshape, h1]⟩, by rw [drawLine_eq img hshape, h2]⟩

/-- C14, witness: the line from `(3, -2)` to `(-4, 9)`, of 11 steps. -/
theorem C14_termination_witness :
    lineArith (max ((-4 : Int) - 3).natAbs ((9 : Int) - -2).natAbs + 1) 3 (-2) (-4) 9 =
        Except.ok true ∧
      lineArith (max ((-4 : Int) - 3).natAbs ((9 : Int) - -2).natAbs) 3 (-2) (-4) 9 =
        Except.ok false ∧
      (∀ img : BmpImage, GridShape img →
        (∃ img', img.drawLine (max ((-4 : Int) - 3).natAbs ((9 : Int) - -2).natAbs + 1)
          3 (-2) (-4) 9 = Except.ok (some img')) ∧
        img.drawLine (max ((-4 : Int) - 3).natAbs ((9 : Int) - -2).natAbs) 3 (-2) (-4) 9 =
          Except.ok none) ∧
      (lineVisited (max ((-4 : Int) - 3).natAbs ((9 : Int) - -2).natAbs + 1)
        3 (-2) (-4) 9).length = max ((-4 : Int) - 3).natAbs ((9 : Int) - -2).natAbs + 1 ∧
      (∀ n, max ((-4 : Int) - 3).natAbs ((9 : Int) - -2).natAbs + 1 ≤ n →
        lineVisited n 3 (-2) (-4) 9 =
          lineVisited (max ((-4 : Int) - 3).natAbs ((9 : Int) - -2).natAbs + 1) 3 (-2) (-4) 9) ∧
      (lineVisited (max ((-4 : Int) - 3).natAbs ((9 : Int) - -2).natAbs + 1)
        3 (-2) (-4) 9)[0]? = some (3, -2) ∧
      (lineVisited (max ((-4 : Int) - 3).natAbs ((9 : Int) - -2).natAbs + 1) 3 (-2) (-4) 9)[
        max ((-4 : Int) - 3).natAbs ((9 : Int) - -2).natAbs]? = some (-4, 9) ∧
      ∀ i, i < max ((-4 : Int) - 3).natAbs ((9 : Int) - -2).natAbs →
        ∃ q r,
          (lineVisited (max ((-4 : Int) - 3).natAbs ((9 : Int) - -2).natAbs + 1)
            3 (-2) (-4) 9)[i]? = some q ∧
          (lineVisited (max ((-4 : Int) - 3).natAbs ((9 : Int) - -2).natAbs + 1)
            3 (-2) (-4) 9)[i + 1]? = some r ∧
          StepShape (if (3 : Int) < -4 then 1 else -1) (if (-2 : Int) < 9 then 1 else -1) q r :=
  C14_termination 3 (-2) (-4) 9 (noOverflow_of_done 12 3 (-2) (-4) 9 rfl)

/-- C15: for all integer endpoints, every point `(x, y)` that `drawLine` visits, in however
many iterations and also in a run that overflows later, satisfies
`2 * |(x - x1) * (y2 - y1) - (y - y1) * (x2 - x1)| <= max |x2 - x1| |y2 - y1|` in exact
integer arithmetic: it lies within half a pixel of the ideal segment, measured along the
shorter axis. -/
theorem C15_halfPixel (x1 y1 x2 y2 : Int) (n : Nat) (q : Int × Int)
    (hq : q ∈ lineVisited n x1 y1 x2 y2) :
    2 * |(q.1 - x1) * (y2 - y1) - (q.2 - y1) * (x2 - x1)| ≤ max |x2 - x1| |y2 - y1| :=
  lineVisited_bound x1 y1 x2 y2 n q hq

/-- C15, witness: the point `(2, 1)` on the line from `(0, 0)` to `(3, 2)`. -/
theorem C15_halfPixel_witness :
    ((2, 1) : Int × Int) ∈ lineVisited 4 0 0 3 2 ∧
      2 * |((2 : Int) - 0) * (2 - 0) - ((1 : Int) - 0) * (3 - 0)| ≤
        max |(3 : Int) - 0| |(2 : Int) - 0| :=
  ⟨by decide, C15_halfPixel 0 0 3 2 4 (2, 1) (by decide)⟩

/-- C16 (amended): for every image with a `height x width` grid and all integer endpoints
for which no `int` operation of `drawLine` overflows, `drawLine` returns (after
`max |x2 - x1| |y2 - y1| + 1` iterations, which visit all the points it ever visits), and
afterwards a grid pixel `(x, y)` is `(0, 0, 0, 255)` if `(x, y)` was visited and otherwise
is exactly what it was before; width, height, bitCount and the shape of the grid are
unchanged. -/
theorem C16_frame (img : BmpImage) (hshape : GridShape img) (x1 y1 x2 y2 : Int)
    (hno : NoOverflow x1 y1 x2 y2) :
    ∃ img', img.drawLine (max (x2 - x1).natAbs (y2 - y1).natAbs + 1) x1 y1 x2 y2 =
        Except.ok (some img') ∧
      img'.width = img.width ∧ img'.height = img.height ∧ img'.bitCount = img.bitCount ∧
      GridShape img' ∧
      (∀ n, max (x2 - x1).natAbs (y2 - y1).natAbs + 1 ≤ n →
        lineVisited n x1 y1 x2 y2 =
          lineVisited (max (x2 - x1).natAbs (y2 - y1).natAbs + 1) x1 y1 x2 y2) ∧
      ∀ x y : Nat, (x : Int) < img.width → (y : Int) < img.height →
        getPx img'.pixels y x =
          if ((x : Int), (y : Int)) ∈
              lineVisited (max (x2 - x1).natAbs (y2 - y1).natAbs + 1) x1 y1 x2 y2 then
            Except.ok Pixel.black
          else getPx img.pixels y x := by
  obtain ⟨h1, _, _, h4, _⟩ := line_run x1 y1 x2 y2 hno _ rfl
  obtain ⟨s1, s2, s3, s4⟩ := plotAll_shape
    (lineVisited (max (x2 - x1).natAbs (y2 - y1).natAbs + 1) x1 y1 x2 y2) img hshape
  refine ⟨_, by rw [drawLine_eq img hshape, h1], s2, s3, s4, s1, h4, ?_⟩
  intro x y hx hy
  rw [plotAll_get _ _ hshape]
  by_cases m : ((x : Int), (y : Int)) ∈
      lineVisited (max (x2 - x1).natAbs (y2 - y1).natAbs + 1) x1 y1 x2 y2
  · rw [if_pos ⟨m, hx, hy⟩, if_pos m]
  · rw [if_neg (fun h => m h.1), if_neg m]

/-- C16, witness: the line from `(-2, 1)` to `(12, 6)` on the 10 x 10 image `white10`. -/
theorem C16_frame_witness :
    ∃ img', white10.drawLine (max ((12 : Int) - -2).natAbs ((6 : Int) - 1).natAbs + 1)
        (-2) 1 12 6 = Except.ok (some img') ∧
      img'.width = white10.width ∧ img'.height = white10.height ∧
      img'.bitCount = white10.bitCount ∧ GridShape img' ∧
      (∀ n, max ((12 : Int) - -2).natAbs ((6 : Int) - 1).natAbs + 1 ≤ n →
        lineVisited n (-2) 1 12 6 =
          lineVisited (max ((12 : Int) - -2).natAbs ((6 : Int) - 1).natAbs + 1) (-2) 1 12 6) ∧
      ∀ x y : Nat, (x : Int) < white10.width → (y : Int) < white10.height →
        getPx img'.pixels y x =
          if ((x : Int), (y : Int)) ∈
              lineVisited (max ((12 : Int) - -2).natAbs ((6 : Int) - 1).natAbs + 1)
                (-2) 1 12 6 then
            Except.ok Pixel.black
          else getPx white10.pixels y x :=
  C16_frame white10 white10_shape (-2) 1 12 6 (noOverflow_of_done 15 (-2) 1 12 6 rfl)

/-- C16, counterexample: on the 10 x 10 image `white10` the call
`drawLine(-2147483648, 0, 1, 0)` computes `x2 - x1 = 2147483649`, which is not an `int`,
so there is no state after the call. -/
theorem C16_counterexample :
    GridShape white10 ∧
      ∀ fuel, white10.drawLine fuel (-2147483648) 0 1 0 = Except.error Fault.undefined :=
  ⟨white10_shape, fun _ => rfl⟩

/-- C17: `drawX` on a never-loaded image (width 0, height 0, bitCount 0, empty grid)
terminates, each of its two loops after two iterations, and leaves width, height, bitCount
and the empty grid unchanged; the bounds test of the loop fails for every point on such an
image, so the grid is never accessed. -/
theorem C17_drawX_fresh :
    (∀ fuel, 2 ≤ fuel → BmpImage.fresh.drawX fuel = Except.ok (some BmpImage.fresh)) ∧
      BmpImage.fresh.drawX 1 = Except.ok none ∧
      (∀ x y, plot BmpImage.fresh x y = Except.ok BmpImage.fresh) ∧
      BmpImage.fresh = { width := 0, height := 0, bitCount := 0, pixels := [] } := by
  refine ⟨?_, rfl, ?_, rfl⟩
  · intro fuel h
    match fuel, h with
    | n + 2, _ => rfl
  · intro x y
    unfold plot
    rw [if_neg]
    · rfl
    · intro hc
      have h1 : x < (0 : Int) := hc.2.1
      have h2 : x ≥ 0 := hc.1
      omega

/-- C18 (the code at the failing input): `truncatedRows` has valid, complete headers that
state two rows of one pixel of 24 bits, and ends after its first stored row (a white pixel),
so the second `in.read` of a row fails; `load` into a fresh image nevertheless returns
`true`, with no diagnostic, and grid row 0, whose bytes are not in the file, holds the white
pixel that the row buffer kept from the read before.  `headerOnly` states one row of one
pixel and ends right after the headers: `load` returns `true` with a black pixel decoded
from the zero-filled row buffer. -/
theorem C18_truncated_accepted :
    (ValidHeader truncatedRows ∧ ¬ CompletePixelData truncatedRows ∧
      BmpImage.fresh.load (some truncatedRows) =
        Except.ok { ret := true, cerr := none,
                    img := { width := 1, height := 2, bitCount := 24,
                             pixels := [[⟨255, 255, 255, 255⟩], [⟨255, 255, 255, 255⟩]] } }) ∧
    (ValidHeader headerOnly ∧ ¬ CompletePixelData headerOnly ∧
      BmpImage.fresh.load (some headerOnly) =
        Except.ok { ret := true, cerr := none,
                    img := { width := 1, height := 1, bitCount := 24,
                             pixels := [[⟨0, 0, 0, 255⟩]] } }) :=
  ⟨⟨⟨by decide, by decide, by decide, by decide, by decide, by decide⟩, by decide, rfl⟩,
    ⟨⟨by decide, by decide, by decide, by decide, by decide, by decide⟩, by decide, rfl⟩⟩

/-- C19 (amended): the predicate `BWGrid` (the grid is `height x width` and every pixel is
black or white) holds after every successful `load` into a fresh image; it holds after
`drawLine`, for all integer endpoints, and after `drawX` whenever they return, and
`drawLine` does return when none of its `int` operations overflows, `drawX` when `width - 1`
and `height - 1` are representable and neither of its lines overflows; consequently, whenever
`drawX` returns after a successful `load` into a fresh image, `save` succeeds and the bytes
it writes are accepted again by `load` into a fresh image, which gives the same image. -/
theorem C19_invariant :
    (∀ (file : Option (List Byte)) (out : LoadOut),
      BmpImage.fresh.load file = Except.ok out → out.ret = true → BWGrid out.img) ∧
    (∀ (img img' : BmpImage) (fuel : Nat) (x1 y1 x2 y2 : Int), BWGrid img →
      img.drawLine fuel x1 y1 x2 y2 = Except.ok (some img') → BWGrid img') ∧
    (∀ (img : BmpImage) (x1 y1 x2 y2 : Int), BWGrid img → NoOverflow x1 y1 x2 y2 →
      ∃ img', img.drawLine (max (x2 - x1).natAbs (y2 - y1).natAbs + 1) x1 y1 x2 y2 =
        Except.ok (some img')) ∧
    (∀ (img img' : BmpImage) (fuel : Nat), BWGrid img →
      img.drawX fuel = Except.ok (some img') → BWGrid img') ∧
    (∀ (img : BmpImage), BWGrid img → InInt (img.width - 1) → InInt (img.height - 1) →
      NoOverflow 0 0 (img.width - 1) (img.height - 1) →
      NoOverflow (img.width - 1) 0 0 (img.height - 1) →
      ∃ img', img.drawX
        (max (img.width - 1 - 0).natAbs (img.height - 1 - 0).natAbs + 1) =
          Except.ok (some img')) ∧
    (∀ (file : Option (List Byte)) (out : LoadOut) (fuel : Nat) (img' : BmpImage),
      BmpImage.fresh.load file = Except.ok out → out.ret = true →
      out.img.drawX fuel = Except.ok (some img') →
      ∃ bytes, img'.save true = Except.ok (true, bytes) ∧
        BmpImage.fresh.load (some bytes) =
          Except.ok { ret := true, cerr := none, img := img' }) := by
  refine ⟨?_, ?_, ?_, ?_, ?_, ?_⟩
  · intro file out h hret
    obtain ⟨W, H, bc, hw, hh, _, _, _, _, hlen, hrows⟩ := load_fresh_good file out h hret
    exact goodGrid_bw out.img bc W H hw hh hlen hrows
  · intro img img' fuel x1 y1 x2 y2 hinv h
    rw [drawLine_some img img' hinv.1 fuel x1 y1 x2 y2 h]
    exact ⟨(plotAll_shape _ img hinv.1).1,
      plotAll_all (fun p => isBlack p = true ∨ isWhite p = true) (Or.inl rfl) _ img hinv.2⟩
  · intro img x1 y1 x2 y2 hinv hno
    obtain ⟨h1, _⟩ := line_run x1 y1 x2 y2 hno _ rfl
    exact ⟨_, by rw [drawLine_eq img hinv.1, h1]⟩
  · intro img img' fuel hinv h
    obtain ⟨A, B, e⟩ := drawX_plots img img' hinv.1 fuel h
    rw [e]
    have s1 := (plotAll_shape A img hinv.1).1
    exact ⟨(plotAll_shape B _ s1).1,
      plotAll_all (fun p => isBlack p = true ∨ isWhite p = true) (Or.inl rfl) B _
        (plotAll_all (fun p => isBlack p = true ∨ isWhite p = true) (Or.inl rfl) A img
          hinv.2)⟩
  · intro img hinv hw hh hA hB
    obtain ⟨a1, _⟩ := line_run 0 0 (img.width - 1) (img.height - 1) hA _ rfl
    obtain ⟨b1, _⟩ := line_run (img.width - 1) 0 0 (img.height - 1) hB _ rfl
    have eM : max (0 - (img.width - 1)).natAbs (img.height - 1 - 0).natAbs =
        max (img.width - 1 - 0).natAbs (img.height - 1 - 0).natAbs := by
      congr 1
      omega
    rw [eM] at b1
    have hX := drawX_eq img hinv.1 hw.1 hw.2 hh.1 hh.2
      (max (img.width - 1 - 0).natAbs (img.height - 1 - 0).natAbs + 1)
    rw [a1, b1] at hX
    exact ⟨_, hX⟩
  · intro file out fuel img' h hret hX
    obtain ⟨W, H, bc, hw, hh, hb, hbc, hfit, hmax, hlen, hrows⟩ :=
      load_fresh_good file out h hret
    obtain ⟨A, B, e⟩ := drawX_plots out.img img'
      (goodGrid_gridShape out.img bc W H hw hh hlen hrows) fuel hX
    obtain ⟨p1, p2, p3, p4, p5⟩ := plots_good bc W H A out.img hw hh hlen hrows
    obtain ⟨q1, q2, q3, q4, q5⟩ := plots_good bc W H B _ p1 p2 p4 p5
    rw [e]
    exact load_save _ W H bc q1 q2 (q3.trans (p3.trans hb)) hbc hfit hmax q4 q5

/-- C19, witness: `sample24` is loaded, `drawX` returns after two iterations of each loop,
and what `save` then writes is loaded again as the same image. -/
theorem C19_invariant_witness :
    ∃ out img' bytes, BmpImage.fresh.load (some sample24) = Except.ok out ∧
      out.ret = true ∧ out.img.drawX 2 = Except.ok (some img') ∧ BWGrid out.img ∧
      BWGrid img' ∧ img'.save true = Except.ok (true, bytes) ∧
      BmpImage.fresh.load (some bytes) =
        Except.ok { ret := true, cerr := none, img := img' } := by
  have h1 : BmpImage.fresh.load (some sample24) =
      Except.ok { ret := true, cerr := none, img := sampleImage } := rfl
  have h2 : sampleImage.drawX 2 = Except.ok (some
      { width := 2, height := 2, bitCount := 24,
        pixels := [[Pixel.black, Pixel.black], [Pixel.black, Pixel.black]] }) := rfl
  have h3 := C19_invariant.1 _ _ h1 rfl
  obtain ⟨bytes, h5, h6⟩ := C19_invariant.2.2.2.2.2 _ _ 2 _ h1 rfl h2
  exact ⟨_, _, bytes, h1, rfl, h2, h3, C19_invariant.2.2.2.1 _ _ 2 h3 h2, h5, h6⟩

/-- C19, counterexample: on the 10 x 10 all-white image `white10` the call
`drawLine(0, 0, 0, 2147483647)` has `err = -2147483647` and overflows in `2 * err`; and the
all-white file `tallFile` of width 1 and height 2147483647 is loaded successfully, but on
the loaded image `drawX` calls `drawLine(0, 0, 0, 2147483646)`, which overflows in
`2 * err` in its first iteration, so nothing is there for `save` to write. -/
theorem C19_counterexample :
    (BWGrid white10 ∧
      ∀ fuel, 1 ≤ fuel →
        white10.drawLine fuel 0 0 0 2147483647 = Except.error Fault.undefined) ∧
    (∃ out, BmpImage.fresh.load (some tallFile) = Except.ok out ∧ out.ret = true ∧
      BWGrid out.img ∧
      ∀ fuel, 1 ≤ fuel → out.img.drawX fuel = Except.error Fault.undefined) := by
  constructor
  · refine ⟨⟨white10_shape, ?_⟩, ?_⟩
    · intro r hr p hp
      have er : r = List.replicate 10 { r := 255, g := 255, b := 255 } :=
        (List.mem_replicate.1 hr).2
      rw [er] at hp
      rw [(List.mem_replicate.1 hp).2]
      exact Or.inr rfl
    · intro fuel h
      match fuel, h with
      | n + 1, _ => rfl
  · have hl := tallFile_load
    refine ⟨_, hl, rfl, ?_, ?_⟩
    · obtain ⟨W, H, bc, hw, hh, _, _, _, _, hlen, hrows⟩ := load_fresh_good _ _ hl rfl
      exact goodGrid_bw _ bc W H hw hh hlen hrows
    · intro fuel h
      have hX := drawX_eq _ tallFile_shape
        (by show INT_MIN ≤ (1 : Int) - 1; unfold INT_MIN; omega)
        (by show (1 : Int) - 1 ≤ INT_MAX; unfold INT_MAX; omega)
        (by show INT_MIN ≤ (2147483647 : Int) - 1; unfold INT_MIN; omega)
        (by show (2147483647 : Int) - 1 ≤ INT_MAX; unfold INT_MAX; omega) fuel
      rw [hX]
      match fuel, h with
      | n + 1, _ => rfl

/-- C20 (amended): for every width `W >= 1` and height `H >= 1` (both `int`, square or not)
the second line of `drawX` visits exactly the horizontal mirror images of the points of the
first line, step by step, for as long as the lines run: in every number of iterations
`drawLine(W - 1, 0, 0, H - 1)` visits `(W - 1 - x, y)` at step `k` exactly when
`drawLine(0, 0, W - 1, H - 1)` visits `(x, y)` at step `k`, and the two runs have the same
arithmetic (so one overflows exactly when the other does, in the same iteration).  Hence,
whenever `drawX` returns on an all-white `W x H` image, pixel `(W - 1 - x, y)` is black
exactly when pixel `(x, y)` is black.  `drawX` does return, after `max (W - 1) (H - 1) + 1`
iterations of each loop and with that symmetry, when no `int` operation of the first line
overflows, which is so when `3 * max (W - 1) (H - 1) <= INT_MAX`. -/
theorem C20_mirror (W H : Nat) (hW : 1 ≤ W) (hH : 1 ≤ H) (hWmax : (W : Int) ≤ INT_MAX)
    (hHmax : (H : Int) ≤ INT_MAX) :
    (∀ n, lineVisited n ((W : Int) - 1) 0 0 ((H : Int) - 1) =
      (lineVisited n 0 0 ((W : Int) - 1) ((H : Int) - 1)).map (mirrorPt W)) ∧
    (∀ (n k : Nat) (x y : Int),
      (lineVisited n ((W : Int) - 1) 0 0 ((H : Int) - 1))[k]? = some ((W : Int) - 1 - x, y) ↔
        (lineVisited n 0 0 ((W : Int) - 1) ((H : Int) - 1))[k]? = some (x, y)) ∧
    (∀ n, lineArith n ((W : Int) - 1) 0 0 ((H : Int) - 1) =
      lineArith n 0 0 ((W : Int) - 1) ((H : Int) - 1)) ∧
    (∀ (img img' : BmpImage) (fuel : Nat), img.width = W → img.height = H → GridShape img →
      (∀ x y, x < W → y < H → ∃ p, getPx img.pixels y x = Except.ok p ∧ isWhite p = true) →
      img.drawX fuel = Except.ok (some img') →
      ∀ x y, x < W → y < H →
        ∃ p p', getPx img'.pixels y x = Except.ok p ∧
          getPx img'.pixels y (W - 1 - x) = Except.ok p' ∧
          (p = Pixel.black ↔ p' = Pixel.black)) ∧
    (NoOverflow 0 0 ((W : Int) - 1) ((H : Int) - 1) →
      ∀ img : BmpImage, img.width = W → img.height = H → GridShape img →
        ∃ img', img.drawX
          (max (((W : Int) - 1) - 0).natAbs (((H : Int) - 1) - 0).natAbs + 1) =
            Except.ok (some img') ∧
          ((∀ x y, x < W → y < H →
              ∃ p, getPx img.pixels y x = Except.ok p ∧ isWhite p = true) →
            ∀ x y, x < W → y < H →
              ∃ p p', getPx img'.pixels y x = Except.ok p ∧
                getPx img'.pixels y (W - 1 - x) = Except.ok p' ∧
                (p = Pixel.black ↔ p' = Pixel.black))) ∧
    (3 * max ((W : Int) - 1) ((H : Int) - 1) ≤ INT_MAX →
      NoOverflow 0 0 ((W : Int) - 1) ((H : Int) - 1)) := by
  have hWmax' : (W : Int) ≤ 2147483647 := hWmax
  have hHmax' : (H : Int) ≤ 2147483647 := hHmax
  have hm := mirror_line (W : Int) (H : Int) (by omega) hWmax (by omega) hHmax
  have p4 : ∀ (img img' : BmpImage) (fuel : Nat), img.width = W → img.height = H →
      GridShape img →
      (∀ x y, x < W → y < H → ∃ p, getPx img.pixels y x = Except.ok p ∧ isWhite p = true) →
      img.drawX fuel = Except.ok (some img') →
      ∀ x y, x < W → y < H →
        ∃ p p', getPx img'.pixels y x = Except.ok p ∧
          getPx img'.pixels y (W - 1 - x) = Except.ok p' ∧
          (p = Pixel.black ↔ p' = Pixel.black) := by
    intro img img' fuel hw hh hshape hwhite hX x y hx hy
    have e := drawX_some img img' hshape (by rw [hw]; unfold INT_MIN; omega)
      (by rw [hw]; unfold INT_MAX; omega) (by rw [hh]; unfold INT_MIN; omega)
      (by rw [hh]; unfold INT_MAX; omega) fuel hX
    rw [hw, hh] at e
    have g1 := drawX_get img hshape (lineVisited fuel 0 0 ((W : Int) - 1) ((H : Int) - 1))
      (lineVisited fuel ((W : Int) - 1) 0 0 ((H : Int) - 1)) x y (by rw [hw]; omega)
      (by rw [hh]; omega)
    have g2 := drawX_get img hshape (lineVisited fuel 0 0 ((W : Int) - 1) ((H : Int) - 1))
      (lineVisited fuel ((W : Int) - 1) 0 0 ((H : Int) - 1)) (W - 1 - x) y (by rw [hw]; omega)
      (by rw [hh]; omega)
    rw [← e] at g1 g2
    have hcast : (((W - 1 - x : Nat) : Int), (y : Int)) = mirrorPt W ((x : Int), (y : Int)) := by
      unfold mirrorPt
      apply Prod.ext <;> dsimp only
      omega
    have hmir : (((x : Int), (y : Int)) ∈ lineVisited fuel 0 0 ((W : Int) - 1) ((H : Int) - 1) ∨
        ((x : Int), (y : Int)) ∈ lineVisited fuel ((W : Int) - 1) 0 0 ((H : Int) - 1)) ↔
        ((((W - 1 - x : Nat) : Int), (y : Int)) ∈
            lineVisited fuel 0 0 ((W : Int) - 1) ((H : Int) - 1) ∨
          (((W - 1 - x : Nat) : Int), (y : Int)) ∈
            lineVisited fuel ((W : Int) - 1) 0 0 ((H : Int) - 1)) := by
      rw [hcast, (hm fuel).1, mem_map_mirrorPt, mem_map_mirrorPt, mirrorPt_mirrorPt]
      exact Or.comm
    obtain ⟨p, hp, hpw⟩ := hwhite x y hx hy
    obtain ⟨p', hp', hpw'⟩ := hwhite (W - 1 - x) y (by omega) hy
    have nb : ∀ q : Pixel, isWhite q = true → q ≠ Pixel.black := by
      intro q hq hc
      rw [hc] at hq
      exact absurd hq (by decide)
    by_cases d : ((x : Int), (y : Int)) ∈ lineVisited fuel 0 0 ((W : Int) - 1) ((H : Int) - 1) ∨
        ((x : Int), (y : Int)) ∈ lineVisited fuel ((W : Int) - 1) 0 0 ((H : Int) - 1)
    · rw [if_pos d] at g1
      rw [if_pos (hmir.1 d)] at g2
      exact ⟨_, _, g1, g2, ⟨fun _ => rfl, fun _ => rfl⟩⟩
    · rw [if_neg d, hp] at g1
      rw [if_neg (fun h => d (hmir.2 h)), hp'] at g2
      exact ⟨_, _, g1, g2, ⟨fun h => absurd h (nb p hpw), fun h => absurd h (nb p' hpw')⟩⟩
  refine ⟨fun n => (hm n).1, ?_, fun n => (hm n).2, p4, ?_, ?_⟩
  · intro n k x y
    rw [(hm n).1, List.getElem?_map]
    cases hk : (lineVisited n 0 0 ((W : Int) - 1) ((H : Int) - 1))[k]? with
    | none => simp
    | some q =>
      rw [Option.map_some']
      constructor
      · intro h
        have e := congrArg (mirrorPt W) (Option.some.inj h)
        rw [mirrorPt_mirrorPt] at e
        rw [e]
        exact congrArg some (mirrorPt_mirrorPt W (x, y))
      · intro h
        rw [Option.some.inj h]
        rfl
  · intro hno img hw hh hshape
    have hno2 : NoOverflow ((W : Int) - 1) 0 0 ((H : Int) - 1) := by
      intro n e
      rw [(hm n).2]
      exact hno n e
    obtain ⟨r1, _⟩ := line_run 0 0 ((W : Int) - 1) ((H : Int) - 1) hno _ rfl
    have r2 := (hm (max (((W : Int) - 1) - 0).natAbs (((H : Int) - 1) - 0).natAbs + 1)).2
    rw [r1] at r2
    have hX := drawX_eq img hshape (by rw [hw]; unfold INT_MIN; omega)
      (by rw [hw]; unfold INT_MAX; omega) (by rw [hh]; unfold INT_MIN; omega)
      (by rw [hh]; unfold INT_MAX; omega)
      (max (((W : Int) - 1) - 0).natAbs (((H : Int) - 1) - 0).natAbs + 1)
    rw [hw, hh, r1, r2] at hX
    exact ⟨_, hX, fun hwhite => p4 img _ _ hw hh hshape hwhite hX⟩
  · intro hb
    have e1 : |(W : Int) - 1 - 0| = (W : Int) - 1 := by
      rw [sub_zero]
      exact abs_of_nonneg (by omega)
    have e2 : |(H : Int) - 1 - 0| = (H : Int) - 1 := by
      rw [sub_zero]
      exact abs_of_nonneg (by omega)
    exact noOverflow_of_bound 0 0 ((W : Int) - 1) ((H : Int) - 1)
      ⟨by unfold INT_MIN; omega, by unfold INT_MAX; omega⟩
      ⟨by unfold INT_MIN; omega, by unfold INT_MAX; omega⟩
      ⟨by unfold INT_MIN; omega, by unfold INT_MAX; omega⟩
      ⟨by unfold INT_MIN; omega, by unfold INT_MAX; omega⟩
      (by rw [e1, e2]; exact hb)

/-- C20, witness: width 4 and height 3, on the all-white image `white4x3`.  The bound
`3 * max 3 2 <= INT_MAX` holds, so the first line has no overflow; `drawX` returns after 4
iterations of each loop, and the image it returns, written out, has the symmetry. -/
theorem C20_mirror_witness :
    NoOverflow 0 0 (((4 : Nat) : Int) - 1) (((3 : Nat) : Int) - 1) ∧
    (∃ img', white4x3.drawX 4 = Except.ok (some img') ∧
      ∀ x y, x < 4 → y < 3 →
        ∃ p p', getPx img'.pixels y x = Except.ok p ∧
          getPx img'.pixels y (4 - 1 - x) = Except.ok p' ∧
          (p = Pixel.black ↔ p' = Pixel.black)) ∧
    white4x3.drawX 4 = Except.ok (some
      { width := 4, height := 3, bitCount := 24,
        pixels := [[Pixel.black, { r := 255, g := 255, b := 255 },
                    { r := 255, g := 255, b := 255 }, Pixel.black],
                   [{ r := 255, g := 255, b := 255 }, Pixel.black, Pixel.black,
                    { r := 255, g := 255, b := 255 }],
                   [Pixel.black, { r := 255, g := 255, b := 255 },
                    { r := 255, g := 255, b := 255 }, Pixel.black]] }) ∧
    (∀ x y, x < 4 → y < 3 →
      ∃ p p',
        getPx [[Pixel.black, { r := 255, g := 255, b := 255 },
                { r := 255, g := 255, b := 255 }, Pixel.black],
               [{ r := 255, g := 255, b := 255 }, Pixel.black, Pixel.black,
                { r := 255, g := 255, b := 255 }],
               [Pixel.black, { r := 255, g := 255, b := 255 },
                { r := 255, g := 255, b := 255 }, Pixel.black]] y x = Except.ok p ∧
        getPx [[Pixel.black, { r := 255, g := 255, b := 255 },
                { r := 255, g := 255, b := 255 }, Pixel.black],
               [{ r := 255, g := 255, b := 255 }, Pixel.black, Pixel.black,
                { r := 255, g := 255, b := 255 }],
               [Pixel.black, { r := 255, g := 255, b := 255 },
                { r := 255, g := 255, b := 255 }, Pixel.black]] y (4 - 1 - x) =
          Except.ok p' ∧
        (p = Pixel.black ↔ p' = Pixel.black)) :=
  ⟨(C20_mirror 4 3 (by decide) (by decide) (by decide) (by decide)).2.2.2.2.2 (by decide),
    ((C20_mirror 4 3 (by decide) (by decide) (by decide) (by decide)).2.2.2.2.1
      (noOverflow_of_done 4 0 0 3 2 rfl) white4x3 rfl rfl white4x3_shape).imp
      (fun _ h => ⟨h.1, h.2 white4x3_px⟩),
    rfl,
    (C20_mirror 4 3 (by decide) (by decide) (by decide) (by decide)).2.2.2.1
      white4x3 _ 4 rfl rfl white4x3_shape white4x3_px rfl⟩

/-- C20, counterexample: the all-white image `narrowWhite` of width 2 and height 1073741827.
The first line of `drawX` is `drawLine(0, 0, 1, 1073741826)`, with `err = -1073741825`; after
the assignment to pixel `(0, 0)` the product `2 * err` overflows `int`, so `drawX` does not
return in any number of iterations and there is no set of blackened pixels. -/
theorem C20_counterexample :
    (1 : Int) ≤ narrowWhite.width ∧ narrowWhite.width ≤ INT_MAX ∧
    (1 : Int) ≤ narrowWhite.height ∧ narrowWhite.height ≤ INT_MAX ∧
    GridShape narrowWhite ∧
    (∀ x y, x < 2 → y < 1073741827 →
      ∃ p, getPx narrowWhite.pixels y x = Except.ok p ∧ isWhite p = true) ∧
    lineInit 0 0 (narrowWhite.width - 1) (narrowWhite.height - 1) =
      Except.ok ({ dx := 1, dy := -1073741826, sx := 1, sy := 1 },
                 { x1 := 0, y1 := 0, err := -1073741825 }) ∧
    (∀ fuel, narrowWhite.drawX (fuel + 1) = Except.error Fault.undefined) ∧
    (∀ fuel img', narrowWhite.drawX fuel ≠ Except.ok (some img')) := by
  refine ⟨by decide, by decide, by decide, by decide, narrowWhite_shape, narrowWhite_px, rfl,
    narrowWhite_drawX, ?_⟩
  intro fuel img' h
  cases fuel with
  | zero => cases h
  | succ n =>
    rw [narrowWhite_drawX n] at h
    cases h

end Bmp
